import Mathlib

/-!
# The Kafka producer binding (`src/tnt-kafka/producer.c`)

A shallow embedding of the producer half of the Tarantool Kafka binding, and
theorems about draining the delivery queue, the topic cache, message
validation, closing a session and the delivery callback.

How the C program is read:

* `int32_t` fields (`count`, `capacity`) are integers wrapped to 32 bits by
  `int32_wrap` after each arithmetic update; `size_t` products are taken modulo
  `2^64` (an LP64 target, eight-byte pointers).
* A Lua string is a `String` whose characters are its bytes.  A `char *` obtained
  from `lua_tostring` points at those bytes followed by a terminating zero, so the
  C string functions (`strlen`, `strcmp`, `rd_kafka_topic_new`) see only the bytes
  before the first zero byte (`c_str`).
* The pieces of the Lua state and of the broker client that the binding touches are
  collected in `world`: the slot of the session userdata (`*producer_p`), the Lua
  registry (delivery tokens), and a log of what the broker client was asked to do.
* Results that come from outside the binding (does `realloc` succeed, does
  `rd_kafka_produce` accept the message, what does a Lua callback do) are inputs of
  the model.  A completion callback is taken to return or raise without calling back
  into the session: it does not produce, poll, drain or close while the drain loop runs.
* The conversion of a Lua number to `int` (line 127) is the identity inside the range
  of `int`; outside it C leaves the result undefined, and the value taken is the one
  the x86-64 conversion instruction delivers, `INT_MIN`.
* The mutex around the delivery queue is not modelled: every function is read as
  one uninterrupted step of the calling thread.
-/

namespace Producer

/-! ## C scalars and C strings -/

/-- Value held by an `int32_t` after the arithmetic result `x` is stored in it. -/
def int32_wrap (x : Int) : Int := (x + 2147483648) % 4294967296 - 2147483648

/-- Conversion of an `int32_t` to `size_t` (64 bits). -/
def size_t_of_int (x : Int) : Nat := (x % 18446744073709551616).toNat

/-- Product of two `size_t` values. -/
def size_t_mul (a b : Nat) : Nat := (a * b) % 18446744073709551616

/-- Size of a pointer, `sizeof(rd_kafka_topic_t *)`. -/
def SIZEOF_POINTER : Nat := 8

/-- Largest object size an allocator can serve. -/
def PTRDIFF_MAX : Nat := 9223372036854775807

/-- Whether `realloc(p, size)` returns a non-NULL block: the allocator has the memory
(`available`, an input), the request is not empty (`realloc(p, 0)` frees the block and
returns NULL) and it is not larger than `PTRDIFF_MAX`. -/
def realloc_ok (size : Nat) (available : Bool) : Bool :=
  available && decide (0 < size) && decide (size ≤ PTRDIFF_MAX)

/-- The conversion `int events_limit = lua_tonumber(L, 2)` of an integral Lua number:
the number itself when it fits an `int`, and otherwise `INT_MIN`, the result of the
x86-64 conversion instruction for a value out of range. -/
def int_of_number (x : Int) : Int :=
  if -2147483648 ≤ x ∧ x ≤ 2147483647 then x else -2147483648

/-- The C string that a `char *` to the bytes of `s` designates: the bytes before the
first zero byte. -/
def c_str (s : String) : String :=
  ⟨s.data.takeWhile (fun c => c != Char.ofNat 0)⟩

/-- Result of `strlen` on a `char *` to the bytes of `s`. -/
def strlen (s : String) : Nat := (c_str s).length

/-- Holds when `strcmp(a, b) == 0`. -/
def strcmp_eq (a b : String) : Bool := c_str a == c_str b

/-! ## Topic cache -/

/-- A topic object of the broker client.  `name` is what `rd_kafka_topic_name`
returns, `id` tells two objects apart (the address of the object). -/
structure rd_kafka_topic_t where
  name : String
  id : Nat
deriving DecidableEq, Repr

/-- Accessor `rd_kafka_topic_name`. -/
def rd_kafka_topic_name (topic : rd_kafka_topic_t) : String := topic.name

/-- The topic cache.  `elements` lists the slots `0 .. count-1` of the C array, the only
slots the program reads; `count` and `capacity` are the `int32_t` fields. -/
structure producer_topics_t where
  elements : List rd_kafka_topic_t
  count : Int
  capacity : Int
deriving DecidableEq, Repr

/-- Source `new_producer_topics` (lines 18-30). -/
def new_producer_topics (capacity : Int) : producer_topics_t :=
  { elements := [], count := 0, capacity := capacity }

/-- The statement `topics->elements[topics->count++] = element`. -/
def store_element (topics : producer_topics_t) (element : rd_kafka_topic_t) :
    producer_topics_t :=
  { topics with
    elements := topics.elements ++ [element]
    count := int32_wrap (topics.count + 1) }

/-- Source `add_producer_topics` (lines 32-45).  `available` says whether the allocator
can serve the `realloc`; the second component is the returned `int`. -/
def add_producer_topics (topics : producer_topics_t) (element : rd_kafka_topic_t)
    (available : Bool) : producer_topics_t × Int :=
  if topics.count ≥ topics.capacity then
    if realloc_ok
        (size_t_mul (size_t_mul SIZEOF_POINTER (size_t_of_int topics.capacity)) 2)
        available then
      (store_element { topics with capacity := int32_wrap (topics.capacity * 2) } element, 0)
    else
      (topics, 1)
  else
    (store_element topics element, 0)

/-- Source `find_producer_topic_by_name` (lines 47-57): the first of the slots
`0 .. count-1` whose name compares equal to `name`, or `none` for NULL. -/
def find_producer_topic_by_name (topics : producer_topics_t) (name : String) :
    Option rd_kafka_topic_t :=
  (topics.elements.take topics.count.toNat).find?
    (fun topic => strcmp_eq (rd_kafka_topic_name topic) name)

/-- Source `destroy_producer_topics` (lines 59-69): the handles passed to
`rd_kafka_topic_destroy`, in order. -/
def destroy_producer_topics (topics : producer_topics_t) : List rd_kafka_topic_t :=
  topics.elements.take topics.count.toNat

/-! ## Delivery queue -/

/-- The code `RD_KAFKA_RESP_ERR_NO_ERROR`. -/
def RD_KAFKA_RESP_ERR_NO_ERROR : Int := 0

/-- A delivery outcome: the registry reference of the completion callback and the
error code (`queue_element_t`). -/
structure queue_element_t where
  dr_callback : Int
  err : Int
deriving DecidableEq, Repr

/-- Source `new_queue_element` (lines 71-78). -/
def new_queue_element (dr_callback : Int) (err : Int) : queue_element_t :=
  { dr_callback := dr_callback, err := err }

/-- Modelled from the spec: the delivery queue of `queue.h`, which is not among the
sources.  The spec calls it an unbounded FIFO of delivery outcomes in arrival order;
`elems` lists them oldest first. -/
structure queue_t where
  elems : List queue_element_t
deriving DecidableEq, Repr

/-- Modelled from the spec: `new_queue` of `queue.h`, an empty queue. -/
def new_queue : queue_t := { elems := [] }

/-- Modelled from the spec: `queue_push` of `queue.h`, "appends under lock". -/
def queue_push (queue : queue_t) (element : queue_element_t) : queue_t :=
  { elems := queue.elems ++ [element] }

/-- Modelled from the spec: `queue_lockfree_pop` of `queue.h`, "removes and returns
the oldest outcome, or indicates empty" (`none` for NULL). -/
def queue_lockfree_pop (queue : queue_t) : Option queue_element_t × queue_t :=
  match queue.elems with
  | [] => (none, queue)
  | element :: rest => (some element, { elems := rest })

/-! ## Lua values and the registry -/

/-- Lua values as far as the binding tells them apart.  `number n` is the number with
the integral value `n` (a value a double holds), `function` carries an identity,
`other` is any table, userdata or cdata. -/
inductive lua_value where
  | nil
  | boolean (b : Bool)
  | number (n : Int)
  | str (s : String)
  | function (f : Nat)
  | other (tag : Nat)
deriving DecidableEq, Repr

/-- The digits `ds` without their trailing zeros. -/
def strip_zeros (ds : List Char) : List Char :=
  (ds.reverse.dropWhile (fun c => c == '0')).reverse

/-- The text of an integral Lua number, format `%.14g`: the decimal digits when there
are at most fourteen, and otherwise a mantissa rounded to fourteen digits (ties to
even), without trailing zeros, and a decimal exponent. -/
def lua_number_text (n : Int) : String :=
  if n.natAbs < 100000000000000 then toString n
  else
    let a := n.natAbs
    let m := (Nat.toDigits 10 a).length
    let cut := 10 ^ (m - 14)
    let q0 := a / cut
    let r := a % cut
    let q1 := if cut < 2 * r ∨ (2 * r = cut ∧ q0 % 2 = 1) then q0 + 1 else q0
    let q := if q1 = 100000000000000 then 10000000000000 else q1
    let x := if q1 = 100000000000000 then m else m - 1
    let mantissa :=
      match strip_zeros (Nat.toDigits 10 q) with
      | [] => "0"
      | [d] => String.mk [d]
      | d :: rest => String.mk (d :: '.' :: rest)
    (if n < 0 then "-" else "") ++ mantissa ++ "e+" ++ toString x

/-- Lua API `lua_tostring`: the bytes of a string, the text of a number, and NULL
(`none`) for every other value. -/
def lua_tostring : lua_value → Option String
  | .str s => some s
  | .number n => some (lua_number_text n)
  | _ => none

/-- Lua API `lua_isfunction`. -/
def lua_isfunction : lua_value → Bool
  | .function _ => true
  | _ => false

/-- The reference `LUA_REFNIL`. -/
def LUA_REFNIL : Int := -1

/-- Lua API `lua_rawgeti(L, LUA_REGISTRYINDEX, n)`: the value stored under `n`, or nil. -/
def lua_rawgeti (registry : List (Int × lua_value)) (n : Int) : lua_value :=
  match registry.find? (fun e => e.1 == n) with
  | some e => e.2
  | none => lua_value.nil

/-- Lua API `luaL_ref(L, LUA_REGISTRYINDEX)`: stores `v` under a reference that is not
in use and returns the reference (the model takes one above the largest in use);
nil is not stored and yields `LUA_REFNIL`. -/
def luaL_ref (registry : List (Int × lua_value)) (v : lua_value) :
    Int × List (Int × lua_value) :=
  match v with
  | .nil => (LUA_REFNIL, registry)
  | _ =>
    let ref := (registry.map Prod.fst).foldl max 0 + 1
    (ref, registry ++ [(ref, v)])

/-- Lua API `luaL_unref(L, LUA_REGISTRYINDEX, ref)`: releases the reference. -/
def luaL_unref (registry : List (Int × lua_value)) (ref : Int) : List (Int × lua_value) :=
  if ref ≥ 0 then registry.filter (fun e => e.1 != ref) else registry

/-- What `lua_pcall` reports: the call returned, or it raised the error object `obj`. -/
inductive pcall_result where
  | ok
  | error (obj : lua_value)
deriving DecidableEq, Repr

/-- The two library behaviours the binding relies on and does not define:
`rd_kafka_err2str` (never NULL; the program reads its result as a C string) and the
outcome of calling a Lua value with one argument under `lua_pcall`.  The outcome
depends on the callee and the argument only: the callee is taken not to call back into
the session (no produce, poll, drain or close from inside a completion callback). -/
structure host where
  rd_kafka_err2str : Int → String
  lua_pcall : lua_value → lua_value → pcall_result

/-- What a binding function hands back to Lua: the returned values, a raised
`luaL_error`, or the result of `return lua_push_error(L)` (from `common.h`, taken as
a result of its own). -/
inductive lua_result where
  | values (vs : List lua_value)
  | error (msg : String)
  | push_error
deriving DecidableEq, Repr

/-- The idiom `fail = safe_pushstring(L, s); return fail ? lua_push_error(L) : n`
after the values `before` were pushed; `push_fail` is the result of `safe_pushstring`.
`safe_pushstring` takes a `char *`, so what is pushed is the C string at `s`. -/
def return_string (push_fail : Bool) (before : List lua_value) (s : String) : lua_result :=
  if push_fail then lua_result.push_error
  else lua_result.values (before ++ [lua_value.str (c_str s)])

/-! ## Broker client -/

/-- A message of the broker client (`rd_kafka_message_t`): what `rd_kafka_produce`
was given, and, in a delivery report, the result code `err`.  `_private` is the
per-message pointer the client echoes back. -/
structure rd_kafka_message_t where
  rkt : rd_kafka_topic_t
  payload : Option String
  len : Nat
  key : Option String
  key_len : Nat
  err : Int
  _private : Option queue_element_t
deriving DecidableEq, Repr

/-- The broker client (`rd_kafka_t`) as a record of what it was asked to do: topic
objects created, messages accepted, polls served, calls of `rd_kafka_flush`, topic
objects destroyed, and the accepted messages whose delivery report is still to come
(`in_flight`). -/
structure rd_kafka_t where
  topics : List rd_kafka_topic_t
  msgs : List rd_kafka_message_t
  polls : Nat
  flushes : Nat
  destroyed : List rd_kafka_topic_t
  in_flight : List rd_kafka_message_t
deriving DecidableEq, Repr

/-- Client API `rd_kafka_topic_new(rk, topic, NULL)`: a new topic object named by the C
string `topic`, or NULL when the client refuses (`ok = false`). -/
def rd_kafka_topic_new (rk : rd_kafka_t) (topic : String) (ok : Bool) :
    Option rd_kafka_topic_t × rd_kafka_t :=
  if ok then
    let rd_topic : rd_kafka_topic_t := { name := c_str topic, id := rk.topics.length }
    (some rd_topic, { rk with topics := rk.topics ++ [rd_topic] })
  else
    (none, rk)

/-- The bytes the client copies under `RD_KAFKA_MSG_F_COPY`: the first `len` bytes at
the pointer, nothing for a NULL pointer. -/
def copied (p : Option String) (len : Nat) : Option String :=
  p.map (fun s => ⟨s.data.take len⟩)

/-- Client API `rd_kafka_produce(rkt, -1, RD_KAFKA_MSG_F_COPY, payload, len, key,
keylen, msg_private)`: the message is queued (result `0`) or refused (result `-1`,
`accepted = false`). -/
def rd_kafka_produce (rk : rd_kafka_t) (rkt : rd_kafka_topic_t)
    (payload : Option String) (len : Nat) (key : Option String) (keylen : Nat)
    (msg_private : Option queue_element_t) (accepted : Bool) : rd_kafka_t × Int :=
  if accepted then
    let msg : rd_kafka_message_t :=
      { rkt := rkt, payload := copied payload len, len := len,
        key := copied key keylen, key_len := keylen,
        err := RD_KAFKA_RESP_ERR_NO_ERROR, _private := msg_private }
    ({ rk with msgs := rk.msgs ++ [msg], in_flight := rk.in_flight ++ [msg] }, 0)
  else
    (rk, -1)

/-! ## Producer session -/

/-- The session object (`producer_t`): the topic cache and the delivery queue it owns.
Its third field, the pointer `rd_producer`, designates the client kept in `world`. -/
structure producer_t where
  topics : producer_topics_t
  delivery_queue : queue_t
deriving DecidableEq, Repr

/-- Everything the binding reads or changes: the slot `*producer_p` of the session
userdata (`none` is NULL), the Lua registry, the broker client, and the queues handed to
`destroy_queue`. -/
structure world where
  producer_p : Option producer_t
  registry : List (Int × lua_value)
  rd_producer : rd_kafka_t
  destroyed_queues : List queue_t
deriving DecidableEq, Repr

/-- Source `lua_create_producer`, lines 408-419 (the configuration checks before them
are not part of this development): a session with an empty cache of capacity 256 and
an empty delivery queue, on a client that has done nothing yet. -/
def lua_create_producer (registry : List (Int × lua_value)) : world :=
  { producer_p := some { topics := new_producer_topics 256, delivery_queue := new_queue }
    registry := registry
    rd_producer := { topics := [], msgs := [], polls := 0, flushes := 0, destroyed := [],
                     in_flight := [] }
    destroyed_queues := [] }

/-- Source `lua_check_producer` (lines 85-91): the session object, or the message of
the `luaL_error` raised when the slot is NULL. -/
def lua_check_producer (w : world) : Except String producer_t :=
  match w.producer_p with
  | none => Except.error "Kafka consumer fatal error: failed to retrieve producer from lua stack!"
  | some producer => Except.ok producer

/-- Source `msg_delivery_callback` (lines 324-336); `queue` is the callback's third
argument. -/
def msg_delivery_callback (msg : rd_kafka_message_t) (queue : queue_t) : queue_t :=
  match msg._private with
  | none => queue
  | some element =>
    let element :=
      if msg.err ≠ RD_KAFKA_RESP_ERR_NO_ERROR then { element with err := msg.err } else element
    queue_push queue element

/-- The message as the client accepted it: a delivery report without its result
code. -/
def as_accepted (msg : rd_kafka_message_t) : rd_kafka_message_t :=
  { msg with err := RD_KAFKA_RESP_ERR_NO_ERROR }

/-- Source `lua_producer_poll` (lines 100-118).  `reports` are the delivery reports the
client serves during this `rd_kafka_poll`, each through `msg_delivery_callback`, the
reported message leaving the messages in flight; `coio_fail` says that `coio_call`
returned `-1`. -/
def lua_producer_poll (w : world) (coio_fail : Bool) (reports : List rd_kafka_message_t) :
    lua_result × world :=
  match lua_check_producer w with
  | Except.error e => (lua_result.error e, w)
  | Except.ok producer =>
    if coio_fail then
      (lua_result.values [lua_value.str "unexpected error on producer poll"], w)
    else
      let queue := reports.foldl (fun q msg => msg_delivery_callback msg q) producer.delivery_queue
      let in_flight := reports.foldl (fun l msg => l.erase (as_accepted msg)) w.rd_producer.in_flight
      (lua_result.values [],
        { w with
          producer_p := some { producer with delivery_queue := queue }
          rd_producer := { w.rd_producer with
            polls := w.rd_producer.polls + 1, in_flight := in_flight } })

/-! ## Draining the delivery queue -/

/-- One completion callback call made by a drain: the registry reference, the value
found under it, and the single argument. -/
structure callback_call where
  token : Int
  callee : lua_value
  arg : lua_value
deriving DecidableEq, Repr

/-- Locals and effects of the loop of `lua_producer_msg_delivery_poll`. -/
structure poll_loop_result where
  callbacks_count : Int
  err_str : Option String
  queue : queue_t
  registry : List (Int × lua_value)
  calls : List callback_call
deriving DecidableEq, Repr

/-- The argument pushed for a delivery outcome (lines 141-145); `lua_pushstring`
pushes the C string at the pointer `rd_kafka_err2str` returns. -/
def delivery_arg (h : host) (err : Int) : lua_value :=
  if err ≠ RD_KAFKA_RESP_ERR_NO_ERROR then lua_value.str (c_str (h.rd_kafka_err2str err))
  else lua_value.nil

/-- The call made for the outcome `element` when the registry is `registry`
(lines 140-147): the value under its reference, called with one argument. -/
def call_of (h : host) (registry : List (Int × lua_value)) (element : queue_element_t) :
    callback_call :=
  { token := element.dr_callback
    callee := lua_rawgeti registry element.dr_callback
    arg := delivery_arg h element.err }

/-- Lines 147-149: the value of `err_str` after `lua_pcall(L, 1, 0, 0)` on `callee` with
the argument `arg` (it was NULL before, or the loop had ended). -/
def pcall_err_str (h : host) (callee arg : lua_value) : Option String :=
  match h.lua_pcall callee arg with
  | pcall_result.ok => none
  | pcall_result.error obj => lua_tostring obj

/-- The `while` loop of `lua_producer_msg_delivery_poll` (lines 134-155).  The match on
the queue contents is `queue_lockfree_pop`: `[]` is its NULL result, `element :: rest`
the popped element and the queue left behind. -/
def delivery_poll_loop (h : host) (events_limit : Int) :
    List queue_element_t → Int → List (Int × lua_value) → poll_loop_result
  | [], callbacks_count, registry =>
    { callbacks_count := callbacks_count, err_str := none, queue := { elems := [] },
      registry := registry, calls := [] }
  | element :: rest, callbacks_count, registry =>
    if events_limit > callbacks_count then
      let callbacks_count := callbacks_count + 1
      let call := call_of h registry element
      let err_str := pcall_err_str h call.callee call.arg
      let registry := luaL_unref registry element.dr_callback
      match err_str with
      | some e =>
        { callbacks_count := callbacks_count, err_str := some e, queue := { elems := rest },
          registry := registry, calls := [call] }
      | none =>
        let r := delivery_poll_loop h events_limit rest callbacks_count registry
        { r with calls := call :: r.calls }
    else
      { callbacks_count := callbacks_count, err_str := none,
        queue := { elems := element :: rest }, registry := registry, calls := [] }

/-- What a drain did: the values handed back, the world afterwards, and the callback
calls made, in order. -/
structure poll_outcome where
  result : lua_result
  w : world
  calls : List callback_call
deriving DecidableEq, Repr

/-- Source `lua_producer_msg_delivery_poll` (lines 120-169), called with the session
and the integral number `limit`; line 127 converts it to the `int events_limit`. -/
def lua_producer_msg_delivery_poll (h : host) (w : world) (limit : Int)
    (push_fail : Bool) : poll_outcome :=
  match lua_check_producer w with
  | Except.error e => { result := lua_result.error e, w := w, calls := [] }
  | Except.ok producer =>
    let events_limit := int_of_number limit
    let r := delivery_poll_loop h events_limit producer.delivery_queue.elems 0 w.registry
    let w := { w with
               producer_p := some { producer with delivery_queue := r.queue }
               registry := r.registry }
    match r.err_str with
    | some err_str =>
      { result := return_string push_fail [lua_value.number r.callbacks_count] err_str,
        w := w, calls := r.calls }
    | none =>
      { result := lua_result.values [lua_value.number r.callbacks_count, lua_value.nil],
        w := w, calls := r.calls }

/-! ## Producing a message -/

/-- The message table given to `produce`: the values under its keys `topic`, `key`,
`value` and `dr_callback` (nil when a key is not set). -/
structure message where
  topic : lua_value
  key : lua_value
  value : lua_value
  dr_callback : lua_value
deriving DecidableEq, Repr

/-- What the surroundings answer during one `produce`: whether `safe_pushstring`
fails, whether `rd_kafka_topic_new` yields an object, whether the allocator can serve a
`realloc`, whether `rd_kafka_produce` accepts the message, and the code
`rd_kafka_errno2err(errno)` left by a failed client call. -/
structure produce_env where
  push_fail : Bool
  topic_new_ok : Bool
  available : Bool
  produce_ok : Bool
  last_error : Int
deriving DecidableEq, Repr

/-- The length computed at lines 191 and 199: `ptr != NULL ? strlen(ptr) : 0`. -/
def length_of (p : Option String) : Nat :=
  match p with
  | some s => strlen s
  | none => 0

/-- Lines 240-247 of `lua_producer_produce`: hand the message to the client. -/
def submit_message (h : host) (w : world) (env : produce_env) (rd_topic : rd_kafka_topic_t)
    (value : Option String) (value_len : Nat) (key : Option String) (key_len : Nat)
    (element : Option queue_element_t) : lua_result × world :=
  match rd_kafka_produce w.rd_producer rd_topic value value_len key key_len element
      env.produce_ok with
  | (rk, rc) =>
    if rc = -1 then
      (return_string env.push_fail [] (h.rd_kafka_err2str env.last_error),
        { w with rd_producer := rk })
    else
      (lua_result.values [], { w with rd_producer := rk })

/-- Source `lua_producer_produce` (lines 171-248), called with the session and one
message table. -/
def lua_producer_produce (h : host) (w : world) (msg : message) (env : produce_env) :
    lua_result × world :=
  match lua_tostring msg.topic with
  | none =>
    (return_string env.push_fail [] "producer message must contains non nil \x27topic\x27 key", w)
  | some topic =>
    let key := lua_tostring msg.key
    let key_len := length_of key
    let value := lua_tostring msg.value
    let value_len := length_of value
    if key.isNone && value.isNone then
      (return_string env.push_fail [] "producer message must contains non nil key or value", w)
    else
      -- lines 206-218: the delivery token
      let token : Option queue_element_t × List (Int × lua_value) :=
        if lua_isfunction msg.dr_callback then
          let r := luaL_ref w.registry msg.dr_callback
          (some (new_queue_element r.1 RD_KAFKA_RESP_ERR_NO_ERROR), r.2)
        else
          (none, w.registry)
      let element := token.1
      let w := { w with registry := token.2 }
      -- line 223
      match lua_check_producer w with
      | Except.error e => (lua_result.error e, w)
      | Except.ok producer =>
        match find_producer_topic_by_name producer.topics topic with
        | some rd_topic => submit_message h w env rd_topic value value_len key key_len element
        | none =>
          match rd_kafka_topic_new w.rd_producer topic env.topic_new_ok with
          | (none, _) =>
            (return_string env.push_fail [] (h.rd_kafka_err2str env.last_error), w)
          | (some rd_topic, rk) =>
            let w := { w with rd_producer := rk }
            match add_producer_topics producer.topics rd_topic env.available with
            | (topics, rc) =>
              let w := { w with producer_p := some { producer with topics := topics } }
              if rc ≠ 0 then
                (return_string env.push_fail []
                  "Unexpected error: failed to add new topic to topic list!", w)
              else
                submit_message h w env rd_topic value value_len key key_len element

/-! ## Closing a session -/

/-- Source `producer_flush` (lines 250-261).  `timeouts` is the number of calls of
`rd_kafka_flush` that report a timeout before the one that does not. -/
def producer_flush (rk : rd_kafka_t) (timeouts : Nat) : rd_kafka_t :=
  { rk with flushes := rk.flushes + (timeouts + 1) }

/-- Source `producer_close` (lines 263-287).  The three pointers of a session are set
by `lua_create_producer` and never cleared, so their NULL guards are taken; the client
itself is not destroyed (the call is commented out in the source). -/
def producer_close (w : world) (producer : producer_t) (timeouts : Nat) : world × Int :=
  let err := RD_KAFKA_RESP_ERR_NO_ERROR
  let rk := producer_flush w.rd_producer timeouts
  let rk := { rk with destroyed := rk.destroyed ++ destroy_producer_topics producer.topics }
  ({ w with rd_producer := rk
            destroyed_queues := w.destroyed_queues ++ [producer.delivery_queue] }, err)

/-- Source `lua_producer_close` (lines 289-311). -/
def lua_producer_close (h : host) (w : world) (timeouts : Nat) (push_fail : Bool) :
    lua_result × world :=
  match w.producer_p with
  | none => (lua_result.values [lua_value.boolean false], w)
  | some producer =>
    match producer_close w producer timeouts with
    | (w, err) =>
      if err ≠ 0 then
        (return_string push_fail [lua_value.boolean true] (h.rd_kafka_err2str err), w)
      else
        (lua_result.values [lua_value.boolean true], { w with producer_p := none })

/-- Source `lua_producer_gc` (lines 313-322). -/
def lua_producer_gc (w : world) (timeouts : Nat) : lua_result × world :=
  match w.producer_p with
  | some producer =>
    (lua_result.values [], { (producer_close w producer timeouts).1 with producer_p := none })
  | none => (lua_result.values [], { w with producer_p := none })

/-! ## Runs of the program and shapes of its state -/

/-- The number of outcomes a drain with limit `events_limit` takes from a queue of `n`:
`min(max(limit, 0), n)`. -/
def drain_count (events_limit : Int) (n : Nat) : Nat :=
  min (max events_limit 0).toNat n

/-- The calls a drain makes for the outcomes `els` in turn, from the registry `reg` on:
each is for the token of its outcome, its callee is what the registry holds under that
token when its turn comes (the references of the outcomes before it are released by
then), and its single argument is nil for the no-error code and the error description
of the code otherwise. -/
def calls_in_turn (h : host) : List (Int × lua_value) → List queue_element_t → List callback_call
  | _, [] => []
  | reg, el :: rest =>
    { token := el.dr_callback
      callee := lua_rawgeti reg el.dr_callback
      arg := if el.err = RD_KAFKA_RESP_ERR_NO_ERROR then lua_value.nil
             else lua_value.str (c_str (h.rd_kafka_err2str el.err)) }
      :: calls_in_turn h (luaL_unref reg el.dr_callback) rest

/-- The handles are added one after the other with `add_producer_topics`, the allocator
having memory each time; the result is the cache and the returned codes. -/
def add_all : producer_topics_t → List rd_kafka_topic_t → producer_topics_t × List Int
  | topics, [] => (topics, [])
  | topics, element :: rest =>
    let r := add_producer_topics topics element true
    let rr := add_all r.1 rest
    (rr.1, r.2 :: rr.2)

/-- A run of `produce` calls, each with its message and the answers of the
surroundings; the result is the final state and the results of the calls. -/
def produce_all (h : host) : world → List (message × produce_env) → world × List lua_result
  | w, [] => (w, [])
  | w, call :: rest =>
    let r := lua_producer_produce h w call.1 call.2
    let rr := produce_all h r.2 rest
    (rr.1, r.1 :: rr.2)

/-- The topic name a message designates for the client: the C string read from its
`topic` field (empty when the field gives none). -/
def topic_name (msg : message) : String :=
  match lua_tostring msg.topic with
  | some topic => c_str topic
  | none => ""

/-- The states a session goes through: it is created, and then `produce`, `poll`, the
drain, `close` and the collector hook are called on it in any order, with any arguments
and any answers of the surroundings. -/
inductive reachable (h : host) : world → Prop where
  | create (registry : List (Int × lua_value)) : reachable h (lua_create_producer registry)
  | produce (w : world) (msg : message) (env : produce_env) :
      reachable h w → reachable h (lua_producer_produce h w msg env).2
  | poll (w : world) (coio_fail : Bool) (reports : List rd_kafka_message_t) :
      reachable h w → reachable h (lua_producer_poll w coio_fail reports).2
  | drain (w : world) (limit : Int) (push_fail : Bool) :
      reachable h w → reachable h (lua_producer_msg_delivery_poll h w limit push_fail).w
  | close (w : world) (timeouts : Nat) (push_fail : Bool) :
      reachable h w → reachable h (lua_producer_close h w timeouts push_fail).2
  | gc (w : world) (timeouts : Nat) :
      reachable h w → reachable h (lua_producer_gc w timeouts).2

/-- Shape of a cache that has not reached the limit of `int32_t`: `count` slots are
filled, and the capacity is `256 * 2^k` with `k ≤ 22`, at least `count`. -/
def cache_ok (t : producer_topics_t) : Prop :=
  t.count = t.elements.length ∧
    ∃ k : Nat, k ≤ 22 ∧ t.capacity = ((256 * 2 ^ k : Nat) : Int) ∧ t.count ≤ t.capacity

/-- Shape of the cache of a session: either `cache_ok`, or the state after the handle
number `2^30 + 1` was stored, where the doubled capacity has wrapped to `-2^31`. -/
def cache_wf (t : producer_topics_t) : Prop :=
  cache_ok t ∨
    (t.count = t.elements.length ∧ t.count = 1073741825 ∧ t.capacity = -2147483648)

/-- The names in the cache are C strings and no two slots have the same name. -/
def cache_names_ok (t : producer_topics_t) : Prop :=
  (t.elements.map rd_kafka_topic_name).Nodup ∧
    ∀ y ∈ t.elements, c_str (rd_kafka_topic_name y) = rd_kafka_topic_name y

/-- A list of `n` handles whose names are `a`, `aa`, `aaa`, and so on. -/
def many_topics (n : Nat) : List rd_kafka_topic_t :=
  (List.range n).map (fun i => { name := ⟨List.replicate (i + 1) 'a'⟩, id := i })

/-- The registry after `produce` has taken a reference for the callback of `msg`
(lines 206-218). -/
def registry_with_token (registry : List (Int × lua_value)) (msg : message) :
    List (Int × lua_value) :=
  if lua_isfunction msg.dr_callback then (luaL_ref registry msg.dr_callback).2 else registry

/-- The queue element `produce` attaches to the message (lines 206-218). -/
def token_element (registry : List (Int × lua_value)) (msg : message) : Option queue_element_t :=
  if lua_isfunction msg.dr_callback then
    some (new_queue_element (luaL_ref registry msg.dr_callback).1 RD_KAFKA_RESP_ERR_NO_ERROR)
  else none

/-- The message `produce` hands to the client for `msg` on the topic object `rd_topic`. -/
def submitted (registry : List (Int × lua_value)) (msg : message) (rd_topic : rd_kafka_topic_t) :
    rd_kafka_message_t :=
  { rkt := rd_topic
    payload := copied (lua_tostring msg.value) (length_of (lua_tostring msg.value))
    len := length_of (lua_tostring msg.value)
    key := copied (lua_tostring msg.key) (length_of (lua_tostring msg.key))
    key_len := length_of (lua_tostring msg.key)
    err := RD_KAFKA_RESP_ERR_NO_ERROR
    _private := token_element registry msg }

/-- The state after a `produce` that found the topic object in the cache and whose
message the client accepted. -/
def after_hit (w : world) (msg : message) (rd_topic : rd_kafka_topic_t) : world :=
  { w with
    registry := registry_with_token w.registry msg,
    rd_producer := { w.rd_producer with
      msgs := w.rd_producer.msgs ++ [submitted w.registry msg rd_topic],
      in_flight := w.rd_producer.in_flight ++ [submitted w.registry msg rd_topic] } }

/-- The state after a `produce` that created the topic object `rd_topic`, stored it
(the cache becomes `topics`), and whose message the client accepted. -/
def after_miss (w : world) (producer : producer_t) (msg : message)
    (rd_topic : rd_kafka_topic_t) (topics : producer_topics_t) : world :=
  { w with
    registry := registry_with_token w.registry msg,
    rd_producer := { w.rd_producer with
      topics := w.rd_producer.topics ++ [rd_topic],
      msgs := w.rd_producer.msgs ++ [submitted w.registry msg rd_topic],
      in_flight := w.rd_producer.in_flight ++ [submitted w.registry msg rd_topic] },
    producer_p := some { producer with topics := topics } }

/-- Shape of the session in a state: if it is open, its cache is well formed. -/
def session_ok (w : world) : Prop :=
  ∀ producer, w.producer_p = some producer →
    cache_wf producer.topics ∧ cache_names_ok producer.topics

/-- Shape of the state after a run of successful `produce` calls on a new session,
`names` being the topic names of the calls in order: every topic object created is in
the cache, the objects created bear exactly the names used, and the client holds one
message per call, each on a cached object of the name of its call. -/
def run_ok (w : world) (names : List String) : Prop :=
  ∃ producer, w.producer_p = some producer
    ∧ cache_wf producer.topics ∧ cache_names_ok producer.topics
    ∧ producer.topics.elements = w.rd_producer.topics
    ∧ (∀ n, n ∈ w.rd_producer.topics.map rd_kafka_topic_name ↔ n ∈ names)
    ∧ w.rd_producer.msgs.map (fun m => rd_kafka_topic_name m.rkt) = names
    ∧ ∀ m ∈ w.rd_producer.msgs, m.rkt ∈ w.rd_producer.topics

/-- Whether each of the reports is for a message in flight, no message being reported
more often than it was accepted. -/
def reports_in_flight : List rd_kafka_message_t → List rd_kafka_message_t → Bool
  | _, [] => true
  | in_flight, report :: rest =>
    decide (as_accepted report ∈ in_flight)
      && reports_in_flight (in_flight.erase (as_accepted report)) rest

/-- The states a session goes through when the client reports only messages it has
accepted and has not reported yet: as `reachable`, with that condition on the reports
served by `poll`. -/
inductive reachable_served (h : host) : world → Prop where
  | create (registry : List (Int × lua_value)) :
      reachable_served h (lua_create_producer registry)
  | produce (w : world) (msg : message) (env : produce_env) :
      reachable_served h w → reachable_served h (lua_producer_produce h w msg env).2
  | poll (w : world) (coio_fail : Bool) (reports : List rd_kafka_message_t) :
      reachable_served h w → reports_in_flight w.rd_producer.in_flight reports = true →
      reachable_served h (lua_producer_poll w coio_fail reports).2
  | drain (w : world) (limit : Int) (push_fail : Bool) :
      reachable_served h w →
      reachable_served h (lua_producer_msg_delivery_poll h w limit push_fail).w
  | close (w : world) (timeouts : Nat) (push_fail : Bool) :
      reachable_served h w → reachable_served h (lua_producer_close h w timeouts push_fail).2
  | gc (w : world) (timeouts : Nat) :
      reachable_served h w → reachable_served h (lua_producer_gc w timeouts).2

/-- The tokens carried by messages: the references in their per-message pointers. -/
def private_tokens (msgs : List rd_kafka_message_t) : List Int :=
  msgs.filterMap (fun m => m._private.map (fun el => el.dr_callback))

/-- The tokens of the outcomes queued in the session (none when it is closed). -/
def queue_tokens (w : world) : List Int :=
  match w.producer_p with
  | some producer => producer.delivery_queue.elems.map (fun el => el.dr_callback)
  | none => []

/-- The tokens still to be consumed: those queued and those of the messages in flight. -/
def live_tokens (w : world) : List Int :=
  queue_tokens w ++ private_tokens w.rd_producer.in_flight

/-- The tokens still to be consumed are pairwise distinct, and the registry holds a
function under each. -/
def tokens_ok (w : world) : Prop :=
  (live_tokens w).Nodup
    ∧ ∀ t ∈ live_tokens w, ∃ f, lua_rawgeti w.registry t = lua_value.function f

/-! ## Sample inputs -/

/-- A host in which the functions `13` and `14` raise when called (the first a table,
the second the string `boom`) and every other call returns. -/
def sample_host : host :=
  { rd_kafka_err2str := fun _ => "Local: Message timed out"
    lua_pcall := fun callee _ =>
      match callee with
      | lua_value.function 13 => pcall_result.error (lua_value.other 0)
      | lua_value.function 14 => pcall_result.error (lua_value.str "boom")
      | _ => pcall_result.ok }

/-- A client that has done nothing yet. -/
def new_client : rd_kafka_t :=
  { topics := [], msgs := [], polls := 0, flushes := 0, destroyed := [], in_flight := [] }

/-- An open session with three pending outcomes, the second a failed delivery. -/
def sample_pending : world :=
  { producer_p := some
      { topics := new_producer_topics 256
        delivery_queue := { elems := [⟨1, 0⟩, ⟨2, -192⟩, ⟨3, 0⟩] } }
    registry := [(1, lua_value.function 1), (2, lua_value.function 2),
                 (3, lua_value.function 3)]
    rd_producer := new_client
    destroyed_queues := [] }

/-- An open session with two pending outcomes; the callback of the first raises a
table. -/
def sample_raising : world :=
  { producer_p := some
      { topics := new_producer_topics 256
        delivery_queue := { elems := [⟨1, 0⟩, ⟨2, 0⟩] } }
    registry := [(1, lua_value.function 13), (2, lua_value.function 2)]
    rd_producer := new_client
    destroyed_queues := [] }

/-- Answers of the surroundings in which everything succeeds. -/
def all_ok : produce_env :=
  { push_fail := false, topic_new_ok := true, available := true, produce_ok := true,
    last_error := 0 }

/-- Answers in which only `rd_kafka_produce` fails, with the code of a full queue. -/
def queue_full : produce_env :=
  { push_fail := false, topic_new_ok := true, available := true, produce_ok := false,
    last_error := -184 }

/-- A message for the topic `topic` with the value `v`, no key and no callback. -/
def plain_message (topic : String) : message :=
  { topic := lua_value.str topic, key := lua_value.nil, value := lua_value.str "v",
    dr_callback := lua_value.nil }

/-- A hundred messages to the two topics `a` and `b`, interleaved, all accepted. -/
def hundred_calls : List (message × produce_env) :=
  (List.range 100).map (fun i => (plain_message (if i % 3 = 0 then "a" else "b"), all_ok))

/-- A message with a completion callback (the function `7`). -/
def callback_message : message :=
  { topic := lua_value.str "t", key := lua_value.nil, value := lua_value.str "v",
    dr_callback := lua_value.function 7 }

/-- A message whose key and value contain a zero byte. -/
def binary_message : message :=
  { topic := lua_value.str "t", key := lua_value.str "a\x00b", value := lua_value.str "v\x00w",
    dr_callback := lua_value.nil }

/-- A session that was created and closed. -/
def closed_session : world :=
  (lua_producer_close sample_host (lua_create_producer []) 0 false).2

/-- A message for the topic `t` with the value `v` and the function `f` as completion
callback. -/
def message_with_callback (f : Nat) : message :=
  { topic := lua_value.str "t", key := lua_value.nil, value := lua_value.str "v",
    dr_callback := lua_value.function f }

/-- A new session on which three messages with the callbacks `1`, `2` and `3` were
produced. -/
def sample_produced : world :=
  (produce_all sample_host (lua_create_producer [])
    [(message_with_callback 1, all_ok), (message_with_callback 2, all_ok),
     (message_with_callback 3, all_ok)]).1

/-- The delivery reports of the three messages in flight: the second timed out. -/
def sample_reports : List rd_kafka_message_t :=
  List.zipWith (fun (m : rd_kafka_message_t) (e : Int) => { m with err := e })
    sample_produced.rd_producer.in_flight [0, -192, 0]

/-- The session after a `poll` that served the three reports: three outcomes are
pending. -/
def sample_served : world :=
  (lua_producer_poll sample_produced false sample_reports).2

/-- The report that the message of `callback_message`, produced on `sample_served`,
timed out. -/
def sample_timed_out : rd_kafka_message_t :=
  { rkt := { name := "t", id := 0 }, payload := some "v", len := 1, key := none, key_len := 0,
    err := -192, _private := some { dr_callback := 4, err := 0 } }

/-- The session after `callback_message` was produced on `sample_served` and the report
`sample_timed_out` served by `poll`. -/
def sample_reported : world :=
  (lua_producer_poll (lua_producer_produce sample_host sample_served callback_message all_ok).2
    false [sample_timed_out]).2

/-! ## Lemmas: the drain loop -/

theorem delivery_poll_loop_stop (h : host) (events_limit : Int) (el : queue_element_t)
    (rest : List queue_element_t) (c : Int) (reg : List (Int × lua_value))
    (hlim : ¬ events_limit > c) :
    delivery_poll_loop h events_limit (el :: rest) c reg
      = { callbacks_count := c, err_str := none, queue := { elems := el :: rest },
          registry := reg, calls := [] } := by
  simp only [delivery_poll_loop, hlim, if_false]

theorem delivery_poll_loop_break (h : host) (events_limit : Int) (el : queue_element_t)
    (rest : List queue_element_t) (c : Int) (reg : List (Int × lua_value)) (e : String)
    (hlim : events_limit > c)
    (herr : pcall_err_str h (call_of h reg el).callee (call_of h reg el).arg = some e) :
    delivery_poll_loop h events_limit (el :: rest) c reg
      = { callbacks_count := c + 1, err_str := some e, queue := { elems := rest },
          registry := luaL_unref reg el.dr_callback, calls := [call_of h reg el] } := by
  simp only [delivery_poll_loop, hlim, if_true, herr]

theorem delivery_poll_loop_continue (h : host) (events_limit : Int) (el : queue_element_t)
    (rest : List queue_element_t) (c : Int) (reg : List (Int × lua_value))
    (hlim : events_limit > c)
    (herr : pcall_err_str h (call_of h reg el).callee (call_of h reg el).arg = none) :
    delivery_poll_loop h events_limit (el :: rest) c reg
      = { delivery_poll_loop h events_limit rest (c + 1) (luaL_unref reg el.dr_callback) with
          calls := call_of h reg el
            :: (delivery_poll_loop h events_limit rest (c + 1)
                  (luaL_unref reg el.dr_callback)).calls } := by
  simp only [delivery_poll_loop, hlim, if_true, herr]

theorem head_call_mem (h : host) (events_limit : Int) (el : queue_element_t)
    (rest : List queue_element_t) (c : Int) (reg : List (Int × lua_value))
    (hlim : events_limit > c) :
    call_of h reg el ∈ (delivery_poll_loop h events_limit (el :: rest) c reg).calls := by
  cases herr : pcall_err_str h (call_of h reg el).callee (call_of h reg el).arg with
  | none => rw [delivery_poll_loop_continue h events_limit el rest c reg hlim herr]; simp
  | some e => rw [delivery_poll_loop_break h events_limit el rest c reg e hlim herr]; simp

theorem pcall_err_str_ok (h : host) (callee arg : lua_value)
    (hok : h.lua_pcall callee arg = pcall_result.ok) : pcall_err_str h callee arg = none := by
  simp [pcall_err_str, hok]

/-- The drain loop when every callback it calls returns: it takes
`min(max(limit - count, 0), n)` outcomes from the front, in order. -/
theorem delivery_poll_loop_ok (h : host) (events_limit : Int) :
    ∀ (q : List queue_element_t) (c : Int) (reg : List (Int × lua_value)),
      (∀ x ∈ (delivery_poll_loop h events_limit q c reg).calls,
          h.lua_pcall x.callee x.arg = pcall_result.ok) →
      (delivery_poll_loop h events_limit q c reg).callbacks_count
          = c + (drain_count (events_limit - c) q.length : Nat)
      ∧ (delivery_poll_loop h events_limit q c reg).err_str = none
      ∧ (delivery_poll_loop h events_limit q c reg).queue.elems
          = q.drop (drain_count (events_limit - c) q.length)
      ∧ (delivery_poll_loop h events_limit q c reg).calls.map (fun x => (x.token, x.arg))
          = (q.take (drain_count (events_limit - c) q.length)).map
              (fun el => (el.dr_callback, delivery_arg h el.err))
      ∧ (delivery_poll_loop h events_limit q c reg).registry
          = (q.take (drain_count (events_limit - c) q.length)).foldl
              (fun r el => luaL_unref r el.dr_callback) reg := by
  intro q
  induction q with
  | nil => intro c reg _; simp [delivery_poll_loop, drain_count]
  | cons el rest ih =>
    intro c reg hok
    by_cases hlim : events_limit > c
    · have hk : drain_count (events_limit - c) (rest.length + 1)
          = drain_count (events_limit - (c + 1)) rest.length + 1 := by
        unfold drain_count; omega
      have hhead := pcall_err_str_ok h _ _
        (hok (call_of h reg el) (head_call_mem h events_limit el rest c reg hlim))
      have hstep := delivery_poll_loop_continue h events_limit el rest c reg hlim hhead
      have hrest := ih (c + 1) (luaL_unref reg el.dr_callback) (by
        intro x hx
        apply hok
        rw [hstep]
        exact List.mem_cons_of_mem _ hx)
      obtain ⟨h1, h2, h3, h4, h5⟩ := hrest
      rw [hstep]
      simp only [List.length_cons, hk, List.drop_succ_cons, List.take_succ_cons, List.map_cons,
        List.foldl_cons]
      refine ⟨?_, h2, h3, ?_, h5⟩
      · rw [h1]; push_cast; ring
      · rw [h4]; rfl
    · have hk : drain_count (events_limit - c) (rest.length + 1) = 0 := by
        unfold drain_count; omega
      rw [delivery_poll_loop_stop h events_limit el rest c reg hlim]
      simp only [List.length_cons, hk]
      simp

theorem find_filter_ne (reg : List (Int × lua_value)) (r n : Int) (hne : n ≠ r) :
    (reg.filter (fun e => e.1 != r)).find? (fun e => e.1 == n)
      = reg.find? (fun e => e.1 == n) := by
  induction reg with
  | nil => rfl
  | cons e rest ih =>
    by_cases he : e.1 = r
    · have hn : (e.1 == n) = false := by
        rw [he]; exact beq_false_of_ne (fun hh => hne hh.symm)
      have hf : (e.1 != r) = false := by simp [he]
      simp only [List.filter_cons, hf, List.find?_cons, hn, Bool.false_eq_true, if_false]
      exact ih
    · have hf : (e.1 != r) = true := by simp [he]
      simp only [List.filter_cons, hf, List.find?_cons, if_true]
      cases hn : (e.1 == n)
      · exact ih
      · rfl

theorem lua_rawgeti_unref_ne (reg : List (Int × lua_value)) (r n : Int) (hne : n ≠ r) :
    lua_rawgeti (luaL_unref reg r) n = lua_rawgeti reg n := by
  unfold luaL_unref
  split
  · unfold lua_rawgeti
    rw [find_filter_ne reg r n hne]
  · rfl

theorem call_of_unref_ne (h : host) (reg : List (Int × lua_value)) (r : Int)
    (el : queue_element_t) (hne : el.dr_callback ≠ r) :
    call_of h (luaL_unref reg r) el = call_of h reg el := by
  simp only [call_of, lua_rawgeti_unref_ne reg r el.dr_callback hne]

/-- With pairwise distinct tokens in the queue, each call of a drain whose callbacks
return is the call of the value registered under the token before the drain. -/
theorem delivery_poll_loop_calls (h : host) (events_limit : Int) :
    ∀ (q : List queue_element_t) (c : Int) (reg : List (Int × lua_value)),
      (∀ x ∈ (delivery_poll_loop h events_limit q c reg).calls,
          h.lua_pcall x.callee x.arg = pcall_result.ok) →
      (q.map (fun el => el.dr_callback)).Nodup →
      (delivery_poll_loop h events_limit q c reg).calls
        = (q.take (drain_count (events_limit - c) q.length)).map (call_of h reg) := by
  intro q
  induction q with
  | nil => intro c reg _ _; simp [delivery_poll_loop]
  | cons el rest ih =>
    intro c reg hok hnd
    by_cases hlim : events_limit > c
    · have hk : drain_count (events_limit - c) (rest.length + 1)
          = drain_count (events_limit - (c + 1)) rest.length + 1 := by
        unfold drain_count; omega
      have hhead := pcall_err_str_ok h _ _
        (hok (call_of h reg el) (head_call_mem h events_limit el rest c reg hlim))
      have hstep := delivery_poll_loop_continue h events_limit el rest c reg hlim hhead
      rw [List.map_cons, List.nodup_cons] at hnd
      have hrest := ih (c + 1) (luaL_unref reg el.dr_callback) (by
        intro x hx
        apply hok
        rw [hstep]
        exact List.mem_cons_of_mem _ hx) hnd.2
      rw [hstep]
      simp only [List.length_cons, hk, List.take_succ_cons, List.map_cons]
      rw [hrest]
      congr 1
      apply List.map_congr_left
      intro el2 hel2
      apply call_of_unref_ne
      intro heq
      apply hnd.1
      rw [← heq]
      exact List.mem_map_of_mem _ (List.mem_of_mem_take hel2)
    · have hk : drain_count (events_limit - c) (rest.length + 1) = 0 := by
        unfold drain_count; omega
      rw [delivery_poll_loop_stop h events_limit el rest c reg hlim]
      simp only [List.length_cons, hk]
      simp

theorem call_of_eq (h : host) (reg : List (Int × lua_value)) (el : queue_element_t) :
    call_of h reg el
      = { token := el.dr_callback
          callee := lua_rawgeti reg el.dr_callback
          arg := if el.err = RD_KAFKA_RESP_ERR_NO_ERROR then lua_value.nil
                 else lua_value.str (c_str (h.rd_kafka_err2str el.err)) } := by
  unfold call_of delivery_arg
  by_cases he : el.err = RD_KAFKA_RESP_ERR_NO_ERROR <;> simp [he]

/-- The calls of the drain loop when every callback it calls returns: those of the first
`min(max(limit - count, 0), n)` outcomes, in turn. -/
theorem delivery_poll_loop_calls_in_turn (h : host) (events_limit : Int) :
    ∀ (q : List queue_element_t) (c : Int) (reg : List (Int × lua_value)),
      (∀ x ∈ (delivery_poll_loop h events_limit q c reg).calls,
          h.lua_pcall x.callee x.arg = pcall_result.ok) →
      (delivery_poll_loop h events_limit q c reg).calls
        = calls_in_turn h reg (q.take (drain_count (events_limit - c) q.length)) := by
  intro q
  induction q with
  | nil => intro c reg _; simp [delivery_poll_loop, calls_in_turn]
  | cons el rest ih =>
    intro c reg hok
    by_cases hlim : events_limit > c
    · have hk : drain_count (events_limit - c) (rest.length + 1)
          = drain_count (events_limit - (c + 1)) rest.length + 1 := by
        unfold drain_count; omega
      have hhead := pcall_err_str_ok h _ _
        (hok (call_of h reg el) (head_call_mem h events_limit el rest c reg hlim))
      have hstep := delivery_poll_loop_continue h events_limit el rest c reg hlim hhead
      have hrest := ih (c + 1) (luaL_unref reg el.dr_callback) (by
        intro x hx
        apply hok
        rw [hstep]
        exact List.mem_cons_of_mem _ hx)
      rw [hstep]
      simp only [List.length_cons, hk, List.take_succ_cons, calls_in_turn]
      rw [hrest, call_of_eq]
    · have hk : drain_count (events_limit - c) (rest.length + 1) = 0 := by
        unfold drain_count; omega
      rw [delivery_poll_loop_stop h events_limit el rest c reg hlim]
      simp only [List.length_cons, hk]
      simp [calls_in_turn]

theorem calls_in_turn_length (h : host) :
    ∀ (l : List queue_element_t) (reg : List (Int × lua_value)),
      (calls_in_turn h reg l).length = l.length := by
  intro l
  induction l with
  | nil => intro reg; rfl
  | cons el rest ih => intro reg; simp [calls_in_turn, ih]

/-- The call number `i` of `calls_in_turn`: for the outcome number `i`, with the callee
found in the registry after the references of the outcomes before it were released. -/
theorem calls_in_turn_get (h : host) :
    ∀ (l : List queue_element_t) (reg : List (Int × lua_value)) (i : Nat) (el : queue_element_t),
      l[i]? = some el →
      (calls_in_turn h reg l)[i]?
        = some { token := el.dr_callback
                 callee := lua_rawgeti
                   ((l.take i).foldl (fun r x => luaL_unref r x.dr_callback) reg) el.dr_callback
                 arg := if el.err = RD_KAFKA_RESP_ERR_NO_ERROR then lua_value.nil
                        else lua_value.str (c_str (h.rd_kafka_err2str el.err)) } := by
  intro l
  induction l with
  | nil => intro reg i el hi; simp at hi
  | cons x rest ih =>
    intro reg i el hi
    cases i with
    | zero =>
      simp only [List.getElem?_cons_zero, Option.some.injEq] at hi
      subst hi
      simp [calls_in_turn]
    | succ j =>
      simp only [List.getElem?_cons_succ] at hi
      simp only [calls_in_turn, List.getElem?_cons_succ, List.take_succ_cons, List.foldl_cons]
      exact ih (luaL_unref reg x.dr_callback) j el hi

theorem calls_in_turn_token_arg (h : host) :
    ∀ (l : List queue_element_t) (reg : List (Int × lua_value)),
      (calls_in_turn h reg l).map (fun c => (c.token, c.arg))
        = l.map (fun el => (el.dr_callback,
            if el.err = RD_KAFKA_RESP_ERR_NO_ERROR then lua_value.nil
            else lua_value.str (c_str (h.rd_kafka_err2str el.err)))) := by
  intro l
  induction l with
  | nil => intro reg; rfl
  | cons el rest ih => intro reg; simp [calls_in_turn, ih]

/-- With pairwise distinct tokens, releasing the references of earlier outcomes does
not change what the registry holds under a later token. -/
theorem calls_in_turn_callee (h : host) :
    ∀ (l : List queue_element_t) (reg : List (Int × lua_value)),
      (l.map (fun el => el.dr_callback)).Nodup →
      ∀ c ∈ calls_in_turn h reg l, c.callee = lua_rawgeti reg c.token := by
  intro l
  induction l with
  | nil => intro reg _ c hc; simp [calls_in_turn] at hc
  | cons el rest ih =>
    intro reg hnd c hc
    rw [List.map_cons, List.nodup_cons] at hnd
    simp only [calls_in_turn, List.mem_cons] at hc
    rcases hc with hc | hc
    · rw [hc]
    · have h1 := ih (luaL_unref reg el.dr_callback) hnd.2 c hc
      rw [h1]
      apply lua_rawgeti_unref_ne
      intro heq
      apply hnd.1
      have hmem : c.token ∈ (calls_in_turn h (luaL_unref reg el.dr_callback) rest).map
          (fun c => c.token) := List.mem_map_of_mem _ hc
      have hfst := congrArg (List.map Prod.fst)
        (calls_in_turn_token_arg h rest (luaL_unref reg el.dr_callback))
      simp only [List.map_map] at hfst
      have hfun1 : (Prod.fst ∘ fun c : callback_call => (c.token, c.arg)) = fun c => c.token := rfl
      rw [hfun1] at hfst
      rw [hfst] at hmem
      rw [← heq]
      simpa [Function.comp] using hmem

/-- The limit as the program sees it agrees with the number given, up to `INT_MAX`. -/
theorem drain_count_int_of_number (limit : Int) (n : Nat) (hlimit : limit ≤ 2147483647) :
    drain_count (int_of_number limit) n = drain_count limit n := by
  unfold drain_count int_of_number
  split <;> omega

/-- A drain of an open session when every callback it calls returns. -/
theorem drain_ok (h : host) (w : world) (producer : producer_t) (limit : Int)
    (push_fail : Bool) (hopen : w.producer_p = some producer)
    (hok : ∀ c ∈ (lua_producer_msg_delivery_poll h w limit push_fail).calls,
        h.lua_pcall c.callee c.arg = pcall_result.ok) :
    (lua_producer_msg_delivery_poll h w limit push_fail).calls
      = calls_in_turn h w.registry (producer.delivery_queue.elems.take
          (drain_count (int_of_number limit) producer.delivery_queue.elems.length))
    ∧ (lua_producer_msg_delivery_poll h w limit push_fail).result
      = lua_result.values
          [lua_value.number
            (drain_count (int_of_number limit) producer.delivery_queue.elems.length),
           lua_value.nil]
    ∧ (lua_producer_msg_delivery_poll h w limit push_fail).w
      = { w with
          producer_p := some { producer with
            delivery_queue :=
              { elems := producer.delivery_queue.elems.drop
                  (drain_count (int_of_number limit) producer.delivery_queue.elems.length) } },
          registry :=
            (producer.delivery_queue.elems.take
              (drain_count (int_of_number limit) producer.delivery_queue.elems.length)).foldl
              (fun r el => luaL_unref r el.dr_callback) w.registry } := by
  have hcalls : (lua_producer_msg_delivery_poll h w limit push_fail).calls
      = (delivery_poll_loop h (int_of_number limit) producer.delivery_queue.elems 0
          w.registry).calls := by
    simp only [lua_producer_msg_delivery_poll, lua_check_producer, hopen]
    split <;> rfl
  rw [hcalls] at hok
  obtain ⟨h1, h2, h3, _, h5⟩ :=
    delivery_poll_loop_ok h (int_of_number limit) producer.delivery_queue.elems 0 w.registry hok
  have h6 := delivery_poll_loop_calls_in_turn h (int_of_number limit)
    producer.delivery_queue.elems 0 w.registry hok
  simp only [sub_zero, zero_add] at h1 h3 h5 h6
  refine ⟨by rw [hcalls, h6], ?_, ?_⟩
  · simp only [lua_producer_msg_delivery_poll, lua_check_producer, hopen, h2, h1]
  · simp only [lua_producer_msg_delivery_poll, lua_check_producer, hopen, h2, h5]
    congr
    cases hq : (delivery_poll_loop h (int_of_number limit) producer.delivery_queue.elems 0
        w.registry).queue
    rw [hq] at h3
    simp only at h3
    rw [h3]

theorem le_foldl_max (l : List Int) :
    ∀ (a : Int), a ≤ l.foldl max a ∧ ∀ k ∈ l, k ≤ l.foldl max a := by
  induction l with
  | nil => intro a; simp
  | cons x rest ih =>
    intro a
    obtain ⟨h1, h2⟩ := ih (max a x)
    simp only [List.foldl_cons]
    refine ⟨le_trans (le_max_left a x) h1, ?_⟩
    intro k hk
    rcases List.mem_cons.1 hk with h | h
    · rw [h]; exact le_trans (le_max_right a x) h1
    · exact h2 k h

/-- The reference `luaL_ref` returns for a function designates that function in the
registry it returns. -/
theorem lua_rawgeti_luaL_ref (registry : List (Int × lua_value)) (v : lua_value)
    (hv : lua_isfunction v = true) :
    lua_rawgeti (luaL_ref registry v).2 (luaL_ref registry v).1 = v := by
  cases v with
  | function f =>
    simp only [luaL_ref, lua_rawgeti]
    have hfresh : registry.find? (fun e => e.1 == (registry.map Prod.fst).foldl max 0 + 1) = none := by
      rw [List.find?_eq_none]
      intro e he
      have := (le_foldl_max (registry.map Prod.fst) 0).2 e.1 (List.mem_map_of_mem _ he)
      simp only [beq_iff_eq]
      omega
    rw [List.find?_append, hfresh]
    simp
  | nil => simp [lua_isfunction] at hv
  | boolean b => simp [lua_isfunction] at hv
  | number n => simp [lua_isfunction] at hv
  | str s => simp [lua_isfunction] at hv
  | other t => simp [lua_isfunction] at hv

theorem delivery_poll_loop_calls_from_queue (h : host) (events_limit : Int) :
    ∀ (q : List queue_element_t) (c : Int) (reg : List (Int × lua_value)),
      ∀ x ∈ (delivery_poll_loop h events_limit q c reg).calls,
        ∃ el ∈ q, x.token = el.dr_callback ∧ x.arg = delivery_arg h el.err := by
  intro q
  induction q with
  | nil => intro c reg x hx; simp [delivery_poll_loop] at hx
  | cons el rest ih =>
    intro c reg x hx
    by_cases hlim : events_limit > c
    · cases herr : pcall_err_str h (call_of h reg el).callee (call_of h reg el).arg with
      | none =>
        rw [delivery_poll_loop_continue h events_limit el rest c reg hlim herr] at hx
        rcases List.mem_cons.1 hx with hx | hx
        · exact ⟨el, List.mem_cons_self _ _, by rw [hx]; rfl, by rw [hx]; rfl⟩
        · obtain ⟨el2, hel2, h1, h2⟩ := ih _ _ x hx
          exact ⟨el2, List.mem_cons_of_mem _ hel2, h1, h2⟩
      | some e =>
        rw [delivery_poll_loop_break h events_limit el rest c reg e hlim herr] at hx
        simp only [List.mem_singleton] at hx
        exact ⟨el, List.mem_cons_self _ _, by rw [hx]; rfl, by rw [hx]; rfl⟩
    · rw [delivery_poll_loop_stop h events_limit el rest c reg hlim] at hx
      simp at hx

theorem delivery_poll_loop_err_from_call (h : host) (events_limit : Int) :
    ∀ (q : List queue_element_t) (c : Int) (reg : List (Int × lua_value)) (s : String),
      (delivery_poll_loop h events_limit q c reg).err_str = some s →
      ∃ x ∈ (delivery_poll_loop h events_limit q c reg).calls,
        pcall_err_str h x.callee x.arg = some s := by
  intro q
  induction q with
  | nil => intro c reg s hs; simp [delivery_poll_loop] at hs
  | cons el rest ih =>
    intro c reg s hs
    by_cases hlim : events_limit > c
    · cases herr : pcall_err_str h (call_of h reg el).callee (call_of h reg el).arg with
      | none =>
        rw [delivery_poll_loop_continue h events_limit el rest c reg hlim herr] at hs ⊢
        obtain ⟨x, hx, hxs⟩ := ih _ _ s hs
        exact ⟨x, List.mem_cons_of_mem _ hx, hxs⟩
      | some e =>
        rw [delivery_poll_loop_break h events_limit el rest c reg e hlim herr] at hs ⊢
        simp only [Option.some.injEq] at hs
        exact ⟨call_of h reg el, List.mem_singleton.2 rfl, by rw [herr, hs]⟩
    · rw [delivery_poll_loop_stop h events_limit el rest c reg hlim] at hs
      simp at hs

theorem pcall_err_str_some (h : host) (callee arg : lua_value) (s : String)
    (hs : pcall_err_str h callee arg = some s) :
    ∃ obj, h.lua_pcall callee arg = pcall_result.error obj ∧ lua_tostring obj = some s := by
  unfold pcall_err_str at hs
  cases hp : h.lua_pcall callee arg with
  | ok => simp [hp] at hs
  | error obj => exact ⟨obj, rfl, by simpa [hp] using hs⟩

theorem delivery_arg_nil_iff (h : host) (err : Int) :
    delivery_arg h err = lua_value.nil ↔ err = RD_KAFKA_RESP_ERR_NO_ERROR := by
  unfold delivery_arg
  by_cases he : err = RD_KAFKA_RESP_ERR_NO_ERROR <;> simp [he]

/-- One turn of the `while` loop as the source writes it, with `queue_lockfree_pop`:
`delivery_poll_loop` on the contents of `queue` is this turn followed by the loop on
the queue that the pop left. -/
theorem delivery_poll_loop_turn (h : host) (events_limit : Int) (queue : queue_t) (c : Int)
    (reg : List (Int × lua_value)) :
    delivery_poll_loop h events_limit queue.elems c reg
      = if events_limit > c then
          match queue_lockfree_pop queue with
          | (none, _) =>
            { callbacks_count := c, err_str := none, queue := queue, registry := reg,
              calls := [] }
          | (some element, rest) =>
            match pcall_err_str h (call_of h reg element).callee (call_of h reg element).arg with
            | some e =>
              { callbacks_count := c + 1, err_str := some e, queue := rest,
                registry := luaL_unref reg element.dr_callback,
                calls := [call_of h reg element] }
            | none =>
              { delivery_poll_loop h events_limit rest.elems (c + 1)
                  (luaL_unref reg element.dr_callback) with
                calls := call_of h reg element
                  :: (delivery_poll_loop h events_limit rest.elems (c + 1)
                        (luaL_unref reg element.dr_callback)).calls }
        else
          { callbacks_count := c, err_str := none, queue := queue, registry := reg,
            calls := [] } := by
  cases queue with
  | mk elems =>
    cases elems with
    | nil => simp [delivery_poll_loop, queue_lockfree_pop]
    | cons el rest =>
      by_cases hlim : events_limit > c
      · simp only [hlim, if_true, queue_lockfree_pop]
        cases herr : pcall_err_str h (call_of h reg el).callee (call_of h reg el).arg with
        | none => rw [delivery_poll_loop_continue h events_limit el rest c reg hlim herr]
        | some e => rw [delivery_poll_loop_break h events_limit el rest c reg e hlim herr]
      · simp only [hlim, if_false]
        exact delivery_poll_loop_stop h events_limit el rest c reg hlim

/-- The drain loop up to the first callback that raises an error object with a string
form: the outcomes `pre` before it are called and return, the outcome `qj` raises
`obj`, the limit is not reached before `qj`, and the tokens up to `qj` are pairwise
distinct.  The loop stops after `qj` with the string of `obj`, and `post` stays queued. -/
theorem delivery_poll_loop_stops_at_string_error (h : host) (events_limit : Int)
    (qj : queue_element_t) (post : List queue_element_t) (obj : lua_value) (s : String)
    (hs : lua_tostring obj = some s) :
    ∀ (pre : List queue_element_t) (c : Int) (reg : List (Int × lua_value)),
      (∀ el ∈ pre, h.lua_pcall (call_of h reg el).callee (call_of h reg el).arg
          = pcall_result.ok) →
      h.lua_pcall (call_of h reg qj).callee (call_of h reg qj).arg = pcall_result.error obj →
      ((pre ++ [qj]).map (fun el => el.dr_callback)).Nodup →
      c + pre.length < events_limit →
      delivery_poll_loop h events_limit (pre ++ qj :: post) c reg
        = { callbacks_count := c + pre.length + 1, err_str := some s,
            queue := { elems := post },
            registry := (pre ++ [qj]).foldl (fun r el => luaL_unref r el.dr_callback) reg,
            calls := (pre ++ [qj]).map (call_of h reg) } := by
  intro pre
  induction pre with
  | nil =>
    intro c reg _ hq _ hlim
    have herr : pcall_err_str h (call_of h reg qj).callee (call_of h reg qj).arg = some s := by
      simp [pcall_err_str, hq, hs]
    simp only [List.length_nil, Nat.cast_zero, add_zero] at hlim
    rw [List.nil_append, delivery_poll_loop_break h events_limit qj post c reg s hlim herr]
    simp
  | cons el rest ih =>
    intro c reg hpre hq hnd hlim
    simp only [List.length_cons, Nat.cast_add, Nat.cast_one] at hlim
    have hlim1 : events_limit > c := by omega
    have herr := pcall_err_str_ok h _ _ (hpre el (List.mem_cons_self _ _))
    rw [List.cons_append, List.map_cons, List.nodup_cons] at hnd
    have hne : ∀ el2 ∈ rest ++ [qj], el2.dr_callback ≠ el.dr_callback := by
      intro el2 hel2 heq
      apply hnd.1
      rw [← heq]
      exact List.mem_map_of_mem _ hel2
    have hcall : ∀ el2 ∈ rest ++ [qj],
        call_of h (luaL_unref reg el.dr_callback) el2 = call_of h reg el2 :=
      fun el2 hel2 => call_of_unref_ne h reg el.dr_callback el2 (hne el2 hel2)
    have hrest := ih (c + 1) (luaL_unref reg el.dr_callback)
      (by
        intro el2 hel2
        rw [hcall el2 (List.mem_append_left _ hel2)]
        exact hpre el2 (List.mem_cons_of_mem _ hel2))
      (by
        rw [hcall qj (List.mem_append_right _ (List.mem_singleton.2 rfl))]
        exact hq)
      hnd.2 (by omega)
    rw [List.cons_append, delivery_poll_loop_continue h events_limit el _ c reg hlim1 herr, hrest]
    simp only [List.cons_append, List.foldl_cons, List.map_cons, List.length_cons,
      Nat.cast_add, Nat.cast_one]
    congr 1
    · ring
    · congr 1
      exact List.map_congr_left hcall

/-- The counter of the loop stays between its start and the limit (when the limit is
above the start), so with an `int` limit the statement `callbacks_count += 1` never
leaves the range of `int`. -/
theorem delivery_poll_loop_count_bounds (h : host) (events_limit : Int) :
    ∀ (q : List queue_element_t) (c : Int) (reg : List (Int × lua_value)),
      c ≤ (delivery_poll_loop h events_limit q c reg).callbacks_count
      ∧ (delivery_poll_loop h events_limit q c reg).callbacks_count ≤ max c events_limit := by
  intro q
  induction q with
  | nil => intro c reg; simp [delivery_poll_loop]
  | cons el rest ih =>
    intro c reg
    by_cases hlim : events_limit > c
    · cases herr : pcall_err_str h (call_of h reg el).callee (call_of h reg el).arg with
      | none =>
        rw [delivery_poll_loop_continue h events_limit el rest c reg hlim herr]
        obtain ⟨h1, h2⟩ := ih (c + 1) (luaL_unref reg el.dr_callback)
        constructor
        · show c ≤ (delivery_poll_loop h events_limit rest (c + 1) _).callbacks_count
          omega
        · show (delivery_poll_loop h events_limit rest (c + 1) _).callbacks_count ≤ _
          omega
      | some e =>
        rw [delivery_poll_loop_break h events_limit el rest c reg e hlim herr]
        constructor
        · show c ≤ c + 1
          omega
        · show c + 1 ≤ max c events_limit
          omega
    · rw [delivery_poll_loop_stop h events_limit el rest c reg hlim]
      simp

/-- The drain loop on a queue that ends with the outcome `el`, when the limit covers
the queue, the token of `el` is not one of the earlier tokens, and every call for
another token returns: all outcomes are called in turn, and the loop ends with the
error string, if any, of the call for `el`. -/
theorem delivery_poll_loop_reaches_last (h : host) (events_limit : Int) (el : queue_element_t) :
    ∀ (pre : List queue_element_t) (c : Int) (reg : List (Int × lua_value)),
      el.dr_callback ∉ pre.map (fun x => x.dr_callback) →
      c + pre.length < events_limit →
      (∀ x ∈ (delivery_poll_loop h events_limit (pre ++ [el]) c reg).calls,
          x.token ≠ el.dr_callback → h.lua_pcall x.callee x.arg = pcall_result.ok) →
      delivery_poll_loop h events_limit (pre ++ [el]) c reg
        = { callbacks_count := c + pre.length + 1
            err_str := pcall_err_str h
              (lua_rawgeti (pre.foldl (fun r x => luaL_unref r x.dr_callback) reg) el.dr_callback)
              (if el.err = RD_KAFKA_RESP_ERR_NO_ERROR then lua_value.nil
               else lua_value.str (c_str (h.rd_kafka_err2str el.err)))
            queue := { elems := [] }
            registry := (pre ++ [el]).foldl (fun r x => luaL_unref r x.dr_callback) reg
            calls := calls_in_turn h reg (pre ++ [el]) } := by
  intro pre
  induction pre with
  | nil =>
    intro c reg _ hlim _
    simp only [List.length_nil, Nat.cast_zero, add_zero] at hlim
    have hgt : events_limit > c := hlim
    have hcall := call_of_eq h reg el
    cases herr : pcall_err_str h (call_of h reg el).callee (call_of h reg el).arg with
    | none =>
      rw [List.nil_append, delivery_poll_loop_continue h events_limit el [] c reg hgt herr]
      rw [hcall] at herr
      simp only at herr
      simp [delivery_poll_loop, calls_in_turn, herr, hcall]
    | some e =>
      rw [List.nil_append, delivery_poll_loop_break h events_limit el [] c reg e hgt herr]
      rw [hcall] at herr
      simp only at herr
      simp [calls_in_turn, herr, hcall]
  | cons p rest ih =>
    intro c reg hnot hlim hok
    simp only [List.map_cons, List.mem_cons, not_or] at hnot
    simp only [List.length_cons, Nat.cast_add, Nat.cast_one] at hlim
    have hgt : events_limit > c := by omega
    have hpok : h.lua_pcall (call_of h reg p).callee (call_of h reg p).arg = pcall_result.ok := by
      apply hok _ (head_call_mem h events_limit p (rest ++ [el]) c reg hgt)
      exact fun heq => hnot.1 heq.symm
    have herr := pcall_err_str_ok h _ _ hpok
    have hstep := delivery_poll_loop_continue h events_limit p (rest ++ [el]) c reg hgt herr
    have hrest := ih (c + 1) (luaL_unref reg p.dr_callback) hnot.2 (by omega) (by
      intro x hx hne
      apply hok x _ hne
      rw [List.cons_append, hstep]
      exact List.mem_cons_of_mem _ hx)
    rw [List.cons_append, hstep, hrest]
    simp only [List.cons_append, List.foldl_cons, calls_in_turn, List.length_cons,
      Nat.cast_add, Nat.cast_one, call_of_eq]
    congr 1
    ring

/-! ## Lemmas: the topic cache -/

theorem pow_le_22 (k : Nat) (hk : k ≤ 22) : 2 ^ k ≤ 4194304 := by
  have := Nat.pow_le_pow_right (show 0 < 2 by decide) hk
  simpa using this

theorem pow_ge_22 (k : Nat) (hk : 22 ≤ k) : 4194304 ≤ 2 ^ k := by
  have := Nat.pow_le_pow_right (show 0 < 2 by decide) hk
  simpa using this

theorem add_below_limit (t : producer_topics_t) (e : rd_kafka_topic_t) (hok : cache_ok t)
    (hlt : t.count < 1073741824) :
    (add_producer_topics t e true).2 = 0
    ∧ cache_ok (add_producer_topics t e true).1
    ∧ (add_producer_topics t e true).1.elements = t.elements ++ [e]
    ∧ (add_producer_topics t e true).1.count = t.count + 1 := by
  obtain ⟨hc, k, hk, hcap, hle⟩ := hok
  have hp := pow_le_22 k hk
  have hpos : 0 < 2 ^ k := Nat.pow_pos (by decide)
  have hsucc : 2 ^ (k + 1) = 2 * 2 ^ k := by ring
  by_cases hfull : t.count ≥ t.capacity
  · have hk1 : k + 1 ≤ 22 := by
      by_contra hcon
      have := pow_ge_22 k (by omega)
      omega
    have hp1 := pow_le_22 (k + 1) hk1
    have hsize : realloc_ok
        (size_t_mul (size_t_mul SIZEOF_POINTER (size_t_of_int t.capacity)) 2) true = true := by
      simp only [realloc_ok, size_t_mul, size_t_of_int, SIZEOF_POINTER, PTRDIFF_MAX,
        Bool.true_and, Bool.and_eq_true, decide_eq_true_eq]
      omega
    simp only [add_producer_topics, hfull, if_true, hsize, store_element]
    refine ⟨trivial, ⟨?_, k + 1, hk1, ?_, ?_⟩, trivial, ?_⟩
    · simp only [List.length_append, List.length_singleton, int32_wrap]; omega
    · simp only [int32_wrap]; omega
    · simp only [int32_wrap]; omega
    · simp only [int32_wrap]; omega
  · simp only [add_producer_topics, hfull, if_false, store_element]
    refine ⟨trivial, ⟨?_, k, hk, hcap, ?_⟩, trivial, ?_⟩
    · simp only [List.length_append, List.length_singleton, int32_wrap]; omega
    · simp only [int32_wrap]; omega
    · simp only [int32_wrap]; omega

theorem cache_ok_new : cache_ok (new_producer_topics 256) :=
  ⟨rfl, 0, by decide, rfl, by decide⟩

theorem add_all_below_limit :
    ∀ (handles : List rd_kafka_topic_t) (t : producer_topics_t), cache_ok t →
      t.count + handles.length ≤ 1073741824 →
      (∀ rc ∈ (add_all t handles).2, rc = 0)
      ∧ cache_ok (add_all t handles).1
      ∧ (add_all t handles).1.elements = t.elements ++ handles
      ∧ (add_all t handles).1.count = t.count + handles.length := by
  intro handles
  induction handles with
  | nil => intro t hok _; simp [add_all, hok]
  | cons e rest ih =>
    intro t hok hlen
    simp only [List.length_cons] at hlen
    obtain ⟨h1, h2, h3, h4⟩ := add_below_limit t e hok (by push_cast at hlen; omega)
    obtain ⟨i1, i2, i3, i4⟩ := ih (add_producer_topics t e true).1 h2
      (by rw [h4]; push_cast at hlen ⊢; omega)
    simp only [add_all]
    refine ⟨?_, i2, ?_, ?_⟩
    · intro rc hrc
      rcases List.mem_cons.1 hrc with h | h
      · rw [h, h1]
      · exact i1 rc h
    · rw [i3, h3]; simp
    · rw [i4, h4]; simp only [List.length_cons]; push_cast; ring

theorem find_first_of_nodup (n : String) (x : rd_kafka_topic_t) :
    ∀ (l : List rd_kafka_topic_t),
      (l.map (fun y => c_str (rd_kafka_topic_name y))).Nodup → x ∈ l →
      c_str (rd_kafka_topic_name x) = c_str n →
      l.find? (fun y => strcmp_eq (rd_kafka_topic_name y) n) = some x := by
  intro l
  induction l with
  | nil => intro _ hx; exact absurd hx (List.not_mem_nil _)
  | cons y rest ih =>
    intro hnd hx hname
    rw [List.map_cons, List.nodup_cons] at hnd
    rcases List.mem_cons.1 hx with hxy | hxr
    · subst hxy
      have : strcmp_eq (rd_kafka_topic_name x) n = true := by
        simp [strcmp_eq, hname]
      simp only [List.find?_cons, this]
    · have hne : strcmp_eq (rd_kafka_topic_name y) n = false := by
        cases hb : strcmp_eq (rd_kafka_topic_name y) n
        · rfl
        · exfalso
          apply hnd.1
          have hy : c_str (rd_kafka_topic_name y) = c_str n := by
            simpa [strcmp_eq] using hb
          rw [hy, ← hname]
          exact List.mem_map_of_mem _ hxr
      simp only [List.find?_cons, hne]
      exact ih hnd.2 hxr hname

theorem find_of_mem (t : producer_topics_t) (x : rd_kafka_topic_t)
    (hc : t.count = t.elements.length)
    (hnd : (t.elements.map (fun y => c_str (rd_kafka_topic_name y))).Nodup)
    (hx : x ∈ t.elements) :
    find_producer_topic_by_name t (rd_kafka_topic_name x) = some x := by
  unfold find_producer_topic_by_name
  rw [hc, Int.toNat_ofNat, List.take_length]
  exact find_first_of_nodup _ x t.elements hnd hx rfl

theorem add_all_cons (t : producer_topics_t) (e : rd_kafka_topic_t)
    (rest : List rd_kafka_topic_t) :
    add_all t (e :: rest)
      = ((add_all (add_producer_topics t e true).1 rest).1,
         (add_producer_topics t e true).2 :: (add_all (add_producer_topics t e true).1 rest).2) :=
  rfl

theorem add_all_append (l1 l2 : List rd_kafka_topic_t) :
    ∀ t : producer_topics_t,
      add_all t (l1 ++ l2)
        = ((add_all (add_all t l1).1 l2).1, (add_all t l1).2 ++ (add_all (add_all t l1).1 l2).2) := by
  induction l1 with
  | nil => intro t; simp [add_all]
  | cons e rest ih =>
    intro t
    rw [List.cons_append, add_all_cons, ih, add_all_cons]
    rfl

theorem add_at_limit (t : producer_topics_t) (e : rd_kafka_topic_t)
    (hcount : t.count = 1073741824) (hcap : t.capacity = 1073741824) :
    add_producer_topics t e true
      = ({ elements := t.elements ++ [e], count := 1073741825, capacity := -2147483648 }, 0) := by
  have hsize : realloc_ok
      (size_t_mul (size_t_mul SIZEOF_POINTER (size_t_of_int t.capacity)) 2) true = true := by
    rw [hcap]; decide
  have hfull : t.count ≥ t.capacity := by rw [hcount, hcap]
  simp only [add_producer_topics, hfull, if_true, hsize, store_element]
  rw [hcount, hcap]
  rfl

/-- Adding the handle number `2^30 + 1`: the doubled capacity does not fit `int32_t`. -/
theorem add_all_at_limit (handles : List rd_kafka_topic_t)
    (hN : handles.length = 1073741825) :
    (∀ rc ∈ (add_all (new_producer_topics 256) handles).2, rc = 0)
    ∧ (add_all (new_producer_topics 256) handles).1.count = 1073741825
    ∧ (add_all (new_producer_topics 256) handles).1.capacity = -2147483648 := by
  have hne : handles ≠ [] := by
    intro h; rw [h] at hN; simp at hN
  obtain ⟨init, last, rfl⟩ : ∃ init last, handles = init ++ [last] :=
    ⟨handles.dropLast, handles.getLast hne, (List.dropLast_append_getLast hne).symm⟩
  have hinit : init.length = 1073741824 := by
    rw [List.length_append, List.length_singleton] at hN; omega
  obtain ⟨h1, h2, h3, h4⟩ := add_all_below_limit init (new_producer_topics 256) cache_ok_new
    (by simp only [new_producer_topics]; omega)
  obtain ⟨hc, k, hk, hcap, hle⟩ := h2
  have hp := pow_le_22 k hk
  have hcount : (add_all (new_producer_topics 256) init).1.count = 1073741824 := by
    rw [h4, hinit]; simp [new_producer_topics]
  have hcap2 : (add_all (new_producer_topics 256) init).1.capacity = 1073741824 := by
    omega
  rw [add_all_append, add_all_cons, add_at_limit _ last hcount hcap2]
  refine ⟨?_, rfl, rfl⟩
  intro rc hrc
  rcases List.mem_append.1 hrc with h | h
  · exact h1 rc h
  · simpa [add_all] using h

theorem c_str_replicate (n : Nat) :
    c_str ⟨List.replicate n 'a'⟩ = ⟨List.replicate n 'a'⟩ := by
  unfold c_str
  congr 1
  induction n with
  | zero => rfl
  | succ m ih =>
    rw [List.replicate_succ, List.takeWhile_cons_of_pos (by decide), ih]

theorem many_topics_nodup (n : Nat) :
    ((many_topics n).map (fun t => c_str (rd_kafka_topic_name t))).Nodup := by
  unfold many_topics
  rw [List.map_map]
  apply List.Nodup.map _ (List.nodup_range n)
  intro i j hij
  simp only [Function.comp, rd_kafka_topic_name, c_str_replicate] at hij
  have := congrArg String.length hij
  simp only [String.length, List.length_replicate] at this
  omega

theorem c_str_idem (s : String) : c_str (c_str s) = c_str s := by
  unfold c_str
  simp only [List.takeWhile_idem]

theorem strcmp_eq_iff (a b : String) : strcmp_eq a b = true ↔ c_str a = c_str b := by
  simp [strcmp_eq]

theorem add_not_full (t : producer_topics_t) (e : rd_kafka_topic_t) (av : Bool)
    (hfull : ¬ t.count ≥ t.capacity) :
    add_producer_topics t e av = add_producer_topics t e true := by
  simp only [add_producer_topics, hfull, if_false]

theorem add_no_memory (t : producer_topics_t) (e : rd_kafka_topic_t)
    (hfull : t.count ≥ t.capacity) :
    add_producer_topics t e false = (t, 1) := by
  simp [add_producer_topics, hfull, realloc_ok]

theorem add_after_wrap (t : producer_topics_t) (e : rd_kafka_topic_t) (av : Bool)
    (hcount : t.count = 1073741825) (hcap : t.capacity = -2147483648) :
    add_producer_topics t e av = (t, 1) := by
  have hfull : t.count ≥ t.capacity := by rw [hcount, hcap]; decide
  have hsize : realloc_ok
      (size_t_mul (size_t_mul SIZEOF_POINTER (size_t_of_int t.capacity)) 2) av = false := by
    rw [hcap]; cases av <;> decide
  simp only [add_producer_topics, hfull, if_true, hsize, Bool.false_eq_true, if_false]

/-- One `add_producer_topics` on the cache of a session: the handle is appended and
`0` returned, or nothing changes and `1` is returned. -/
theorem add_wf (t : producer_topics_t) (e : rd_kafka_topic_t) (av : Bool) (hwf : cache_wf t) :
    ((add_producer_topics t e av).2 = 0
      ∧ cache_wf (add_producer_topics t e av).1
      ∧ (add_producer_topics t e av).1.elements = t.elements ++ [e])
    ∨ ((add_producer_topics t e av).2 = 1 ∧ (add_producer_topics t e av).1 = t) := by
  rcases hwf with hok | ⟨hlen, hcount, hcap⟩
  · by_cases hfull : t.count ≥ t.capacity
    · cases av with
      | false => right; rw [add_no_memory t e hfull]; exact ⟨rfl, rfl⟩
      | true =>
        left
        by_cases hlt : t.count < 1073741824
        · obtain ⟨h1, h2, h3, _⟩ := add_below_limit t e hok hlt
          exact ⟨h1, Or.inl h2, h3⟩
        · obtain ⟨hc, k, hk, hcap, hle⟩ := hok
          have hp := pow_le_22 k hk
          have hcount : t.count = 1073741824 := by omega
          have hcap2 : t.capacity = 1073741824 := by omega
          rw [add_at_limit t e hcount hcap2]
          refine ⟨rfl, Or.inr ⟨?_, rfl, rfl⟩, rfl⟩
          simp only [List.length_append, List.length_singleton]
          omega
    · left
      rw [add_not_full t e av hfull]
      obtain ⟨hc, k, hk, hcap, hle⟩ := hok
      have hp := pow_le_22 k hk
      obtain ⟨h1, h2, h3, _⟩ := add_below_limit t e ⟨hc, k, hk, hcap, hle⟩ (by omega)
      exact ⟨h1, Or.inl h2, h3⟩
  · right
    rw [add_after_wrap t e av hcount hcap]
    exact ⟨rfl, rfl⟩

theorem cache_wf_count (t : producer_topics_t) (hwf : cache_wf t) :
    t.count = t.elements.length := by
  rcases hwf with h | h
  · exact h.1
  · exact h.1

theorem find_eq_of_wf (t : producer_topics_t) (name : String) (hwf : cache_wf t) :
    find_producer_topic_by_name t name
      = t.elements.find? (fun topic => strcmp_eq (rd_kafka_topic_name topic) name) := by
  unfold find_producer_topic_by_name
  rw [cache_wf_count t hwf, Int.toNat_ofNat, List.take_length]

theorem find_some_spec (t : producer_topics_t) (name : String) (x : rd_kafka_topic_t)
    (hwf : cache_wf t) (hn : cache_names_ok t)
    (hf : find_producer_topic_by_name t name = some x) :
    x ∈ t.elements ∧ rd_kafka_topic_name x = c_str name := by
  rw [find_eq_of_wf t name hwf] at hf
  have hmem := List.mem_of_find?_eq_some hf
  have hp := List.find?_some hf
  rw [strcmp_eq_iff, hn.2 x hmem] at hp
  exact ⟨hmem, hp⟩

theorem find_none_spec (t : producer_topics_t) (name : String)
    (hwf : cache_wf t) (hn : cache_names_ok t)
    (hf : find_producer_topic_by_name t name = none) :
    c_str name ∉ t.elements.map rd_kafka_topic_name := by
  rw [find_eq_of_wf t name hwf] at hf
  intro hmem
  obtain ⟨y, hy, hname⟩ := List.mem_map.1 hmem
  have := List.find?_eq_none.1 hf y hy
  apply this
  rw [strcmp_eq_iff, hn.2 y hy, hname]

theorem find_of_name (t : producer_topics_t) (name : String) (x : rd_kafka_topic_t)
    (hwf : cache_wf t) (hn : cache_names_ok t) (hx : x ∈ t.elements)
    (hname : rd_kafka_topic_name x = c_str name) :
    find_producer_topic_by_name t name = some x := by
  rw [find_eq_of_wf t name hwf]
  apply find_first_of_nodup name x t.elements _ hx
  · rw [hn.2 x hx, hname]
  · have : t.elements.map (fun y => c_str (rd_kafka_topic_name y))
        = t.elements.map rd_kafka_topic_name := by
      apply List.map_congr_left
      intro y hy
      exact hn.2 y hy
    rw [this]
    exact hn.1

theorem cache_names_ok_append (t t2 : producer_topics_t) (topic : String) (id : Nat)
    (hn : cache_names_ok t)
    (hnew : c_str topic ∉ t.elements.map rd_kafka_topic_name)
    (hel : t2.elements = t.elements ++ [{ name := c_str topic, id := id }]) :
    cache_names_ok t2 := by
  unfold cache_names_ok
  rw [hel]
  constructor
  · rw [List.map_append, List.nodup_append]
    refine ⟨hn.1, by simp, ?_⟩
    intro a ha hb
    simp only [List.map_cons, List.map_nil, List.mem_singleton, rd_kafka_topic_name] at hb
    rw [hb] at ha
    exact hnew ha
  · intro y hy
    rcases List.mem_append.1 hy with h | h
    · exact hn.2 y h
    · simp only [List.mem_singleton] at h
      rw [h]
      exact c_str_idem topic

/-! ## Lemmas: the steps of `produce` -/

theorem return_string_ne_values_nil (push_fail : Bool) (s : String) :
    return_string push_fail [] s ≠ lua_result.values [] := by
  unfold return_string
  cases push_fail <;> simp

theorem produce_invalid_topic (h : host) (w : world) (msg : message) (env : produce_env)
    (ht : lua_tostring msg.topic = none) :
    lua_producer_produce h w msg env
      = (return_string env.push_fail []
          "producer message must contains non nil \x27topic\x27 key", w) := by
  simp only [lua_producer_produce, ht]

theorem produce_invalid_payload (h : host) (w : world) (msg : message) (env : produce_env)
    (topic : String) (ht : lua_tostring msg.topic = some topic)
    (hk : lua_tostring msg.key = none) (hv : lua_tostring msg.value = none) :
    lua_producer_produce h w msg env
      = (return_string env.push_fail []
          "producer message must contains non nil key or value", w) := by
  simp only [lua_producer_produce, ht, hk, hv, Option.isNone_none, Bool.and_self, if_true]

theorem produce_closed (h : host) (w : world) (msg : message) (env : produce_env)
    (topic : String) (ht : lua_tostring msg.topic = some topic)
    (hkv : ((lua_tostring msg.key).isNone && (lua_tostring msg.value).isNone) = false)
    (hclosed : w.producer_p = none) :
    lua_producer_produce h w msg env
      = (lua_result.error
          "Kafka consumer fatal error: failed to retrieve producer from lua stack!",
         { w with registry := registry_with_token w.registry msg }) := by
  cases hcb : lua_isfunction msg.dr_callback <;>
  simp [lua_producer_produce, ht, hkv, lua_check_producer, hclosed, registry_with_token, hcb]

theorem submit_message_eq (h : host) (w : world) (env : produce_env) (msg : message)
    (registry : List (Int × lua_value)) (rd_topic : rd_kafka_topic_t) :
    submit_message h w env rd_topic (lua_tostring msg.value) (length_of (lua_tostring msg.value))
        (lua_tostring msg.key) (length_of (lua_tostring msg.key)) (token_element registry msg)
      = if env.produce_ok then
          (lua_result.values [],
            { w with rd_producer :=
                { w.rd_producer with
                  msgs := w.rd_producer.msgs ++ [submitted registry msg rd_topic],
                  in_flight := w.rd_producer.in_flight ++ [submitted registry msg rd_topic] } })
        else
          (return_string env.push_fail [] (h.rd_kafka_err2str env.last_error), w) := by
  unfold submit_message rd_kafka_produce submitted
  cases env.produce_ok <;> simp

/-- The steps of `produce` on an open session once the message has passed the checks
of lines 176-204. -/
theorem produce_open (h : host) (w : world) (producer : producer_t) (msg : message)
    (env : produce_env) (topic : String) (ht : lua_tostring msg.topic = some topic)
    (hkv : ((lua_tostring msg.key).isNone && (lua_tostring msg.value).isNone) = false)
    (hopen : w.producer_p = some producer) :
    lua_producer_produce h w msg env
      = match find_producer_topic_by_name producer.topics topic with
        | some rd_topic =>
          submit_message h { w with registry := registry_with_token w.registry msg } env rd_topic
            (lua_tostring msg.value) (length_of (lua_tostring msg.value))
            (lua_tostring msg.key) (length_of (lua_tostring msg.key))
            (token_element w.registry msg)
        | none =>
          if env.topic_new_ok then
            if (add_producer_topics producer.topics
                  { name := c_str topic, id := w.rd_producer.topics.length } env.available).2 ≠ 0 then
              (return_string env.push_fail []
                "Unexpected error: failed to add new topic to topic list!",
               { w with
                 registry := registry_with_token w.registry msg,
                 rd_producer := { w.rd_producer with
                   topics := w.rd_producer.topics
                     ++ [{ name := c_str topic, id := w.rd_producer.topics.length }] },
                 producer_p := some { producer with
                   topics := (add_producer_topics producer.topics
                     { name := c_str topic, id := w.rd_producer.topics.length } env.available).1 } })
            else
              submit_message h
                { w with
                  registry := registry_with_token w.registry msg,
                  rd_producer := { w.rd_producer with
                    topics := w.rd_producer.topics
                      ++ [{ name := c_str topic, id := w.rd_producer.topics.length }] },
                  producer_p := some { producer with
                    topics := (add_producer_topics producer.topics
                      { name := c_str topic, id := w.rd_producer.topics.length } env.available).1 } }
                env { name := c_str topic, id := w.rd_producer.topics.length }
                (lua_tostring msg.value) (length_of (lua_tostring msg.value))
                (lua_tostring msg.key) (length_of (lua_tostring msg.key))
                (token_element w.registry msg)
          else
            (return_string env.push_fail [] (h.rd_kafka_err2str env.last_error),
              { w with registry := registry_with_token w.registry msg }) := by
  cases hcb : lua_isfunction msg.dr_callback <;>
  cases hf : find_producer_topic_by_name producer.topics topic <;>
  cases hn : env.topic_new_ok <;>
  simp [lua_producer_produce, ht, hkv, lua_check_producer, hopen, registry_with_token,
    token_element, rd_kafka_topic_new, hcb, hf, hn]

/-- What a successful `produce` on an open session did. -/
theorem produce_success_cases (h : host) (w : world) (producer : producer_t) (msg : message)
    (env : produce_env) (hopen : w.producer_p = some producer)
    (hs : (lua_producer_produce h w msg env).1 = lua_result.values []) :
    ∃ topic, lua_tostring msg.topic = some topic ∧
      ((∃ rd_topic, find_producer_topic_by_name producer.topics topic = some rd_topic
          ∧ (lua_producer_produce h w msg env).2 = after_hit w msg rd_topic)
       ∨ (find_producer_topic_by_name producer.topics topic = none
          ∧ (add_producer_topics producer.topics
                { name := c_str topic, id := w.rd_producer.topics.length } env.available).2 = 0
          ∧ (lua_producer_produce h w msg env).2
              = after_miss w producer msg
                  { name := c_str topic, id := w.rd_producer.topics.length }
                  (add_producer_topics producer.topics
                    { name := c_str topic, id := w.rd_producer.topics.length }
                    env.available).1)) := by
  cases ht : lua_tostring msg.topic with
  | none =>
    rw [produce_invalid_topic h w msg env ht] at hs
    exact absurd hs (return_string_ne_values_nil _ _)
  | some topic =>
    refine ⟨topic, rfl, ?_⟩
    cases hkv : ((lua_tostring msg.key).isNone && (lua_tostring msg.value).isNone) with
    | true =>
      simp only [Bool.and_eq_true, Option.isNone_iff_eq_none] at hkv
      rw [produce_invalid_payload h w msg env topic ht hkv.1 hkv.2] at hs
      exact absurd hs (return_string_ne_values_nil _ _)
    | false =>
      rw [produce_open h w producer msg env topic ht hkv hopen] at hs ⊢
      cases hf : find_producer_topic_by_name producer.topics topic with
      | some rd_topic =>
        left
        refine ⟨rd_topic, rfl, ?_⟩
        simp only [hf, submit_message_eq] at hs ⊢
        cases hp : env.produce_ok with
        | false =>
          simp only [hp, Bool.false_eq_true, if_false] at hs
          exact absurd hs (return_string_ne_values_nil _ _)
        | true => simp only [if_true, after_hit]
      | none =>
        right
        refine ⟨rfl, ?_⟩
        simp only [hf] at hs ⊢
        cases hn : env.topic_new_ok with
        | false =>
          simp only [hn, Bool.false_eq_true, if_false] at hs
          exact absurd hs (return_string_ne_values_nil _ _)
        | true =>
          simp only [hn, if_true] at hs ⊢
          by_cases hrc : (add_producer_topics producer.topics
              { name := c_str topic, id := w.rd_producer.topics.length } env.available).2 = 0
          · refine ⟨hrc, ?_⟩
            simp only [hrc, ne_eq, not_true_eq_false, if_false, submit_message_eq] at hs ⊢
            cases hp : env.produce_ok with
            | false =>
              simp only [hp, Bool.false_eq_true, if_false] at hs
              exact absurd hs (return_string_ne_values_nil _ _)
            | true => simp only [if_true, after_miss]
          · simp only [ne_eq, hrc, not_false_eq_true, if_true] at hs
            exact absurd hs (return_string_ne_values_nil _ _)

theorem submit_message_producer_p (h : host) (w : world) (env : produce_env)
    (rd_topic : rd_kafka_topic_t) (value : Option String) (value_len : Nat)
    (key : Option String) (key_len : Nat) (element : Option queue_element_t) :
    (submit_message h w env rd_topic value value_len key key_len element).2.producer_p
      = w.producer_p := by
  unfold submit_message rd_kafka_produce
  cases env.produce_ok <;> simp

/-- The session slot after `produce`: unchanged, or the same session with the cache
that `add_producer_topics` returned for a name that was not cached. -/
theorem produce_producer_p (h : host) (w : world) (msg : message) (env : produce_env) :
    (lua_producer_produce h w msg env).2.producer_p = w.producer_p
    ∨ ∃ producer topic, w.producer_p = some producer
        ∧ lua_tostring msg.topic = some topic
        ∧ find_producer_topic_by_name producer.topics topic = none
        ∧ (lua_producer_produce h w msg env).2.producer_p
            = some { producer with
                topics := (add_producer_topics producer.topics
                  { name := c_str topic, id := w.rd_producer.topics.length }
                  env.available).1 } := by
  cases ht : lua_tostring msg.topic with
  | none => left; rw [produce_invalid_topic h w msg env ht]
  | some topic =>
    cases hkv : ((lua_tostring msg.key).isNone && (lua_tostring msg.value).isNone) with
    | true =>
      simp only [Bool.and_eq_true, Option.isNone_iff_eq_none] at hkv
      left; rw [produce_invalid_payload h w msg env topic ht hkv.1 hkv.2]
    | false =>
      cases hopen : w.producer_p with
      | none => left; rw [produce_closed h w msg env topic ht hkv hopen]; exact hopen
      | some producer =>
        rw [produce_open h w producer msg env topic ht hkv hopen]
        cases hf : find_producer_topic_by_name producer.topics topic with
        | some rd_topic =>
          left
          simp only [submit_message_producer_p, hopen]
        | none =>
          cases hn : env.topic_new_ok with
          | false => left; simp [hopen]
          | true =>
            right
            refine ⟨producer, topic, rfl, rfl, hf, ?_⟩
            simp only [if_true]
            split
            · rfl
            · simp only [submit_message_producer_p]

theorem produce_keeps_session_ok (h : host) (w : world) (msg : message) (env : produce_env)
    (hw : session_ok w) : session_ok (lua_producer_produce h w msg env).2 := by
  rcases produce_producer_p h w msg env with hsame | ⟨producer, topic, hopen, _, hf, hp⟩
  · intro p hp
    rw [hsame] at hp
    exact hw p hp
  · intro p hp2
    rw [hp] at hp2
    obtain ⟨hwf, hn⟩ := hw producer hopen
    have hp3 : p.topics = (add_producer_topics producer.topics
        { name := c_str topic, id := w.rd_producer.topics.length } env.available).1 := by
      cases hp2; rfl
    rw [hp3]
    rcases add_wf producer.topics { name := c_str topic, id := w.rd_producer.topics.length }
        env.available hwf with ⟨_, h2, h3⟩ | ⟨_, h2⟩
    · exact ⟨h2, cache_names_ok_append producer.topics _ topic _ hn
        (find_none_spec producer.topics topic hwf hn hf) h3⟩
    · rw [h2]; exact ⟨hwf, hn⟩

theorem session_ok_create (registry : List (Int × lua_value)) :
    session_ok (lua_create_producer registry) := by
  intro p hp
  simp only [lua_create_producer, Option.some.injEq] at hp
  subst hp
  refine ⟨Or.inl cache_ok_new, ?_, ?_⟩
  · simp [new_producer_topics]
  · intro y hy; simp [new_producer_topics] at hy

theorem poll_topics (w : world) (coio_fail : Bool) (reports : List rd_kafka_message_t)
    (p : producer_t) (hp : (lua_producer_poll w coio_fail reports).2.producer_p = some p) :
    ∃ p0, w.producer_p = some p0 ∧ p.topics = p0.topics := by
  unfold lua_producer_poll lua_check_producer at hp
  cases hopen : w.producer_p with
  | none => simp [hopen] at hp
  | some p0 =>
    refine ⟨p0, rfl, ?_⟩
    cases coio_fail
    · simp only [hopen, Bool.false_eq_true, if_false, Option.some.injEq] at hp
      rw [← hp]
    · simp only [hopen, if_true] at hp
      cases hp; rfl

theorem drain_topics (h : host) (w : world) (events_limit : Int) (push_fail : Bool)
    (p : producer_t)
    (hp : (lua_producer_msg_delivery_poll h w events_limit push_fail).w.producer_p = some p) :
    ∃ p0, w.producer_p = some p0 ∧ p.topics = p0.topics := by
  unfold lua_producer_msg_delivery_poll lua_check_producer at hp
  cases hopen : w.producer_p with
  | none => simp [hopen] at hp
  | some p0 =>
    refine ⟨p0, rfl, ?_⟩
    simp only [hopen] at hp
    split at hp <;> (simp only [Option.some.injEq] at hp; rw [← hp])

theorem close_closes (h : host) (w : world) (timeouts : Nat) (push_fail : Bool) :
    (lua_producer_close h w timeouts push_fail).2.producer_p = none := by
  unfold lua_producer_close
  cases hopen : w.producer_p with
  | none => simp [hopen]
  | some p => simp [producer_close, RD_KAFKA_RESP_ERR_NO_ERROR]

theorem gc_closes (w : world) (timeouts : Nat) :
    (lua_producer_gc w timeouts).2.producer_p = none := by
  unfold lua_producer_gc
  cases hopen : w.producer_p <;> simp

/-- In every state a session goes through, its cache is well formed. -/
theorem reachable_session_ok (h : host) (w : world) (hr : reachable h w) : session_ok w := by
  induction hr with
  | create registry => exact session_ok_create registry
  | produce w msg env _ ih => exact produce_keeps_session_ok h w msg env ih
  | poll w coio_fail reports _ ih =>
    intro p hp
    obtain ⟨p0, h0, ht⟩ := poll_topics w coio_fail reports p hp
    rw [ht]; exact ih p0 h0
  | drain w events_limit push_fail _ ih =>
    intro p hp
    obtain ⟨p0, h0, ht⟩ := drain_topics h w events_limit push_fail p hp
    rw [ht]; exact ih p0 h0
  | close w timeouts push_fail _ _ =>
    intro p hp
    rw [close_closes] at hp
    exact absurd hp (by simp)
  | gc w timeouts _ _ =>
    intro p hp
    rw [gc_closes] at hp
    exact absurd hp (by simp)

theorem take_takeWhile_length (p : Char → Bool) (l : List Char) :
    l.take (l.takeWhile p).length = l.takeWhile p := by
  induction l with
  | nil => rfl
  | cons a rest ih =>
    by_cases ha : p a = true
    · rw [List.takeWhile_cons_of_pos ha, List.length_cons, List.take_succ_cons, ih]
    · rw [List.takeWhile_cons_of_neg ha]; rfl

/-- The bytes the client copies from a pointer whose length was taken with `strlen`:
the C string at the pointer. -/
theorem copied_strlen (p : Option String) : copied p (length_of p) = p.map c_str := by
  cases p with
  | none => rfl
  | some s =>
    simp only [copied, length_of, strlen, Option.map_some', Option.some.injEq]
    unfold c_str
    simp only [String.length, take_takeWhile_length]

/-- A string without a zero byte is its own C string. -/
theorem c_str_of_no_zero (s : String) (hs : ∀ c ∈ s.data, c ≠ Char.ofNat 0) : c_str s = s := by
  unfold c_str
  have : s.data.takeWhile (fun c => c != Char.ofNat 0) = s.data := by
    rw [List.takeWhile_eq_self_iff]
    intro c hc
    simpa using hs c hc
  rw [this]

/-- What `produce` hands the client: the C strings at the key and the value, that is
their bytes before the first zero byte, with the lengths of these C strings. -/
theorem submitted_c_strings (registry : List (Int × lua_value)) (msg : message)
    (rd_topic : rd_kafka_topic_t) :
    (submitted registry msg rd_topic).payload = (lua_tostring msg.value).map c_str
    ∧ (submitted registry msg rd_topic).len = length_of (lua_tostring msg.value)
    ∧ (submitted registry msg rd_topic).key = (lua_tostring msg.key).map c_str
    ∧ (submitted registry msg rd_topic).key_len = length_of (lua_tostring msg.key) :=
  ⟨copied_strlen _, rfl, copied_strlen _, rfl⟩

/-- The registry after `produce`: a message that passes the checks of lines 176-204 and
has a function under `dr_callback` gets a reference, on every path through the rest of
the function, whatever it returns. -/
theorem produce_registry (h : host) (w : world) (msg : message) (env : produce_env)
    (topic : String) (ht : lua_tostring msg.topic = some topic)
    (hkv : ((lua_tostring msg.key).isNone && (lua_tostring msg.value).isNone) = false) :
    (lua_producer_produce h w msg env).2.registry = registry_with_token w.registry msg := by
  cases hopen : w.producer_p with
  | none => rw [produce_closed h w msg env topic ht hkv hopen]
  | some producer =>
    rw [produce_open h w producer msg env topic ht hkv hopen]
    cases hf : find_producer_topic_by_name producer.topics topic with
    | some rd_topic =>
      simp only [submit_message_eq]
      cases env.produce_ok <;> simp
    | none =>
      simp only [submit_message_eq]
      cases env.topic_new_ok <;> cases env.produce_ok <;> simp <;> split <;> rfl

/-- On a closed session `poll`, the drain and `close` change nothing, `poll` and the
drain raise the error of `lua_check_producer`, and the drain calls no callback;
`produce` leaves the session closed and changes nothing but the registry. -/
theorem closed_session_operations (h : host) (w : world) (hclosed : w.producer_p = none) :
    (∀ coio_fail reports, lua_producer_poll w coio_fail reports
      = (lua_result.error
          "Kafka consumer fatal error: failed to retrieve producer from lua stack!", w))
    ∧ (∀ events_limit push_fail, lua_producer_msg_delivery_poll h w events_limit push_fail
      = { result := lua_result.error
            "Kafka consumer fatal error: failed to retrieve producer from lua stack!",
          w := w, calls := [] })
    ∧ (∀ timeouts push_fail, lua_producer_close h w timeouts push_fail
      = (lua_result.values [lua_value.boolean false], w))
    ∧ (∀ msg env, (lua_producer_produce h w msg env).1 ≠ lua_result.values []
      ∧ (lua_producer_produce h w msg env).2
        = { w with registry := (lua_producer_produce h w msg env).2.registry }) := by
  refine ⟨?_, ?_, ?_, ?_⟩
  · intro coio_fail reports
    simp [lua_producer_poll, lua_check_producer, hclosed]
  · intro events_limit push_fail
    simp [lua_producer_msg_delivery_poll, lua_check_producer, hclosed]
  · intro timeouts push_fail
    simp [lua_producer_close, hclosed]
  · intro msg env
    cases ht : lua_tostring msg.topic with
    | none =>
      rw [produce_invalid_topic h w msg env ht]
      exact ⟨return_string_ne_values_nil _ _, rfl⟩
    | some topic =>
      cases hkv : ((lua_tostring msg.key).isNone && (lua_tostring msg.value).isNone) with
      | true =>
        simp only [Bool.and_eq_true, Option.isNone_iff_eq_none] at hkv
        rw [produce_invalid_payload h w msg env topic ht hkv.1 hkv.2]
        exact ⟨return_string_ne_values_nil _ _, rfl⟩
      | false =>
        rw [produce_closed h w msg env topic ht hkv hclosed]
        exact ⟨by simp, rfl⟩

/-! ## Lemmas: runs of successful `produce` calls -/

theorem run_ok_create (registry : List (Int × lua_value)) :
    run_ok (lua_create_producer registry) [] := by
  obtain ⟨hwf, hn⟩ := session_ok_create registry _ rfl
  refine ⟨_, rfl, hwf, hn, rfl, ?_, rfl, ?_⟩
  · intro n; simp [lua_create_producer]
  · intro m hm; simp [lua_create_producer] at hm

theorem run_ok_step (h : host) (w : world) (names : List String) (msg : message)
    (env : produce_env) (hw : run_ok w names)
    (hs : (lua_producer_produce h w msg env).1 = lua_result.values []) :
    run_ok (lua_producer_produce h w msg env).2 (names ++ [topic_name msg]) := by
  obtain ⟨producer, hopen, hwf, hn, hel, hmem, hmsgs, hrkt⟩ := hw
  obtain ⟨topic, ht, hcase⟩ := produce_success_cases h w producer msg env hopen hs
  have htn : topic_name msg = c_str topic := by simp [topic_name, ht]
  rcases hcase with ⟨rd_topic, hf, hw2⟩ | ⟨hf, hrc, hw2⟩
  · obtain ⟨hin, hname⟩ := find_some_spec producer.topics topic rd_topic hwf hn hf
    rw [hw2, htn]
    refine ⟨producer, hopen, hwf, hn, hel, ?_, ?_, ?_⟩
    · intro n
      simp only [after_hit, List.mem_append, List.mem_singleton]
      constructor
      · intro hx; exact Or.inl ((hmem n).1 hx)
      · rintro (hx | hx)
        · exact (hmem n).2 hx
        · rw [hx, ← hname, ← hel]; exact List.mem_map_of_mem _ hin
    · simp only [after_hit, List.map_append, List.map_cons, List.map_nil, submitted, hmsgs, hname]
    · intro m hm
      simp only [after_hit, List.mem_append, List.mem_singleton] at hm ⊢
      rcases hm with hm | hm
      · exact hrkt m hm
      · rw [hm, ← hel]; exact hin
  · rcases add_wf producer.topics { name := c_str topic, id := w.rd_producer.topics.length }
        env.available hwf with ⟨_, h2, h3⟩ | ⟨h1, _⟩
    · rw [hw2, htn]
      refine ⟨_, rfl, h2, cache_names_ok_append producer.topics _ topic _ hn
        (find_none_spec producer.topics topic hwf hn hf) h3, ?_, ?_, ?_, ?_⟩
      · simp only [after_miss]; rw [h3, hel]
      · intro n
        simp only [after_miss, List.map_append, List.map_cons, List.map_nil, List.mem_append,
          List.mem_singleton, rd_kafka_topic_name]
        constructor
        · rintro (hx | hx)
          · exact Or.inl ((hmem n).1 hx)
          · exact Or.inr hx
        · rintro (hx | hx)
          · exact Or.inl ((hmem n).2 hx)
          · exact Or.inr hx
      · simp only [after_miss, List.map_append, List.map_cons, List.map_nil, submitted, hmsgs]
        rfl
      · intro m hm
        simp only [after_miss, List.mem_append, List.mem_singleton] at hm ⊢
        rcases hm with hm | hm
        · exact Or.inl (hrkt m hm)
        · right; rw [hm]; rfl
    · rw [h1] at hrc; exact absurd hrc (by decide)

theorem produce_all_cons (h : host) (w : world) (call : message × produce_env)
    (rest : List (message × produce_env)) :
    produce_all h w (call :: rest)
      = ((produce_all h (lua_producer_produce h w call.1 call.2).2 rest).1,
         (lua_producer_produce h w call.1 call.2).1
           :: (produce_all h (lua_producer_produce h w call.1 call.2).2 rest).2) :=
  rfl

theorem run_ok_all (h : host) :
    ∀ (calls : List (message × produce_env)) (w : world) (names : List String),
      run_ok w names →
      (∀ r ∈ (produce_all h w calls).2, r = lua_result.values []) →
      run_ok (produce_all h w calls).1 (names ++ calls.map (fun c => topic_name c.1)) := by
  intro calls
  induction calls with
  | nil => intro w names hw _; simpa [produce_all] using hw
  | cons call rest ih =>
    intro w names hw hs
    rw [produce_all_cons] at hs ⊢
    have h1 := run_ok_step h w names call.1 call.2 hw (hs _ (List.mem_cons_self _ _))
    have h2 := ih _ _ h1 (fun r hr => hs r (List.mem_cons_of_mem _ hr))
    simpa using h2

theorem run_ok_count (w : world) (names : List String) (hw : run_ok w names) :
    w.rd_producer.topics.length = names.dedup.length
    ∧ ∃ producer, w.producer_p = some producer
        ∧ producer.topics.elements = w.rd_producer.topics
        ∧ producer.topics.count = names.dedup.length := by
  obtain ⟨producer, hopen, hwf, hn, hel, hmem, _, _⟩ := hw
  have hperm : (w.rd_producer.topics.map rd_kafka_topic_name).Perm names.dedup := by
    rw [List.perm_ext_iff_of_nodup (by rw [← hel]; exact hn.1) (List.nodup_dedup names)]
    intro n
    rw [List.mem_dedup]
    exact hmem n
  have hlen : w.rd_producer.topics.length = names.dedup.length := by
    rw [← hperm.length_eq, List.length_map]
  refine ⟨hlen, producer, hopen, hel, ?_⟩
  rw [cache_wf_count producer.topics hwf, hel, hlen]

theorem run_ok_same_handle (w : world) (names : List String) (hw : run_ok w names) :
    ∀ m1 ∈ w.rd_producer.msgs, ∀ m2 ∈ w.rd_producer.msgs,
      rd_kafka_topic_name m1.rkt = rd_kafka_topic_name m2.rkt → m1.rkt = m2.rkt := by
  obtain ⟨producer, _, _, hn, hel, _, _, hrkt⟩ := hw
  intro m1 h1 m2 h2 hname
  have hnd := hn.1
  rw [hel] at hnd
  exact List.inj_on_of_nodup_map hnd (hrkt m1 h1) (hrkt m2 h2) hname

/-- A `produce` whose topic name is in the cache: the cache and the objects created
stay as they are, and on success the message goes to the cached object. -/
theorem produce_found (h : host) (w : world) (producer : producer_t) (msg : message)
    (env : produce_env) (topic : String) (rd_topic : rd_kafka_topic_t)
    (hopen : w.producer_p = some producer) (ht : lua_tostring msg.topic = some topic)
    (hf : find_producer_topic_by_name producer.topics topic = some rd_topic) :
    (lua_producer_produce h w msg env).2.producer_p = some producer
    ∧ (lua_producer_produce h w msg env).2.rd_producer.topics = w.rd_producer.topics
    ∧ ((lua_producer_produce h w msg env).1 = lua_result.values [] →
        (lua_producer_produce h w msg env).2.rd_producer.msgs
          = w.rd_producer.msgs ++ [submitted w.registry msg rd_topic]) := by
  cases hkv : ((lua_tostring msg.key).isNone && (lua_tostring msg.value).isNone) with
  | true =>
    simp only [Bool.and_eq_true, Option.isNone_iff_eq_none] at hkv
    rw [produce_invalid_payload h w msg env topic ht hkv.1 hkv.2]
    exact ⟨hopen, rfl, fun hs => absurd hs (return_string_ne_values_nil _ _)⟩
  | false =>
    rw [produce_open h w producer msg env topic ht hkv hopen]
    simp only [hf, submit_message_eq]
    cases hp : env.produce_ok with
    | false =>
      simp only [Bool.false_eq_true, if_false]
      exact ⟨hopen, trivial, fun hs => absurd hs (return_string_ne_values_nil _ _)⟩
    | true =>
      simp only [if_true]
      exact ⟨hopen, trivial, fun _ => trivial⟩

/-- After a successful `produce` the cache holds the object the message went to, under
the topic name of the message. -/
theorem produce_success_handle (h : host) (w : world) (producer : producer_t) (msg : message)
    (env : produce_env) (hw : session_ok w) (hopen : w.producer_p = some producer)
    (hs : (lua_producer_produce h w msg env).1 = lua_result.values []) :
    ∃ p1 x, (lua_producer_produce h w msg env).2.producer_p = some p1
      ∧ (lua_producer_produce h w msg env).2.rd_producer.msgs.getLast? = some x
      ∧ x.rkt ∈ p1.topics.elements
      ∧ rd_kafka_topic_name x.rkt = topic_name msg
      ∧ cache_wf p1.topics ∧ cache_names_ok p1.topics := by
  obtain ⟨hwf, hn⟩ := hw producer hopen
  obtain ⟨topic, ht, hcase⟩ := produce_success_cases h w producer msg env hopen hs
  have htn : topic_name msg = c_str topic := by simp [topic_name, ht]
  rcases hcase with ⟨rd_topic, hf, hw2⟩ | ⟨hf, hrc, hw2⟩
  · obtain ⟨hin, hname⟩ := find_some_spec producer.topics topic rd_topic hwf hn hf
    rw [hw2, htn]
    refine ⟨producer, submitted w.registry msg rd_topic, hopen, ?_, hin, hname, hwf, hn⟩
    simp only [after_hit, List.getLast?_concat]
  · rcases add_wf producer.topics { name := c_str topic, id := w.rd_producer.topics.length }
        env.available hwf with ⟨_, h2, h3⟩ | ⟨h1, _⟩
    · rw [hw2, htn]
      refine ⟨_, submitted w.registry msg { name := c_str topic, id := w.rd_producer.topics.length },
        rfl, ?_, ?_, rfl, h2, cache_names_ok_append producer.topics _ topic _ hn
          (find_none_spec producer.topics topic hwf hn hf) h3⟩
      · simp only [after_miss, List.getLast?_concat]
      · simp only [submitted]; rw [h3]; simp
    · rw [h1] at hrc; exact absurd hrc (by decide)

/-! ## Lemmas: the tokens still to be consumed -/

theorem lua_rawgeti_key (reg : List (Int × lua_value)) (t : Int) (f : Nat)
    (hb : lua_rawgeti reg t = lua_value.function f) : t ∈ reg.map Prod.fst := by
  unfold lua_rawgeti at hb
  cases hfind : reg.find? (fun e => e.1 == t) with
  | none => simp [hfind] at hb
  | some e =>
    have hmem := List.mem_of_find?_eq_some hfind
    have hp := List.find?_some hfind
    simp only [beq_iff_eq] at hp
    rw [← hp]
    exact List.mem_map_of_mem _ hmem

theorem lua_rawgeti_append (reg extra : List (Int × lua_value)) (t : Int) (f : Nat)
    (hb : lua_rawgeti reg t = lua_value.function f) :
    lua_rawgeti (reg ++ extra) t = lua_value.function f := by
  unfold lua_rawgeti at hb ⊢
  cases hfind : reg.find? (fun e => e.1 == t) with
  | none => simp [hfind] at hb
  | some e =>
    rw [List.find?_append, hfind]
    simpa [hfind] using hb

theorem luaL_ref_function (reg : List (Int × lua_value)) (v : lua_value)
    (hv : lua_isfunction v = true) :
    luaL_ref reg v
      = ((reg.map Prod.fst).foldl max 0 + 1,
         reg ++ [((reg.map Prod.fst).foldl max 0 + 1, v)]) := by
  cases v <;> simp [lua_isfunction] at hv
  rfl

theorem luaL_ref_fresh (reg : List (Int × lua_value)) (v : lua_value)
    (hv : lua_isfunction v = true) : (luaL_ref reg v).1 ∉ reg.map Prod.fst := by
  rw [luaL_ref_function reg v hv]
  intro hmem
  have := (le_foldl_max (reg.map Prod.fst) 0).2 _ hmem
  simp only at this
  omega

/-- Taking a reference for the callback of a message keeps what the registry holds
under the functions registered before. -/
theorem registry_with_token_keeps (reg : List (Int × lua_value)) (msg : message)
    (t : Int) (f : Nat) (hb : lua_rawgeti reg t = lua_value.function f) :
    lua_rawgeti (registry_with_token reg msg) t = lua_value.function f := by
  unfold registry_with_token
  by_cases hcb : lua_isfunction msg.dr_callback = true
  · rw [if_pos hcb, luaL_ref_function reg _ hcb]
    exact lua_rawgeti_append reg _ t f hb
  · rw [if_neg hcb]; exact hb

theorem private_tokens_append (l : List rd_kafka_message_t) (x : rd_kafka_message_t) :
    private_tokens (l ++ [x])
      = private_tokens l ++ (match x._private with
                             | some el => [el.dr_callback]
                             | none => []) := by
  unfold private_tokens
  rw [List.filterMap_append]
  cases hx : x._private <;> simp [hx]

theorem private_tokens_erase (l : List rd_kafka_message_t) (m : rd_kafka_message_t)
    (hm : m ∈ l) :
    (private_tokens l).Perm
      ((match m._private with
        | some el => [el.dr_callback]
        | none => []) ++ private_tokens (l.erase m)) := by
  have hperm := (List.perm_cons_erase hm).filterMap
    (fun m : rd_kafka_message_t => m._private.map (fun el => el.dr_callback))
  unfold private_tokens
  cases hx : m._private with
  | none => simpa [hx] using hperm
  | some el => simpa [hx] using hperm

theorem submit_message_queue_tokens (h : host) (w : world) (env : produce_env)
    (rd_topic : rd_kafka_topic_t) (value : Option String) (value_len : Nat)
    (key : Option String) (key_len : Nat) (element : Option queue_element_t) :
    queue_tokens (submit_message h w env rd_topic value value_len key key_len element).2
      = queue_tokens w := by
  unfold queue_tokens
  rw [submit_message_producer_p]

theorem produce_queue_tokens (h : host) (w : world) (msg : message) (env : produce_env) :
    queue_tokens (lua_producer_produce h w msg env).2 = queue_tokens w := by
  unfold queue_tokens
  rcases produce_producer_p h w msg env with hsame | ⟨producer, topic, hopen, _, _, hp⟩
  · rw [hsame]
  · rw [hp, hopen]

/-- The registry and the messages in flight after `produce`: nothing changes for a
message that fails the checks of lines 176-204; otherwise the registry is the one with
the token of the message, and the message is in flight exactly when the call
succeeded. -/
theorem produce_registry_in_flight (h : host) (w : world) (msg : message) (env : produce_env) :
    ((lua_producer_produce h w msg env).2.registry = w.registry
      ∧ (lua_producer_produce h w msg env).2.rd_producer.in_flight = w.rd_producer.in_flight)
    ∨ ((lua_producer_produce h w msg env).2.registry = registry_with_token w.registry msg
      ∧ ((lua_producer_produce h w msg env).2.rd_producer.in_flight = w.rd_producer.in_flight
        ∨ ∃ rd_topic, (lua_producer_produce h w msg env).2.rd_producer.in_flight
            = w.rd_producer.in_flight ++ [submitted w.registry msg rd_topic])) := by
  cases ht : lua_tostring msg.topic with
  | none => left; rw [produce_invalid_topic h w msg env ht]; exact ⟨rfl, rfl⟩
  | some topic =>
    cases hkv : ((lua_tostring msg.key).isNone && (lua_tostring msg.value).isNone) with
    | true =>
      simp only [Bool.and_eq_true, Option.isNone_iff_eq_none] at hkv
      left; rw [produce_invalid_payload h w msg env topic ht hkv.1 hkv.2]; exact ⟨rfl, rfl⟩
    | false =>
      right
      refine ⟨produce_registry h w msg env topic ht hkv, ?_⟩
      cases hopen : w.producer_p with
      | none => left; rw [produce_closed h w msg env topic ht hkv hopen]
      | some producer =>
        rw [produce_open h w producer msg env topic ht hkv hopen]
        cases hf : find_producer_topic_by_name producer.topics topic with
        | some rd_topic =>
          simp only [submit_message_eq]
          cases env.produce_ok
          · left; simp
          · right; exact ⟨rd_topic, by simp⟩
        | none =>
          cases hn : env.topic_new_ok with
          | false => left; simp
          | true =>
            simp only [if_true, submit_message_eq]
            split
            · left; rfl
            · cases env.produce_ok
              · left; simp
              · right
                exact ⟨{ name := c_str topic, id := w.rd_producer.topics.length }, by simp⟩

theorem tokens_ok_create (registry : List (Int × lua_value)) :
    tokens_ok (lua_create_producer registry) := by
  constructor
  · simp [live_tokens, queue_tokens, private_tokens, lua_create_producer, new_queue]
  · intro t ht
    simp [live_tokens, queue_tokens, private_tokens, lua_create_producer, new_queue] at ht

theorem tokens_ok_produce (h : host) (w : world) (msg : message) (env : produce_env)
    (hw : tokens_ok w) : tokens_ok (lua_producer_produce h w msg env).2 := by
  obtain ⟨hnd, hb⟩ := hw
  have hq := produce_queue_tokens h w msg env
  rcases produce_registry_in_flight h w msg env with ⟨hr, hi⟩ | ⟨hr, hi⟩
  · unfold tokens_ok live_tokens
    rw [hq, hr, hi]
    exact ⟨hnd, hb⟩
  · have hkeep : ∀ t ∈ live_tokens w,
        ∃ f, lua_rawgeti (registry_with_token w.registry msg) t = lua_value.function f := by
      intro t ht
      obtain ⟨f, hf⟩ := hb t ht
      exact ⟨f, registry_with_token_keeps w.registry msg t f hf⟩
    rcases hi with hi | ⟨rd_topic, hi⟩
    · unfold tokens_ok live_tokens
      rw [hq, hr, hi]
      exact ⟨hnd, hkeep⟩
    · unfold tokens_ok live_tokens
      rw [hq, hr, hi, private_tokens_append]
      by_cases hcb : lua_isfunction msg.dr_callback = true
      · have hpriv : (submitted w.registry msg rd_topic)._private
            = some (new_queue_element (luaL_ref w.registry msg.dr_callback).1
                RD_KAFKA_RESP_ERR_NO_ERROR) := by
          simp only [submitted, token_element, hcb, if_true]
        rw [hpriv]
        simp only [new_queue_element]
        have hfresh : (luaL_ref w.registry msg.dr_callback).1 ∉ live_tokens w := by
          intro hmem
          obtain ⟨f, hf⟩ := hb _ hmem
          exact luaL_ref_fresh w.registry _ hcb (lua_rawgeti_key w.registry _ f hf)
        constructor
        · rw [← List.append_assoc]
          rw [List.nodup_append]
          refine ⟨hnd, by simp, ?_⟩
          intro a ha hb2
          simp only [List.mem_singleton] at hb2
          rw [hb2] at ha
          exact hfresh ha
        · intro t ht
          rw [← List.append_assoc] at ht
          rcases List.mem_append.1 ht with ht | ht
          · exact hkeep t ht
          · simp only [List.mem_singleton] at ht
            rw [ht]
            cases hv : msg.dr_callback with
            | function f =>
              refine ⟨f, ?_⟩
              have := lua_rawgeti_luaL_ref w.registry msg.dr_callback hcb
              simp only [registry_with_token, hcb, if_true]
              rw [hv] at this ⊢
              exact this
            | nil => simp [hv, lua_isfunction] at hcb
            | boolean b => simp [hv, lua_isfunction] at hcb
            | number n => simp [hv, lua_isfunction] at hcb
            | str s => simp [hv, lua_isfunction] at hcb
            | other o => simp [hv, lua_isfunction] at hcb
      · have hpriv : (submitted w.registry msg rd_topic)._private = none := by
          simp only [submitted, token_element, hcb]
          simp
        rw [hpriv]
        simp only [List.append_nil]
        exact ⟨hnd, hkeep⟩

theorem msg_delivery_callback_tokens (msg : rd_kafka_message_t) (queue : queue_t) :
    (msg_delivery_callback msg queue).elems.map (fun el => el.dr_callback)
      = queue.elems.map (fun el => el.dr_callback)
          ++ (match msg._private with
              | some el => [el.dr_callback]
              | none => []) := by
  unfold msg_delivery_callback
  cases hp : msg._private with
  | none => simp
  | some el =>
    simp only [queue_push, List.map_append, List.map_cons, List.map_nil]
    split <;> rfl

/-- Serving reports for messages in flight moves their tokens from the messages in
flight to the queue: the tokens still to be consumed are the same, in another order. -/
theorem serve_reports_tokens :
    ∀ (reports : List rd_kafka_message_t) (queue : queue_t)
      (in_flight : List rd_kafka_message_t),
      reports_in_flight in_flight reports = true →
      (((reports.foldl (fun q msg => msg_delivery_callback msg q) queue).elems.map
            (fun el => el.dr_callback))
          ++ private_tokens (reports.foldl (fun l msg => l.erase (as_accepted msg)) in_flight)).Perm
        (queue.elems.map (fun el => el.dr_callback) ++ private_tokens in_flight) := by
  intro reports
  induction reports with
  | nil => intro queue in_flight _; exact List.Perm.refl _
  | cons r rest ih =>
    intro queue in_flight hok
    simp only [reports_in_flight, Bool.and_eq_true, decide_eq_true_eq] at hok
    simp only [List.foldl_cons]
    refine (ih (msg_delivery_callback r queue) (in_flight.erase (as_accepted r)) hok.2).trans ?_
    rw [msg_delivery_callback_tokens, List.append_assoc]
    apply List.Perm.append_left
    have hp := private_tokens_erase in_flight (as_accepted r) hok.1
    have hpriv : (as_accepted r)._private = r._private := rfl
    rw [hpriv] at hp
    exact hp.symm

theorem tokens_ok_poll (w : world) (coio_fail : Bool) (reports : List rd_kafka_message_t)
    (hw : tokens_ok w) (hrep : reports_in_flight w.rd_producer.in_flight reports = true) :
    tokens_ok (lua_producer_poll w coio_fail reports).2 := by
  unfold lua_producer_poll lua_check_producer
  cases hopen : w.producer_p with
  | none => exact hw
  | some producer =>
    cases coio_fail with
    | true => exact hw
    | false =>
      simp only [Bool.false_eq_true, if_false]
      have hperm := serve_reports_tokens reports producer.delivery_queue w.rd_producer.in_flight hrep
      obtain ⟨hnd, hb⟩ := hw
      have hlive : live_tokens w
          = producer.delivery_queue.elems.map (fun el => el.dr_callback)
              ++ private_tokens w.rd_producer.in_flight := by
        simp only [live_tokens, queue_tokens, hopen]
      rw [hlive] at hnd hb
      constructor
      · simp only [live_tokens, queue_tokens]
        exact hperm.nodup_iff.2 hnd
      · intro t ht
        simp only [live_tokens, queue_tokens] at ht
        exact hb t (hperm.mem_iff.1 ht)

/-- Whatever the callbacks do, the drain loop takes outcomes from the front of the queue
and releases their references. -/
theorem delivery_poll_loop_takes_front (h : host) (events_limit : Int) :
    ∀ (q : List queue_element_t) (c : Int) (reg : List (Int × lua_value)),
      ∃ n, (delivery_poll_loop h events_limit q c reg).queue.elems = q.drop n
        ∧ (delivery_poll_loop h events_limit q c reg).registry
            = (q.take n).foldl (fun r el => luaL_unref r el.dr_callback) reg := by
  intro q
  induction q with
  | nil => intro c reg; exact ⟨0, by simp [delivery_poll_loop], by simp [delivery_poll_loop]⟩
  | cons el rest ih =>
    intro c reg
    by_cases hlim : events_limit > c
    · cases herr : pcall_err_str h (call_of h reg el).callee (call_of h reg el).arg with
      | none =>
        rw [delivery_poll_loop_continue h events_limit el rest c reg hlim herr]
        obtain ⟨n, h1, h2⟩ := ih (c + 1) (luaL_unref reg el.dr_callback)
        exact ⟨n + 1, by simpa using h1, by simpa using h2⟩
      | some e =>
        rw [delivery_poll_loop_break h events_limit el rest c reg e hlim herr]
        exact ⟨1, by simp, by simp⟩
    · rw [delivery_poll_loop_stop h events_limit el rest c reg hlim]
      exact ⟨0, by simp, by simp⟩

theorem lua_rawgeti_foldl_unref (t : Int) :
    ∀ (l : List queue_element_t) (reg : List (Int × lua_value)),
      t ∉ l.map (fun el => el.dr_callback) →
      lua_rawgeti (l.foldl (fun r el => luaL_unref r el.dr_callback) reg) t
        = lua_rawgeti reg t := by
  intro l
  induction l with
  | nil => intro reg _; rfl
  | cons el rest ih =>
    intro reg hn
    simp only [List.map_cons, List.mem_cons, not_or] at hn
    rw [List.foldl_cons, ih _ hn.2]
    exact lua_rawgeti_unref_ne reg el.dr_callback t hn.1

theorem drain_state (h : host) (w : world) (producer : producer_t) (limit : Int)
    (push_fail : Bool) (hopen : w.producer_p = some producer) :
    (lua_producer_msg_delivery_poll h w limit push_fail).w
      = { w with
          producer_p := some { producer with
            delivery_queue := (delivery_poll_loop h (int_of_number limit)
              producer.delivery_queue.elems 0 w.registry).queue },
          registry := (delivery_poll_loop h (int_of_number limit)
              producer.delivery_queue.elems 0 w.registry).registry } := by
  simp only [lua_producer_msg_delivery_poll, lua_check_producer, hopen]
  split <;> rfl

theorem drain_closed (h : host) (w : world) (limit : Int) (push_fail : Bool)
    (hclosed : w.producer_p = none) :
    (lua_producer_msg_delivery_poll h w limit push_fail).w = w := by
  simp only [lua_producer_msg_delivery_poll, lua_check_producer, hclosed]

theorem tokens_ok_drain (h : host) (w : world) (limit : Int) (push_fail : Bool)
    (hw : tokens_ok w) : tokens_ok (lua_producer_msg_delivery_poll h w limit push_fail).w := by
  cases hopen : w.producer_p with
  | none => rw [drain_closed h w limit push_fail hopen]; exact hw
  | some producer =>
    rw [drain_state h w producer limit push_fail hopen]
    obtain ⟨n, h1, h2⟩ := delivery_poll_loop_takes_front h (int_of_number limit)
      producer.delivery_queue.elems 0 w.registry
    obtain ⟨hnd, hb⟩ := hw
    have hlive : live_tokens w
        = producer.delivery_queue.elems.map (fun el => el.dr_callback)
            ++ private_tokens w.rd_producer.in_flight := by
      simp only [live_tokens, queue_tokens, hopen]
    rw [hlive] at hnd hb
    have hsplit : producer.delivery_queue.elems.map (fun el => el.dr_callback)
        = (producer.delivery_queue.elems.take n).map (fun el => el.dr_callback)
            ++ (producer.delivery_queue.elems.drop n).map (fun el => el.dr_callback) := by
      rw [← List.map_append, List.take_append_drop]
    rw [hsplit, List.append_assoc] at hnd hb
    have hnd2 := List.nodup_append.1 hnd
    constructor
    · simp only [live_tokens, queue_tokens, h1]
      exact hnd2.2.1
    · intro t ht
      simp only [live_tokens, queue_tokens, h1] at ht
      simp only [h2]
      have hnot : t ∉ (producer.delivery_queue.elems.take n).map (fun el => el.dr_callback) :=
        fun hin => hnd2.2.2 hin ht
      rw [lua_rawgeti_foldl_unref t _ _ hnot]
      exact hb t (List.mem_append_right _ ht)

theorem tokens_ok_closed (w w2 : world) (hw : tokens_ok w) (hclosed : w2.producer_p = none)
    (hreg : w2.registry = w.registry)
    (hfl : w2.rd_producer.in_flight = w.rd_producer.in_flight) : tokens_ok w2 := by
  obtain ⟨hnd, hb⟩ := hw
  have hlive : live_tokens w2 = private_tokens w.rd_producer.in_flight := by
    simp only [live_tokens, queue_tokens, hclosed, hfl, List.nil_append]
  unfold tokens_ok
  rw [hlive, hreg]
  refine ⟨(List.nodup_append.1 hnd).2.1, ?_⟩
  intro t ht
  exact hb t (List.mem_append_right _ ht)

theorem tokens_ok_close (h : host) (w : world) (timeouts : Nat) (push_fail : Bool)
    (hw : tokens_ok w) : tokens_ok (lua_producer_close h w timeouts push_fail).2 := by
  apply tokens_ok_closed w _ hw (close_closes h w timeouts push_fail)
  · unfold lua_producer_close
    cases hopen : w.producer_p <;>
      simp [producer_close, producer_flush, RD_KAFKA_RESP_ERR_NO_ERROR]
  · unfold lua_producer_close
    cases hopen : w.producer_p <;>
      simp [producer_close, producer_flush, RD_KAFKA_RESP_ERR_NO_ERROR]

theorem tokens_ok_gc (w : world) (timeouts : Nat) (hw : tokens_ok w) :
    tokens_ok (lua_producer_gc w timeouts).2 := by
  apply tokens_ok_closed w _ hw (gc_closes w timeouts)
  · unfold lua_producer_gc
    cases hopen : w.producer_p <;> simp [producer_close, producer_flush]
  · unfold lua_producer_gc
    cases hopen : w.producer_p <;> simp [producer_close, producer_flush]

/-- In every state a session goes through with a client that reports only messages in
flight, the tokens still to be consumed are pairwise distinct and each designates a
function in the registry. -/
theorem reachable_served_tokens_ok (h : host) (w : world) (hr : reachable_served h w) :
    tokens_ok w := by
  induction hr with
  | create registry => exact tokens_ok_create registry
  | produce w msg env _ ih => exact tokens_ok_produce h w msg env ih
  | poll w coio_fail reports _ hrep ih => exact tokens_ok_poll w coio_fail reports ih hrep
  | drain w limit push_fail _ ih => exact tokens_ok_drain h w limit push_fail ih
  | close w timeouts push_fail _ ih => exact tokens_ok_close h w timeouts push_fail ih
  | gc w timeouts _ ih => exact tokens_ok_gc w timeouts ih

/-- The served sample is a state of a session whose client reports only messages in
flight. -/
theorem sample_served_reachable : reachable_served sample_host sample_served := by
  have h0 := reachable_served.create (h := sample_host) []
  have h1 := reachable_served.produce _ (message_with_callback 1) all_ok h0
  have h2 := reachable_served.produce _ (message_with_callback 2) all_ok h1
  have h3 := reachable_served.produce _ (message_with_callback 3) all_ok h2
  exact reachable_served.poll _ false sample_reports h3 (by decide)

/-! ## From `produce` to the callback -/

/-- What a successful `produce` of a message with a completion callback leaves: the
message handed to the client last, in flight, carrying the new reference, under which
the registry holds the callback; the session stays open with the same queue. -/
theorem produce_success_message (h : host) (w : world) (producer : producer_t) (msg : message)
    (env : produce_env) (hopen : w.producer_p = some producer)
    (hcb : lua_isfunction msg.dr_callback = true)
    (hs : (lua_producer_produce h w msg env).1 = lua_result.values []) :
    ∃ x producer1,
      (lua_producer_produce h w msg env).2.rd_producer.msgs.getLast? = some x
      ∧ x ∈ (lua_producer_produce h w msg env).2.rd_producer.in_flight
      ∧ x._private = some (new_queue_element (luaL_ref w.registry msg.dr_callback).1
          RD_KAFKA_RESP_ERR_NO_ERROR)
      ∧ lua_rawgeti (lua_producer_produce h w msg env).2.registry
          (luaL_ref w.registry msg.dr_callback).1 = msg.dr_callback
      ∧ (lua_producer_produce h w msg env).2.producer_p = some producer1
      ∧ producer1.delivery_queue = producer.delivery_queue := by
  obtain ⟨topic, _, hcase⟩ := produce_success_cases h w producer msg env hopen hs
  have hreg := lua_rawgeti_luaL_ref w.registry msg.dr_callback hcb
  rcases hcase with ⟨rd_topic, _, hw2⟩ | ⟨_, _, hw2⟩
  · rw [hw2]
    refine ⟨submitted w.registry msg rd_topic, producer, ?_, ?_, ?_, ?_, ?_, rfl⟩
    · simp only [after_hit, List.getLast?_concat]
    · simp only [after_hit, List.mem_append, List.mem_singleton, or_true]
    · simp only [submitted, token_element, hcb, if_true]
    · simp only [after_hit, registry_with_token, hcb, if_true, hreg]
    · simp only [after_hit, hopen]
  · rw [hw2]
    refine ⟨submitted w.registry msg
      { name := c_str topic, id := w.rd_producer.topics.length }, _, ?_, ?_, ?_, ?_, rfl, rfl⟩
    · simp only [after_miss, List.getLast?_concat]
    · simp only [after_miss, List.mem_append, List.mem_singleton, or_true]
    · simp only [submitted, token_element, hcb, if_true]
    · simp only [after_miss, registry_with_token, hcb, if_true, hreg]

/-- The report of a message that carries a queue element enqueues the element with the
reported code. -/
theorem msg_delivery_callback_push (report : rd_kafka_message_t) (token : Int) (queue : queue_t)
    (hp : report._private = some (new_queue_element token RD_KAFKA_RESP_ERR_NO_ERROR)) :
    msg_delivery_callback report queue
      = { elems := queue.elems ++ [{ dr_callback := token, err := report.err }] } := by
  simp only [msg_delivery_callback, hp, new_queue_element, queue_push]
  by_cases he : report.err = RD_KAFKA_RESP_ERR_NO_ERROR
  · simp [he]
  · simp [he]

/-- The state after a `poll` on an open session whose `coio_call` succeeded. -/
theorem poll_served (w : world) (producer : producer_t) (reports : List rd_kafka_message_t)
    (hopen : w.producer_p = some producer) :
    (lua_producer_poll w false reports).2
      = { w with
          producer_p := some { producer with
            delivery_queue :=
              reports.foldl (fun q msg => msg_delivery_callback msg q) producer.delivery_queue }
          rd_producer := { w.rd_producer with
            polls := w.rd_producer.polls + 1,
            in_flight :=
              reports.foldl (fun l msg => l.erase (as_accepted msg)) w.rd_producer.in_flight } } := by
  simp only [lua_producer_poll, lua_check_producer, hopen, Bool.false_eq_true, if_false]

/-- The calls of a drain on an open session are those of its loop. -/
theorem drain_calls (h : host) (w : world) (producer : producer_t) (limit : Int)
    (push_fail : Bool) (hopen : w.producer_p = some producer) :
    (lua_producer_msg_delivery_poll h w limit push_fail).calls
      = (delivery_poll_loop h (int_of_number limit) producer.delivery_queue.elems 0
          w.registry).calls := by
  simp only [lua_producer_msg_delivery_poll, lua_check_producer, hopen]
  split <;> rfl

/-- A drain whose limit covers the queue `pre ++ [el]`, the token of `el` being none of
those before it: when the callbacks called for `pre` return, every outcome is called
in turn, and the result is decided by the call for `el`. -/
theorem drain_reaches_last (h : host) (w : world) (producer : producer_t)
    (pre : List queue_element_t) (el : queue_element_t) (limit : Int) (push_fail : Bool)
    (hopen : w.producer_p = some producer)
    (hq : producer.delivery_queue.elems = pre ++ [el])
    (hfresh : el.dr_callback ∉ pre.map (fun x => x.dr_callback))
    (hlim : (pre.length : Int) < limit) (hmax : limit ≤ 2147483647)
    (hok : ∀ c ∈ (lua_producer_msg_delivery_poll h w limit push_fail).calls,
        c.token ≠ el.dr_callback → h.lua_pcall c.callee c.arg = pcall_result.ok) :
    (lua_producer_msg_delivery_poll h w limit push_fail).calls
      = calls_in_turn h w.registry (pre ++ [el])
    ∧ (lua_producer_msg_delivery_poll h w limit push_fail).result
      = match pcall_err_str h (lua_rawgeti w.registry el.dr_callback)
            (if el.err = RD_KAFKA_RESP_ERR_NO_ERROR then lua_value.nil
             else lua_value.str (c_str (h.rd_kafka_err2str el.err))) with
        | none => lua_result.values [lua_value.number (pre.length + 1), lua_value.nil]
        | some s => return_string push_fail [lua_value.number (pre.length + 1)] s := by
  have hint : int_of_number limit = limit := by
    unfold int_of_number
    rw [if_pos ⟨by omega, hmax⟩]
  have hcalls := drain_calls h w producer limit push_fail hopen
  rw [hint, hq] at hcalls
  rw [hcalls] at hok
  have hloop := delivery_poll_loop_reaches_last h limit el pre 0 w.registry hfresh
    (by omega) hok
  rw [lua_rawgeti_foldl_unref el.dr_callback pre w.registry hfresh] at hloop
  refine ⟨by rw [hcalls, hloop], ?_⟩
  simp only [lua_producer_msg_delivery_poll, lua_check_producer, hopen, hint, hq, hloop]
  cases pcall_err_str h (lua_rawgeti w.registry el.dr_callback)
      (if el.err = RD_KAFKA_RESP_ERR_NO_ERROR then lua_value.nil
       else lua_value.str (c_str (h.rd_kafka_err2str el.err))) with
  | none => simp
  | some s => simp

/-- A `produce` keeps what the registry holds under a token still to be consumed. -/
theorem produce_keeps_binding (h : host) (w : world) (msg : message) (env : produce_env)
    (hw : tokens_ok w) (t : Int) (ht : t ∈ live_tokens w) :
    lua_rawgeti (lua_producer_produce h w msg env).2.registry t = lua_rawgeti w.registry t := by
  obtain ⟨f, hf⟩ := hw.2 t ht
  rcases produce_registry_in_flight h w msg env with ⟨hreg, _⟩ | ⟨hreg, _⟩
  · rw [hreg]
  · rw [hreg, hf]; exact registry_with_token_keeps w.registry msg t f hf

/-- A `poll` leaves the registry as it is. -/
theorem poll_registry (w : world) (coio_fail : Bool) (reports : List rd_kafka_message_t) :
    (lua_producer_poll w coio_fail reports).2.registry = w.registry := by
  unfold lua_producer_poll lua_check_producer
  cases w.producer_p with
  | none => rfl
  | some producer => cases coio_fail <;> rfl

/-- A drain keeps what the registry holds under a token that is still to be consumed
after it. -/
theorem drain_keeps_binding (h : host) (w : world) (limit : Int) (push_fail : Bool)
    (hw : tokens_ok w) (t : Int)
    (ht : t ∈ live_tokens (lua_producer_msg_delivery_poll h w limit push_fail).w) :
    lua_rawgeti (lua_producer_msg_delivery_poll h w limit push_fail).w.registry t
      = lua_rawgeti w.registry t := by
  cases hopen : w.producer_p with
  | none => rw [drain_closed h w limit push_fail hopen]
  | some producer =>
    rw [drain_state h w producer limit push_fail hopen] at ht ⊢
    obtain ⟨n, hq, hreg⟩ := delivery_poll_loop_takes_front h (int_of_number limit)
      producer.delivery_queue.elems 0 w.registry
    simp only [live_tokens, queue_tokens, hq] at ht
    simp only [hreg]
    apply lua_rawgeti_foldl_unref
    have hnd := hw.1
    simp only [live_tokens, queue_tokens, hopen] at hnd
    rw [← List.take_append_drop n producer.delivery_queue.elems, List.map_append,
      List.append_assoc] at hnd
    intro hmem
    exact (List.nodup_append.1 hnd).2.2 hmem ht

/-- The call a drain loop makes for the outcome at a position its limit covers, when
the calls before it return: the value the registry holds under the token after the
references of the earlier outcomes were released, called with the argument for the
code of the outcome. -/
theorem delivery_poll_loop_call_at (h : host) (events_limit : Int) (el : queue_element_t)
    (post : List queue_element_t) :
    ∀ (pre : List queue_element_t) (c : Int) (reg : List (Int × lua_value)),
      c + pre.length < events_limit →
      (∀ (j : Nat) (x : callback_call), j < pre.length →
          (delivery_poll_loop h events_limit (pre ++ el :: post) c reg).calls[j]? = some x →
          h.lua_pcall x.callee x.arg = pcall_result.ok) →
      (delivery_poll_loop h events_limit (pre ++ el :: post) c reg).calls[pre.length]?
        = some { token := el.dr_callback
                 callee := lua_rawgeti
                   (pre.foldl (fun r x => luaL_unref r x.dr_callback) reg) el.dr_callback
                 arg := if el.err = RD_KAFKA_RESP_ERR_NO_ERROR then lua_value.nil
                        else lua_value.str (c_str (h.rd_kafka_err2str el.err)) } := by
  intro pre
  induction pre with
  | nil =>
    intro c reg hlim _
    have hlim1 : events_limit > c := by simpa using hlim
    simp only [List.nil_append, List.length_nil, List.foldl_nil]
    rw [← call_of_eq]
    cases herr : pcall_err_str h (call_of h reg el).callee (call_of h reg el).arg with
    | none => rw [delivery_poll_loop_continue h events_limit el post c reg hlim1 herr]; simp
    | some e => rw [delivery_poll_loop_break h events_limit el post c reg e hlim1 herr]; simp
  | cons p pre ih =>
    intro c reg hlim hok
    have hlim1 : events_limit > c := by
      simp only [List.length_cons, Nat.cast_add, Nat.cast_one] at hlim; omega
    simp only [List.cons_append, List.length_cons, List.foldl_cons] at hok ⊢
    cases herr : pcall_err_str h (call_of h reg p).callee (call_of h reg p).arg with
    | some e =>
      rw [delivery_poll_loop_break h events_limit p _ c reg e hlim1 herr] at hok
      have h0 := hok 0 (call_of h reg p) (by omega) rfl
      rw [pcall_err_str_ok h _ _ h0] at herr
      exact absurd herr (by simp)
    | none =>
      rw [delivery_poll_loop_continue h events_limit p _ c reg hlim1 herr] at hok ⊢
      simp only [List.getElem?_cons_succ]
      apply ih (c + 1) (luaL_unref reg p.dr_callback)
      · simp only [List.length_cons, Nat.cast_add, Nat.cast_one] at hlim; omega
      · intro j x hj hx
        exact hok (j + 1) x (by omega) (by simpa using hx)

/-- An error string among the values a drain returns is the C string of the string
form of what one of the callbacks it called raised. -/
theorem drain_error_from_call (h : host) (w : world) (limit : Int) (push_fail : Bool)
    (n : Int) (s : String)
    (hres : (lua_producer_msg_delivery_poll h w limit push_fail).result
      = lua_result.values [lua_value.number n, lua_value.str s]) :
    ∃ c ∈ (lua_producer_msg_delivery_poll h w limit push_fail).calls,
      ∃ obj s1, h.lua_pcall c.callee c.arg = pcall_result.error obj
        ∧ lua_tostring obj = some s1 ∧ s = c_str s1 := by
  cases hopen : w.producer_p with
  | none => simp [lua_producer_msg_delivery_poll, lua_check_producer, hopen] at hres
  | some producer =>
    rw [drain_calls h w producer limit push_fail hopen]
    simp only [lua_producer_msg_delivery_poll, lua_check_producer, hopen] at hres
    cases herr : (delivery_poll_loop h (int_of_number limit) producer.delivery_queue.elems 0
        w.registry).err_str with
    | none => simp [herr] at hres
    | some e =>
      simp only [herr, return_string] at hres
      cases push_fail with
      | true => simp at hres
      | false =>
        simp only [Bool.false_eq_true, if_false, List.singleton_append, lua_result.values.injEq,
          List.cons.injEq, lua_value.number.injEq, lua_value.str.injEq, and_true] at hres
        obtain ⟨x, hx, hxs⟩ := delivery_poll_loop_err_from_call h (int_of_number limit) _ _ _ e herr
        obtain ⟨obj, ho1, ho2⟩ := pcall_err_str_some h x.callee x.arg e hxs
        exact ⟨x, hx, obj, e, ho1, ho2, hres.2.symm⟩

/-- The call a drain makes for the outcome at position `i` of the queue, in a state of
a session whose client reports only messages in flight, when the limit covers the
position and the calls before it return: the function the registry held under the
token before the drain, called with the argument for the code of the outcome. -/
theorem drain_call_at (h : host) (w : world) (producer : producer_t) (i : Nat)
    (el : queue_element_t) (limit : Int) (push_fail : Bool) (hr : reachable_served h w)
    (hopen : w.producer_p = some producer)
    (hel : producer.delivery_queue.elems[i]? = some el)
    (hlim : (i : Int) < limit) (hmax : limit ≤ 2147483647)
    (hok : ∀ (j : Nat) (x : callback_call), j < i →
        (lua_producer_msg_delivery_poll h w limit push_fail).calls[j]? = some x →
        h.lua_pcall x.callee x.arg = pcall_result.ok) :
    (lua_producer_msg_delivery_poll h w limit push_fail).calls[i]?
      = some { token := el.dr_callback
               callee := lua_rawgeti w.registry el.dr_callback
               arg := if el.err = RD_KAFKA_RESP_ERR_NO_ERROR then lua_value.nil
                      else lua_value.str (c_str (h.rd_kafka_err2str el.err)) }
    ∧ ∃ f, lua_rawgeti w.registry el.dr_callback = lua_value.function f := by
  have hint : int_of_number limit = limit := by
    unfold int_of_number
    rw [if_pos ⟨by omega, hmax⟩]
  obtain ⟨hnd, hb⟩ := reachable_served_tokens_ok h w hr
  simp only [live_tokens, queue_tokens, hopen] at hnd hb
  have hilt : i < producer.delivery_queue.elems.length := by
    by_contra hge
    rw [List.getElem?_eq_none (by omega)] at hel
    exact absurd hel (by simp)
  have hsplit : producer.delivery_queue.elems
      = producer.delivery_queue.elems.take i ++ el :: producer.delivery_queue.elems.drop (i + 1) := by
    rw [List.getElem?_eq_getElem hilt, Option.some.injEq] at hel
    rw [← hel, ← List.drop_eq_getElem_cons hilt, List.take_append_drop]
  have hlen : (producer.delivery_queue.elems.take i).length = i := by
    rw [List.length_take]; omega
  have hndq := (List.nodup_append.1 hnd).1
  rw [hsplit, List.map_append, List.map_cons] at hndq
  have hfresh : el.dr_callback
      ∉ (producer.delivery_queue.elems.take i).map (fun x => x.dr_callback) := by
    intro hmem
    exact (List.nodup_append.1 hndq).2.2 hmem (List.mem_cons_self _ _)
  have hcalls := drain_calls h w producer limit push_fail hopen
  rw [hint, hsplit] at hcalls
  rw [hcalls] at hok ⊢
  have hat := delivery_poll_loop_call_at h limit el (producer.delivery_queue.elems.drop (i + 1))
    (producer.delivery_queue.elems.take i) 0 w.registry (by rw [hlen]; omega)
    (by rw [hlen]; exact hok)
  rw [hlen, lua_rawgeti_foldl_unref _ _ _ hfresh] at hat
  refine ⟨hat, ?_⟩
  apply hb
  apply List.mem_append_left
  have : el ∈ producer.delivery_queue.elems := List.mem_iff_getElem?.2 ⟨i, hel⟩
  exact List.mem_map_of_mem _ this

/-! ## Claims -/

set_option maxRecDepth 100000 in
/-- C1, counterexample: three messages were produced on a new session and their
reports served, so three outcomes are pending; every callback returns, and the limit
is `2^31`.  The claim expects `min(max(limit, 0), 3) = 3` callbacks; the program
converts the limit to an `int`, which gives `INT_MIN`, calls nothing, returns the count
`0` and leaves all three outcomes queued. -/
theorem drain_limit_above_int_drains_nothing :
    reachable_served sample_host sample_served
    ∧ sample_served.producer_p = some
        { topics := { elements := [{ name := "t", id := 0 }], count := 1, capacity := 256 }
          delivery_queue := { elems := [⟨1, 0⟩, ⟨2, -192⟩, ⟨3, 0⟩] } }
    ∧ (∀ callee arg, callee ∈ sample_served.registry.map Prod.snd →
        sample_host.lua_pcall callee arg = pcall_result.ok)
    ∧ min (max (2147483648 : Int) 0).toNat 3 = 3
    ∧ (lua_producer_msg_delivery_poll sample_host sample_served 2147483648 false).calls = []
    ∧ (lua_producer_msg_delivery_poll sample_host sample_served 2147483648 false).result
        = lua_result.values [lua_value.number 0, lua_value.nil]
    ∧ (lua_producer_msg_delivery_poll sample_host sample_served 2147483648 false).result
        ≠ lua_result.values [lua_value.number 3, lua_value.nil]
    ∧ (lua_producer_msg_delivery_poll sample_host sample_served 2147483648 false).w
        = sample_served := by
  refine ⟨sample_served_reachable, by decide, ?_, by decide, by decide, by decide, by decide,
    by decide⟩
  intro callee arg hc
  have hreg : sample_served.registry.map Prod.snd
      = [lua_value.function 1, lua_value.function 2, lua_value.function 3] := by decide
  rw [hreg] at hc
  simp only [List.mem_cons, List.mem_singleton, List.not_mem_nil, or_false] at hc
  rcases hc with hc | hc | hc <;> (rw [hc]; rfl)

/-- C1 as amended: on an open session whose queue holds `q1 .. qn`, for every integer
limit below `2^31`, if every callback the drain calls returns, the drain makes exactly
`k = min(max(limit, 0), n)` calls; call number `i` is for the token of `qi`, its callee
is what the registry holds under that token at that moment (the references of
`q1 .. qi-1` having been released), and its single argument is nil for the no-error
code and the error description otherwise.  The drain returns `k` and nil, leaves
`qk+1 .. qn` queued in order and releases the `k` references.  In a state that a
session reaches with a client reporting only messages in flight, each callee is the
function registered under the token before the drain.  A following drain takes its
outcomes from the front of what was left.  When the queue is some queue `q0` onto
which `a` and then `b` were pushed and the limit covers it, the callbacks of `q0` are
called, then that of `a`, then that of `b`. -/
theorem drain_takes_first_outcomes_in_order (h : host) (w : world) (producer : producer_t)
    (limit : Int) (push_fail : Bool) (hopen : w.producer_p = some producer)
    (hlimit : limit ≤ 2147483647)
    (hok : ∀ c ∈ (lua_producer_msg_delivery_poll h w limit push_fail).calls,
        h.lua_pcall c.callee c.arg = pcall_result.ok) :
    (lua_producer_msg_delivery_poll h w limit push_fail).calls.length
      = drain_count limit producer.delivery_queue.elems.length
    ∧ (∀ (i : Nat) (el : queue_element_t),
        i < drain_count limit producer.delivery_queue.elems.length →
        producer.delivery_queue.elems[i]? = some el →
        (lua_producer_msg_delivery_poll h w limit push_fail).calls[i]?
          = some { token := el.dr_callback
                   callee := lua_rawgeti
                     ((producer.delivery_queue.elems.take i).foldl
                       (fun r x => luaL_unref r x.dr_callback) w.registry) el.dr_callback
                   arg := if el.err = RD_KAFKA_RESP_ERR_NO_ERROR then lua_value.nil
                          else lua_value.str (c_str (h.rd_kafka_err2str el.err)) })
    ∧ (lua_producer_msg_delivery_poll h w limit push_fail).result
      = lua_result.values
          [lua_value.number (drain_count limit producer.delivery_queue.elems.length),
           lua_value.nil]
    ∧ (lua_producer_msg_delivery_poll h w limit push_fail).w
      = { w with
          producer_p := some { producer with
            delivery_queue :=
              { elems := producer.delivery_queue.elems.drop
                  (drain_count limit producer.delivery_queue.elems.length) } },
          registry :=
            (producer.delivery_queue.elems.take
              (drain_count limit producer.delivery_queue.elems.length)).foldl
              (fun r el => luaL_unref r el.dr_callback) w.registry }
    ∧ (reachable_served h w →
        ∀ c ∈ (lua_producer_msg_delivery_poll h w limit push_fail).calls,
          c.callee = lua_rawgeti w.registry c.token
          ∧ ∃ f, c.callee = lua_value.function f)
    ∧ (∀ (limit2 : Int) (push_fail2 : Bool), limit2 ≤ 2147483647 →
        (∀ c ∈ (lua_producer_msg_delivery_poll h
              (lua_producer_msg_delivery_poll h w limit push_fail).w
              limit2 push_fail2).calls,
            h.lua_pcall c.callee c.arg = pcall_result.ok) →
        (lua_producer_msg_delivery_poll h
            (lua_producer_msg_delivery_poll h w limit push_fail).w
            limit2 push_fail2).calls.map (fun c => (c.token, c.arg))
          = ((producer.delivery_queue.elems.drop
                (drain_count limit producer.delivery_queue.elems.length)).take
              (drain_count limit2
                (producer.delivery_queue.elems.length
                  - drain_count limit producer.delivery_queue.elems.length))).map
              (fun el => (el.dr_callback,
                if el.err = RD_KAFKA_RESP_ERR_NO_ERROR then lua_value.nil
                else lua_value.str (c_str (h.rd_kafka_err2str el.err)))))
    ∧ ∀ (q0 : queue_t) (a b : queue_element_t),
        producer.delivery_queue = queue_push (queue_push q0 a) b →
        (q0.elems.length : Int) + 2 ≤ limit →
        (lua_producer_msg_delivery_poll h w limit push_fail).calls.map (fun c => c.token)
          = q0.elems.map (fun el => el.dr_callback) ++ [a.dr_callback, b.dr_callback] := by
  obtain ⟨h1, h2, h3⟩ := drain_ok h w producer limit push_fail hopen hok
  rw [drain_count_int_of_number limit _ hlimit] at h1 h2 h3
  have hfun1 : (Prod.fst ∘ fun c : callback_call => (c.token, c.arg)) = fun c => c.token := rfl
  have htok : (lua_producer_msg_delivery_poll h w limit push_fail).calls.map (fun c => c.token)
      = (producer.delivery_queue.elems.take
          (drain_count limit producer.delivery_queue.elems.length)).map
          (fun el => el.dr_callback) := by
    have := congrArg (List.map Prod.fst) (calls_in_turn_token_arg h
      (producer.delivery_queue.elems.take
        (drain_count limit producer.delivery_queue.elems.length)) w.registry)
    rw [List.map_map, List.map_map, hfun1] at this
    rw [h1, this]
    rfl
  have hkle : drain_count limit producer.delivery_queue.elems.length
      ≤ producer.delivery_queue.elems.length := by
    unfold drain_count; omega
  refine ⟨?_, ?_, h2, h3, ?_, ?_, ?_⟩
  · rw [h1, calls_in_turn_length, List.length_take]
    omega
  · intro i el hi hel
    rw [h1]
    have hget : (producer.delivery_queue.elems.take
        (drain_count limit producer.delivery_queue.elems.length))[i]? = some el := by
      rw [List.getElem?_take_of_lt hi]; exact hel
    have := calls_in_turn_get h _ w.registry i el hget
    rw [this, List.take_take, Nat.min_eq_left (Nat.le_of_lt hi)]
  · intro hr c hc
    obtain ⟨hnd, hb⟩ := reachable_served_tokens_ok h w hr
    have hlive : live_tokens w
        = producer.delivery_queue.elems.map (fun el => el.dr_callback)
            ++ private_tokens w.rd_producer.in_flight := by
      simp only [live_tokens, queue_tokens, hopen]
    rw [hlive] at hnd hb
    have hndq := (List.nodup_append.1 hnd).1
    have hndk : ((producer.delivery_queue.elems.take
        (drain_count limit producer.delivery_queue.elems.length)).map
          (fun el => el.dr_callback)).Nodup :=
      hndq.sublist ((List.take_sublist _ _).map _)
    rw [h1] at hc
    have hcallee := calls_in_turn_callee h _ w.registry hndk c hc
    refine ⟨hcallee, ?_⟩
    rw [hcallee]
    apply hb
    apply List.mem_append_left
    have hmem : c.token ∈ (lua_producer_msg_delivery_poll h w limit push_fail).calls.map
        (fun c => c.token) := by
      rw [h1]; exact List.mem_map_of_mem _ hc
    rw [htok] at hmem
    obtain ⟨el, hel, heq⟩ := List.mem_map.1 hmem
    rw [← heq]
    exact List.mem_map_of_mem _ (List.mem_of_mem_take hel)
  · intro limit2 push_fail2 hlimit2 hok2
    have hopen2 : (lua_producer_msg_delivery_poll h w limit push_fail).w.producer_p
        = some { producer with
            delivery_queue :=
              { elems := producer.delivery_queue.elems.drop
                  (drain_count limit producer.delivery_queue.elems.length) } } := by
      rw [h3]
    have := (drain_ok h _ _ limit2 push_fail2 hopen2 hok2).1
    rw [drain_count_int_of_number limit2 _ hlimit2] at this
    rw [this, calls_in_turn_token_arg]
    simp only [List.length_drop]
  · intro q0 a b hq hlim
    have hlen : producer.delivery_queue.elems.length = q0.elems.length + 2 := by
      rw [hq]; simp [queue_push]
    have hk : drain_count limit producer.delivery_queue.elems.length
        = producer.delivery_queue.elems.length := by
      unfold drain_count; rw [hlen]; omega
    rw [htok, hk, List.take_length, hq]
    simp [queue_push]

set_option maxRecDepth 100000 in
/-- C1 as amended, at a sample input: three messages with the callbacks 1, 2 and 3 were
produced on a new session and their reports served by `poll`, the second one timed
out.  A drain with limit 2 calls function 1 with nil, then function 2 with the error
text, returns 2 and nil, and leaves the third outcome queued; the next drain calls
function 3. -/
theorem drain_takes_first_outcomes_in_order_witness :
    sample_served.producer_p = some
        { topics := { elements := [{ name := "t", id := 0 }], count := 1, capacity := 256 }
          delivery_queue := { elems := [⟨1, 0⟩, ⟨2, -192⟩, ⟨3, 0⟩] } }
    ∧ (2 : Int) ≤ 2147483647
    ∧ (∀ c ∈ (lua_producer_msg_delivery_poll sample_host sample_served 2 false).calls,
        sample_host.lua_pcall c.callee c.arg = pcall_result.ok)
    ∧ reachable_served sample_host sample_served
    ∧ (lua_producer_msg_delivery_poll sample_host sample_served 2 false).calls.length = 2
    ∧ (lua_producer_msg_delivery_poll sample_host sample_served 2 false).calls[0]?
        = some { token := 1, callee := lua_value.function 1, arg := lua_value.nil }
    ∧ (lua_producer_msg_delivery_poll sample_host sample_served 2 false).calls[1]?
        = some { token := 2, callee := lua_value.function 2,
                 arg := lua_value.str "Local: Message timed out" }
    ∧ (lua_producer_msg_delivery_poll sample_host sample_served 2 false).result
        = lua_result.values [lua_value.number 2, lua_value.nil]
    ∧ (lua_producer_msg_delivery_poll sample_host sample_served 2 false).w
        = { sample_served with
            producer_p := some
              { topics :=
                  { elements := [{ name := "t", id := 0 }], count := 1, capacity := 256 }
                delivery_queue := { elems := [⟨3, 0⟩] } },
            registry := [(3, lua_value.function 3)] }
    ∧ (∀ c ∈ (lua_producer_msg_delivery_poll sample_host sample_served 2 false).calls,
        c.callee = lua_rawgeti sample_served.registry c.token
        ∧ ∃ f, c.callee = lua_value.function f)
    ∧ (lua_producer_msg_delivery_poll sample_host
          (lua_producer_msg_delivery_poll sample_host sample_served 2 false).w 5 false).calls.map
        (fun c => (c.token, c.arg))
        = [(3, lua_value.nil)]
    ∧ (lua_producer_msg_delivery_poll sample_host sample_served 3 false).calls.map
        (fun c => c.token) = [1, 2, 3] :=
  have hthm := drain_takes_first_outcomes_in_order sample_host sample_served
    { topics := { elements := [{ name := "t", id := 0 }], count := 1, capacity := 256 }
      delivery_queue := { elems := [⟨1, 0⟩, ⟨2, -192⟩, ⟨3, 0⟩] } }
    2 false (by decide) (by decide) (by decide)
  have hthm3 := drain_takes_first_outcomes_in_order sample_host sample_served
    { topics := { elements := [{ name := "t", id := 0 }], count := 1, capacity := 256 }
      delivery_queue := { elems := [⟨1, 0⟩, ⟨2, -192⟩, ⟨3, 0⟩] } }
    3 false (by decide) (by decide) (by decide)
  ⟨by decide, by decide, by decide, sample_served_reachable, hthm.1,
    hthm.2.1 0 ⟨1, 0⟩ (by decide) rfl, hthm.2.1 1 ⟨2, -192⟩ (by decide) rfl,
    hthm.2.2.1, hthm.2.2.2.1, hthm.2.2.2.2.1 sample_served_reachable,
    hthm.2.2.2.2.2.1 5 false (by decide) (by decide),
    hthm3.2.2.2.2.2.2 { elems := [⟨1, 0⟩] } ⟨2, -192⟩ ⟨3, 0⟩ rfl (by decide)⟩

/-- C2: (1) in every state an open session goes through, after a successful `produce`
for a topic name, looking the name up again in the cache (under any spelling that is
the same C string) yields the very object the message went to, and a further `produce`
for that name leaves the cache, hence its entry count, and the set of objects created
unchanged and sends its message to that same object.  (2) After any run of successful
`produce` calls on a new session, the number of topic objects created equals the number
of distinct topic names used; these objects are exactly the cache entries, the count
field says so, the client holds one message per call on an object of the name of the
call, and two messages of the same topic name are on the same object. -/
theorem topic_handle_per_name :
    (∀ (h : host) (w : world) (producer : producer_t) (msg : message) (env : produce_env),
      reachable h w → w.producer_p = some producer →
      (lua_producer_produce h w msg env).1 = lua_result.values [] →
      ∃ p1 x, (lua_producer_produce h w msg env).2.producer_p = some p1
        ∧ (lua_producer_produce h w msg env).2.rd_producer.msgs.getLast? = some x
        ∧ x.rkt ∈ p1.topics.elements
        ∧ rd_kafka_topic_name x.rkt = topic_name msg
        ∧ (∀ topic2, c_str topic2 = topic_name msg →
            find_producer_topic_by_name p1.topics topic2 = some x.rkt)
        ∧ ∀ (msg2 : message) (env2 : produce_env), lua_tostring msg2.topic ≠ none →
            topic_name msg2 = topic_name msg →
            (lua_producer_produce h (lua_producer_produce h w msg env).2 msg2 env2).2.producer_p
              = some p1
            ∧ (lua_producer_produce h (lua_producer_produce h w msg env).2 msg2 env2).2.rd_producer.topics
              = (lua_producer_produce h w msg env).2.rd_producer.topics
            ∧ ((lua_producer_produce h (lua_producer_produce h w msg env).2 msg2 env2).1
                = lua_result.values [] →
              ∃ x2, (lua_producer_produce h (lua_producer_produce h w msg env).2 msg2
                      env2).2.rd_producer.msgs.getLast? = some x2
                ∧ x2.rkt = x.rkt))
    ∧ (∀ (h : host) (registry : List (Int × lua_value)) (calls : List (message × produce_env)),
      (∀ r ∈ (produce_all h (lua_create_producer registry) calls).2, r = lua_result.values []) →
      (produce_all h (lua_create_producer registry) calls).1.rd_producer.topics.length
        = ((calls.map (fun c => topic_name c.1)).dedup).length
      ∧ (∃ producer,
          (produce_all h (lua_create_producer registry) calls).1.producer_p = some producer
          ∧ producer.topics.elements
              = (produce_all h (lua_create_producer registry) calls).1.rd_producer.topics
          ∧ producer.topics.count = ((calls.map (fun c => topic_name c.1)).dedup).length)
      ∧ (produce_all h (lua_create_producer registry) calls).1.rd_producer.msgs.map
            (fun m => rd_kafka_topic_name m.rkt)
          = calls.map (fun c => topic_name c.1)
      ∧ ∀ m1 ∈ (produce_all h (lua_create_producer registry) calls).1.rd_producer.msgs,
          ∀ m2 ∈ (produce_all h (lua_create_producer registry) calls).1.rd_producer.msgs,
            rd_kafka_topic_name m1.rkt = rd_kafka_topic_name m2.rkt → m1.rkt = m2.rkt) := by
  constructor
  · intro h w producer msg env hr hopen hs
    obtain ⟨p1, x, hp1, hx, hin, hname, hwf, hn⟩ :=
      produce_success_handle h w producer msg env (reachable_session_ok h w hr) hopen hs
    have hfind : ∀ topic2, c_str topic2 = topic_name msg →
        find_producer_topic_by_name p1.topics topic2 = some x.rkt := by
      intro topic2 h2
      exact find_of_name p1.topics topic2 x.rkt hwf hn hin (by rw [hname, h2])
    refine ⟨p1, x, hp1, hx, hin, hname, hfind, ?_⟩
    intro msg2 env2 ht2 hsame
    cases ht : lua_tostring msg2.topic with
    | none => exact absurd ht ht2
    | some topic2 =>
      have hc : c_str topic2 = topic_name msg := by
        rw [← hsame]; simp [topic_name, ht]
      obtain ⟨g1, g2, g3⟩ := produce_found h (lua_producer_produce h w msg env).2 p1 msg2 env2
        topic2 x.rkt hp1 ht (hfind topic2 hc)
      refine ⟨g1, g2, ?_⟩
      intro hs2
      refine ⟨submitted (lua_producer_produce h w msg env).2.registry msg2 x.rkt, ?_, rfl⟩
      rw [g3 hs2, List.getLast?_concat]
  · intro h registry calls hs
    have hrun := run_ok_all h calls (lua_create_producer registry) [] (run_ok_create registry) hs
    simp only [List.nil_append] at hrun
    obtain ⟨c1, c2⟩ := run_ok_count _ _ hrun
    refine ⟨c1, c2, ?_, run_ok_same_handle _ _ hrun⟩
    obtain ⟨_, _, _, _, _, _, hm, _⟩ := hrun
    exact hm

set_option maxRecDepth 100000 in
/-- C2, at a sample input: a hundred accepted messages to two topics, interleaved,
create two topic objects. -/
theorem topic_handle_per_name_witness :
    (∀ r ∈ (produce_all sample_host (lua_create_producer []) hundred_calls).2,
        r = lua_result.values [])
    ∧ (produce_all sample_host (lua_create_producer []) hundred_calls).1.rd_producer.topics.length
        = ((hundred_calls.map (fun c => topic_name c.1)).dedup).length
    ∧ ((hundred_calls.map (fun c => topic_name c.1)).dedup).length = 2 :=
  ⟨by decide,
   (topic_handle_per_name.2 sample_host [] hundred_calls (by decide)).1,
   by decide⟩

/-- C3: a message whose `topic` is absent, or whose `key` and `value` are both absent,
makes `produce` return an error (the error string, or the result of `lua_push_error`)
and leaves the whole state as it was: no topic object created or cached, no token in
the registry, nothing handed to the client.  This holds on an open and on a closed
session. -/
theorem invalid_message_changes_nothing (h : host) (w : world) (msg : message)
    (env : produce_env)
    (hinv : lua_tostring msg.topic = none
      ∨ (lua_tostring msg.key = none ∧ lua_tostring msg.value = none)) :
    (lua_producer_produce h w msg env).2 = w
    ∧ (lua_producer_produce h w msg env).1 ≠ lua_result.values []
    ∧ ((lua_producer_produce h w msg env).1
          = return_string env.push_fail []
              "producer message must contains non nil \x27topic\x27 key"
        ∨ (lua_producer_produce h w msg env).1
          = return_string env.push_fail []
              "producer message must contains non nil key or value") := by
  cases ht : lua_tostring msg.topic with
  | none =>
    rw [produce_invalid_topic h w msg env ht]
    exact ⟨rfl, return_string_ne_values_nil _ _, Or.inl rfl⟩
  | some topic =>
    rcases hinv with hinv | ⟨hk, hv⟩
    · rw [ht] at hinv; exact absurd hinv (by simp)
    · rw [produce_invalid_payload h w msg env topic ht hk hv]
      exact ⟨rfl, return_string_ne_values_nil _ _, Or.inr rfl⟩

/-- C3, at a sample input: a message with a topic and a callback but neither key nor
value, on a new session. -/
theorem invalid_message_changes_nothing_witness :
    (lua_tostring (lua_value.str "t") = none
      ∨ (lua_tostring lua_value.nil = none ∧ lua_tostring lua_value.nil = none))
    ∧ (lua_producer_produce sample_host (lua_create_producer [])
          { topic := lua_value.str "t", key := lua_value.nil, value := lua_value.nil,
            dr_callback := lua_value.function 7 } all_ok).2
        = lua_create_producer []
    ∧ (lua_producer_produce sample_host (lua_create_producer [])
          { topic := lua_value.str "t", key := lua_value.nil, value := lua_value.nil,
            dr_callback := lua_value.function 7 } all_ok).1
        = lua_result.values [lua_value.str "producer message must contains non nil key or value"] :=
  have hthm := invalid_message_changes_nothing sample_host (lua_create_producer [])
    { topic := lua_value.str "t", key := lua_value.nil, value := lua_value.nil,
      dr_callback := lua_value.function 7 } all_ok (Or.inr ⟨rfl, rfl⟩)
  ⟨Or.inr ⟨rfl, rfl⟩, hthm.1, by decide⟩

/-- C4, counterexample: on a new session the first `close` returns `true` and the
second returns `false`, not `true`. -/
theorem second_close_reports_false :
    (lua_producer_close sample_host (lua_create_producer []) 0 false).1
      = lua_result.values [lua_value.boolean true]
    ∧ (lua_producer_close sample_host
        (lua_producer_close sample_host (lua_create_producer []) 0 false).2 0 false).1
      = lua_result.values [lua_value.boolean false]
    ∧ (lua_producer_close sample_host
        (lua_producer_close sample_host (lua_create_producer []) 0 false).2 0 false).1
      ≠ lua_result.values [lua_value.boolean true] := by
  decide

/-- C4 as amended: the first `close` of an open session flushes, destroys the cached
topic objects and the queue, returns `true` and leaves the session closed; a second
`close` changes nothing at all (no flush, nothing destroyed, the session stays closed)
and returns the single value `false`. -/
theorem second_close_is_inert (h : host) (w : world) (producer : producer_t)
    (timeouts : Nat) (push_fail : Bool) (timeouts2 : Nat) (push_fail2 : Bool)
    (hopen : w.producer_p = some producer) :
    lua_producer_close h w timeouts push_fail
      = (lua_result.values [lua_value.boolean true],
         { w with
           producer_p := none,
           rd_producer := { w.rd_producer with
             flushes := w.rd_producer.flushes + (timeouts + 1),
             destroyed := w.rd_producer.destroyed ++ destroy_producer_topics producer.topics },
           destroyed_queues := w.destroyed_queues ++ [producer.delivery_queue] })
    ∧ lua_producer_close h (lua_producer_close h w timeouts push_fail).2 timeouts2 push_fail2
      = (lua_result.values [lua_value.boolean false],
         (lua_producer_close h w timeouts push_fail).2) := by
  have h1 : lua_producer_close h w timeouts push_fail
      = (lua_result.values [lua_value.boolean true],
         { w with
           producer_p := none,
           rd_producer := { w.rd_producer with
             flushes := w.rd_producer.flushes + (timeouts + 1),
             destroyed := w.rd_producer.destroyed ++ destroy_producer_topics producer.topics },
           destroyed_queues := w.destroyed_queues ++ [producer.delivery_queue] }) := by
    simp [lua_producer_close, hopen, producer_close, producer_flush, RD_KAFKA_RESP_ERR_NO_ERROR]
  refine ⟨h1, ?_⟩
  rw [h1]
  simp [lua_producer_close]

/-- C4 as amended, at a sample input: closing the session with three pending outcomes
twice. -/
theorem second_close_is_inert_witness :
    sample_pending.producer_p = some
        { topics := new_producer_topics 256
          delivery_queue := { elems := [⟨1, 0⟩, ⟨2, -192⟩, ⟨3, 0⟩] } }
    ∧ (lua_producer_close sample_host sample_pending 2 false).1
        = lua_result.values [lua_value.boolean true]
    ∧ lua_producer_close sample_host (lua_producer_close sample_host sample_pending 2 false).2
          0 false
        = (lua_result.values [lua_value.boolean false],
           (lua_producer_close sample_host sample_pending 2 false).2) :=
  have hthm := second_close_is_inert sample_host sample_pending
    { topics := new_producer_topics 256
      delivery_queue := { elems := [⟨1, 0⟩, ⟨2, -192⟩, ⟨3, 0⟩] } } 2 false 0 false rfl
  ⟨rfl, congrArg Prod.fst hthm.1, hthm.2⟩

/-- C5, the program at the failing input: two outcomes are pending, the callback of
the first raises a table, the limit is 2.  `lua_tostring` gives NULL for the table, so
`err_str` stays NULL: the loop goes on to the second callback, and the drain returns
the count 2 with nil and an empty queue. -/
theorem drain_continues_after_non_string_error :
    sample_host.lua_pcall (lua_rawgeti sample_raising.registry 1) lua_value.nil
      = pcall_result.error (lua_value.other 0)
    ∧ (lua_producer_msg_delivery_poll sample_host sample_raising 2 false).calls.map
        (fun c => c.token) = [1, 2]
    ∧ (lua_producer_msg_delivery_poll sample_host sample_raising 2 false).result
        = lua_result.values [lua_value.number 2, lua_value.nil]
    ∧ (lua_producer_msg_delivery_poll sample_host sample_raising 2 false).w.producer_p
        = some { topics := new_producer_topics 256, delivery_queue := { elems := [] } } := by
  decide

/-- C6, the program at the failing input: a valid message with a callback on a new
session with an empty registry, refused by `rd_kafka_produce`.  `produce` returns the
error text of the client, and the registry still holds the reference taken for the
callback. -/
theorem failed_submission_keeps_token :
    (lua_producer_produce sample_host (lua_create_producer []) callback_message queue_full).1
      = lua_result.values [lua_value.str (sample_host.rd_kafka_err2str (-184))]
    ∧ (lua_producer_produce sample_host (lua_create_producer []) callback_message
        queue_full).2.registry = [(1, lua_value.function 7)]
    ∧ (lua_producer_produce sample_host (lua_create_producer []) callback_message
        queue_full).2.rd_producer.msgs = [] := by
  decide

/-- C7 as amended: for every `N ≤ 2^30` and every sequence of `N` handles whose names
are pairwise distinct C strings, adding them one after the other to the cache made by
`new_producer_topics(256)`, the allocator having memory, returns `0` each time; the
cache then holds exactly these handles, each once and in insertion order,
`count = N ≤ capacity`, the capacity is `256 * 2^k` for some `k`, and
`find_producer_topic_by_name` returns for the name of each handle that handle. -/
theorem cache_growth_keeps_every_handle (handles : List rd_kafka_topic_t)
    (hN : handles.length ≤ 1073741824)
    (hnd : (handles.map (fun t => c_str (rd_kafka_topic_name t))).Nodup) :
    (∀ rc ∈ (add_all (new_producer_topics 256) handles).2, rc = 0)
    ∧ (add_all (new_producer_topics 256) handles).1.elements = handles
    ∧ (add_all (new_producer_topics 256) handles).1.count = handles.length
    ∧ (add_all (new_producer_topics 256) handles).1.count
        ≤ (add_all (new_producer_topics 256) handles).1.capacity
    ∧ (∃ k : Nat, (add_all (new_producer_topics 256) handles).1.capacity
        = ((256 * 2 ^ k : Nat) : Int))
    ∧ ∀ t ∈ handles,
        find_producer_topic_by_name (add_all (new_producer_topics 256) handles).1
          (rd_kafka_topic_name t) = some t := by
  obtain ⟨h1, h2, h3, h4⟩ := add_all_below_limit handles (new_producer_topics 256) cache_ok_new
    (by simp only [new_producer_topics]; omega)
  have hel : (add_all (new_producer_topics 256) handles).1.elements = handles := by
    rw [h3]; rfl
  obtain ⟨hc, k, _, hcap, hle⟩ := h2
  refine ⟨h1, hel, ?_, hle, ⟨k, hcap⟩, ?_⟩
  · rw [h4]; simp [new_producer_topics]
  · intro t ht
    apply find_of_mem _ t hc
    · rw [hel]; exact hnd
    · rw [hel]; exact ht

/-- C7, counterexample: `2^30 + 1` handles with pairwise distinct names.  Every
`add_producer_topics` returns `0`, but for the last one the capacity `2^30` is doubled
in an `int32_t`: it becomes `-2^31`, which is below `count` and not `256 * 2^k`. -/
theorem cache_growth_overflows_int32 :
    (many_topics 1073741825).length = 1073741825
    ∧ ((many_topics 1073741825).map (fun t => c_str (rd_kafka_topic_name t))).Nodup
    ∧ (∀ rc ∈ (add_all (new_producer_topics 256) (many_topics 1073741825)).2, rc = 0)
    ∧ (add_all (new_producer_topics 256) (many_topics 1073741825)).1.count = 1073741825
    ∧ (add_all (new_producer_topics 256) (many_topics 1073741825)).1.capacity = -2147483648
    ∧ ¬ ((add_all (new_producer_topics 256) (many_topics 1073741825)).1.count
          ≤ (add_all (new_producer_topics 256) (many_topics 1073741825)).1.capacity)
    ∧ ¬ ∃ k : Nat, (add_all (new_producer_topics 256) (many_topics 1073741825)).1.capacity
          = ((256 * 2 ^ k : Nat) : Int) := by
  have hlen : (many_topics 1073741825).length = 1073741825 := by
    unfold many_topics; rw [List.length_map, List.length_range]
  obtain ⟨h1, h2, h3⟩ := add_all_at_limit (many_topics 1073741825) hlen
  refine ⟨hlen, many_topics_nodup _, h1, h2, h3, ?_, ?_⟩
  · rw [h2, h3]; decide
  · rw [h3]; rintro ⟨k, hk⟩; omega

set_option maxRecDepth 100000 in
/-- C7 as amended, at a sample input: 257 handles, one more than the initial capacity;
the capacity has doubled once, to 512. -/
theorem cache_growth_keeps_every_handle_witness :
    (many_topics 257).length ≤ 1073741824
    ∧ ((many_topics 257).map (fun t => c_str (rd_kafka_topic_name t))).Nodup
    ∧ ((∀ rc ∈ (add_all (new_producer_topics 256) (many_topics 257)).2, rc = 0)
      ∧ (add_all (new_producer_topics 256) (many_topics 257)).1.elements = many_topics 257
      ∧ (add_all (new_producer_topics 256) (many_topics 257)).1.count
          = ((many_topics 257).length : Int)
      ∧ (add_all (new_producer_topics 256) (many_topics 257)).1.count
          ≤ (add_all (new_producer_topics 256) (many_topics 257)).1.capacity
      ∧ (∃ k : Nat, (add_all (new_producer_topics 256) (many_topics 257)).1.capacity
          = ((256 * 2 ^ k : Nat) : Int))
      ∧ ∀ t ∈ many_topics 257,
          find_producer_topic_by_name (add_all (new_producer_topics 256) (many_topics 257)).1
            (rd_kafka_topic_name t) = some t)
    ∧ (add_all (new_producer_topics 256) (many_topics 257)).1.count = 257
    ∧ (add_all (new_producer_topics 256) (many_topics 257)).1.capacity = 512 :=
  have hlen : (many_topics 257).length ≤ 1073741824 := by
    simp only [many_topics, List.length_map, List.length_range]; decide
  ⟨hlen, many_topics_nodup 257,
    cache_growth_keeps_every_handle (many_topics 257) hlen (many_topics_nodup 257),
    by decide, by decide⟩

/-- C8: on a session whose client reports only messages in flight, take a successful
`produce` of a message with a completion callback.  (1) The message handed to the
client is in flight and carries the new reference, under which the registry holds the
callback.  Whatever result code `e` the client reports for it, `msg_delivery_callback`
enqueues the outcome with that reference and the code `e`, behind the outcomes
already queued.  A drain after the `poll` that served the report, with a limit that
covers the queue and the callbacks of the earlier outcomes returning, calls the
callback of the message itself, after the earlier ones, with one argument: nil when
`e` is the no-error code, the error description of `e` otherwise.  If the callback
returns, the drain returns its count and nil whatever `e` is; an error string returned
by the drain is the C string of what the callback raised.  (2) In every such state,
`produce`, `poll` and a drain keep what the registry holds under a token that is still
to be consumed.  (3) In every such state a drain whose limit covers position `i` of
the queue and whose calls before it return makes its call number `i` for the outcome
at that position: it calls the function the registry holds under the token, with nil
when the code of the outcome is the no-error code and with the error description of
the code otherwise.  (4) An error string returned by any drain is the C string of what
a callback it called raised. -/
theorem delivery_result_reaches_callback (h : host) (w : world) (producer : producer_t)
    (msg : message) (env : produce_env) (hr : reachable_served h w)
    (hopen : w.producer_p = some producer)
    (hcb : lua_isfunction msg.dr_callback = true)
    (hs : (lua_producer_produce h w msg env).1 = lua_result.values []) :
    (∃ x producer1,
      (lua_producer_produce h w msg env).2.rd_producer.msgs.getLast? = some x
      ∧ x ∈ (lua_producer_produce h w msg env).2.rd_producer.in_flight
      ∧ x._private = some (new_queue_element (luaL_ref w.registry msg.dr_callback).1
          RD_KAFKA_RESP_ERR_NO_ERROR)
      ∧ lua_rawgeti (lua_producer_produce h w msg env).2.registry
          (luaL_ref w.registry msg.dr_callback).1 = msg.dr_callback
      ∧ (lua_producer_produce h w msg env).2.producer_p = some producer1
      ∧ producer1.delivery_queue = producer.delivery_queue
      ∧ (∀ (e : Int) (queue : queue_t),
          msg_delivery_callback { x with err := e } queue
            = { elems := queue.elems
                  ++ [{ dr_callback := (luaL_ref w.registry msg.dr_callback).1, err := e }] })
      ∧ ∀ (e : Int) (reports : List rd_kafka_message_t),
          reports_in_flight (lua_producer_produce h w msg env).2.rd_producer.in_flight
            (reports ++ [{ x with err := e }]) = true →
          ∃ pre,
            pre = (reports.foldl (fun q m => msg_delivery_callback m q)
                    producer.delivery_queue).elems
            ∧ (lua_producer_poll (lua_producer_produce h w msg env).2 false
                  (reports ++ [{ x with err := e }])).2.producer_p
                = some { producer1 with
                    delivery_queue :=
                      { elems := pre ++ [{ dr_callback := (luaL_ref w.registry msg.dr_callback).1,
                                           err := e }] } }
            ∧ ∀ (limit : Int) (push_fail : Bool),
                (pre.length : Int) < limit → limit ≤ 2147483647 →
                (∀ c ∈ (lua_producer_msg_delivery_poll h
                      (lua_producer_poll (lua_producer_produce h w msg env).2 false
                        (reports ++ [{ x with err := e }])).2 limit push_fail).calls,
                    c.token ≠ (luaL_ref w.registry msg.dr_callback).1 →
                    h.lua_pcall c.callee c.arg = pcall_result.ok) →
                (lua_producer_msg_delivery_poll h
                    (lua_producer_poll (lua_producer_produce h w msg env).2 false
                      (reports ++ [{ x with err := e }])).2 limit push_fail).calls.length
                  = pre.length + 1
                ∧ (lua_producer_msg_delivery_poll h
                    (lua_producer_poll (lua_producer_produce h w msg env).2 false
                      (reports ++ [{ x with err := e }])).2 limit push_fail).calls[pre.length]?
                  = some { token := (luaL_ref w.registry msg.dr_callback).1
                           callee := msg.dr_callback
                           arg := if e = RD_KAFKA_RESP_ERR_NO_ERROR then lua_value.nil
                                  else lua_value.str (c_str (h.rd_kafka_err2str e)) }
                ∧ (h.lua_pcall msg.dr_callback
                      (if e = RD_KAFKA_RESP_ERR_NO_ERROR then lua_value.nil
                       else lua_value.str (c_str (h.rd_kafka_err2str e))) = pcall_result.ok →
                    (lua_producer_msg_delivery_poll h
                        (lua_producer_poll (lua_producer_produce h w msg env).2 false
                          (reports ++ [{ x with err := e }])).2 limit push_fail).result
                      = lua_result.values [lua_value.number (pre.length + 1), lua_value.nil])
                ∧ ∀ (n : Int) (s : String),
                    (lua_producer_msg_delivery_poll h
                        (lua_producer_poll (lua_producer_produce h w msg env).2 false
                          (reports ++ [{ x with err := e }])).2 limit push_fail).result
                      = lua_result.values [lua_value.number n, lua_value.str s] →
                    ∃ obj s1,
                      h.lua_pcall msg.dr_callback
                          (if e = RD_KAFKA_RESP_ERR_NO_ERROR then lua_value.nil
                           else lua_value.str (c_str (h.rd_kafka_err2str e)))
                        = pcall_result.error obj
                      ∧ lua_tostring obj = some s1 ∧ s = c_str s1)
    ∧ (∀ (w2 : world) (t : Int), reachable_served h w2 →
        (∀ (msg2 : message) (env2 : produce_env), t ∈ live_tokens w2 →
          lua_rawgeti (lua_producer_produce h w2 msg2 env2).2.registry t
            = lua_rawgeti w2.registry t)
        ∧ (∀ (coio_fail : Bool) (reports : List rd_kafka_message_t),
          lua_rawgeti (lua_producer_poll w2 coio_fail reports).2.registry t
            = lua_rawgeti w2.registry t)
        ∧ ∀ (limit : Int) (push_fail : Bool),
          t ∈ live_tokens (lua_producer_msg_delivery_poll h w2 limit push_fail).w →
          lua_rawgeti (lua_producer_msg_delivery_poll h w2 limit push_fail).w.registry t
            = lua_rawgeti w2.registry t)
    ∧ (∀ (w2 : world) (producer2 : producer_t) (i : Nat) (el : queue_element_t)
        (limit : Int) (push_fail : Bool),
        reachable_served h w2 → w2.producer_p = some producer2 →
        producer2.delivery_queue.elems[i]? = some el →
        (i : Int) < limit → limit ≤ 2147483647 →
        (∀ (j : Nat) (c : callback_call), j < i →
          (lua_producer_msg_delivery_poll h w2 limit push_fail).calls[j]? = some c →
          h.lua_pcall c.callee c.arg = pcall_result.ok) →
        (lua_producer_msg_delivery_poll h w2 limit push_fail).calls[i]?
          = some { token := el.dr_callback
                   callee := lua_rawgeti w2.registry el.dr_callback
                   arg := if el.err = RD_KAFKA_RESP_ERR_NO_ERROR then lua_value.nil
                          else lua_value.str (c_str (h.rd_kafka_err2str el.err)) }
        ∧ ∃ f, lua_rawgeti w2.registry el.dr_callback = lua_value.function f)
    ∧ ∀ (w2 : world) (limit : Int) (push_fail : Bool) (n : Int) (s : String),
        (lua_producer_msg_delivery_poll h w2 limit push_fail).result
          = lua_result.values [lua_value.number n, lua_value.str s] →
        ∃ c ∈ (lua_producer_msg_delivery_poll h w2 limit push_fail).calls,
          ∃ obj s1, h.lua_pcall c.callee c.arg = pcall_result.error obj
            ∧ lua_tostring obj = some s1 ∧ s = c_str s1 := by
  refine ⟨?_, ?_, ?_, ?_⟩
  case refine_2 =>
    intro w2 t hr2
    have hw2 := reachable_served_tokens_ok h w2 hr2
    exact ⟨fun msg2 env2 ht => produce_keeps_binding h w2 msg2 env2 hw2 t ht,
      fun coio_fail reports => by rw [poll_registry],
      fun limit push_fail ht => drain_keeps_binding h w2 limit push_fail hw2 t ht⟩
  case refine_3 =>
    intro w2 producer2 i el limit push_fail hr2 hopen2 hel hlim hmax hok
    exact drain_call_at h w2 producer2 i el limit push_fail hr2 hopen2 hel hlim hmax hok
  case refine_4 =>
    intro w2 limit push_fail n s hres
    exact drain_error_from_call h w2 limit push_fail n s hres
  obtain ⟨x, producer1, hlast, hin, hpriv, hreg, hopen1, hq1⟩ :=
    produce_success_message h w producer msg env hopen hcb hs
  have hpush : ∀ (e : Int) (queue : queue_t),
      msg_delivery_callback { x with err := e } queue
        = { elems := queue.elems
              ++ [{ dr_callback := (luaL_ref w.registry msg.dr_callback).1, err := e }] } :=
    fun e queue => msg_delivery_callback_push { x with err := e } _ queue hpriv
  refine ⟨x, producer1, hlast, hin, hpriv, hreg, hopen1, hq1, hpush, ?_⟩
  intro e reports hvalid
  have hr2 := reachable_served.poll _ false _ (reachable_served.produce w msg env hr) hvalid
  have hw2 := poll_served (lua_producer_produce h w msg env).2 producer1
    (reports ++ [{ x with err := e }]) hopen1
  rw [List.foldl_append, List.foldl_cons, List.foldl_nil, hpush, hq1] at hw2
  have hopen2 : (lua_producer_poll (lua_producer_produce h w msg env).2 false
      (reports ++ [{ x with err := e }])).2.producer_p
        = some { producer1 with
            delivery_queue :=
              { elems := (reports.foldl (fun q m => msg_delivery_callback m q)
                    producer.delivery_queue).elems
                  ++ [{ dr_callback := (luaL_ref w.registry msg.dr_callback).1, err := e }] } } := by
    rw [hw2]
  have hreg2 : (lua_producer_poll (lua_producer_produce h w msg env).2 false
      (reports ++ [{ x with err := e }])).2.registry
        = (lua_producer_produce h w msg env).2.registry := by
    rw [hw2]
  refine ⟨_, rfl, hopen2, ?_⟩
  intro limit push_fail hlim hmax hok
  obtain ⟨hnd, _⟩ := reachable_served_tokens_ok h _ hr2
  have hfresh : (luaL_ref w.registry msg.dr_callback).1
      ∉ (reports.foldl (fun q m => msg_delivery_callback m q)
          producer.delivery_queue).elems.map (fun el => el.dr_callback) := by
    simp only [live_tokens, queue_tokens, hopen2, List.map_append, List.map_cons,
      List.map_nil] at hnd
    have hnd1 := (List.nodup_append.1 (List.nodup_append.1 hnd).1)
    intro hmem
    exact hnd1.2.2 hmem (List.mem_singleton.2 rfl)
  obtain ⟨hcalls, hres⟩ := drain_reaches_last h _ _
    (reports.foldl (fun q m => msg_delivery_callback m q) producer.delivery_queue).elems
    { dr_callback := (luaL_ref w.registry msg.dr_callback).1, err := e }
    limit push_fail hopen2 rfl hfresh hlim hmax hok
  rw [hreg2, hreg] at hres
  refine ⟨?_, ?_, ?_, ?_⟩
  · rw [hcalls, calls_in_turn_length, List.length_append, List.length_singleton]
  · rw [hcalls, calls_in_turn_get h _ _ _ _ (List.getElem?_concat_length _ _),
      List.take_left, lua_rawgeti_foldl_unref _ _ _ hfresh, hreg2, hreg]
  · intro hret
    rw [hres]
    simp only [pcall_err_str, hret]
  · intro n s hval
    rw [hres] at hval
    cases herr : pcall_err_str h msg.dr_callback
        (if e = RD_KAFKA_RESP_ERR_NO_ERROR then lua_value.nil
         else lua_value.str (c_str (h.rd_kafka_err2str e))) with
    | none => simp [herr] at hval
    | some s1 =>
      obtain ⟨obj, ho1, ho2⟩ := pcall_err_str_some h _ _ s1 herr
      refine ⟨obj, s1, ho1, ho2, ?_⟩
      simp only [herr, return_string] at hval
      cases push_fail with
      | true => simp at hval
      | false =>
        simp only [Bool.false_eq_true, if_false, List.singleton_append, lua_result.values.injEq,
          List.cons.injEq, lua_value.number.injEq, lua_value.str.injEq, and_true] at hval
        exact hval.2.symm

set_option maxRecDepth 100000 in
/-- C8, at a sample input: on the session with three pending outcomes a message with
the callback function 7 is produced and reported as timed out.  The outcome is queued
fourth with the code of the report; a drain with limit 10 makes four calls, the fourth
calls function 7 with the error text, and the drain returns 4 and nil. -/
theorem delivery_result_reaches_callback_witness :
    reachable_served sample_host sample_served
    ∧ sample_served.producer_p = some
        { topics := { elements := [{ name := "t", id := 0 }], count := 1, capacity := 256 }
          delivery_queue := { elems := [⟨1, 0⟩, ⟨2, -192⟩, ⟨3, 0⟩] } }
    ∧ lua_isfunction callback_message.dr_callback = true
    ∧ (lua_producer_produce sample_host sample_served callback_message all_ok).1
        = lua_result.values []
    ∧ (lua_producer_produce sample_host sample_served callback_message
          all_ok).2.rd_producer.msgs.getLast? = some { sample_timed_out with err := 0 }
    ∧ sample_reported.producer_p = some
        { topics := { elements := [{ name := "t", id := 0 }], count := 1, capacity := 256 }
          delivery_queue := { elems := [⟨1, 0⟩, ⟨2, -192⟩, ⟨3, 0⟩, ⟨4, -192⟩] } }
    ∧ (lua_producer_msg_delivery_poll sample_host sample_reported 10 false).calls.length = 4
    ∧ (lua_producer_msg_delivery_poll sample_host sample_reported 10 false).calls[3]?
        = some { token := 4, callee := lua_value.function 7,
                 arg := lua_value.str "Local: Message timed out" }
    ∧ (lua_producer_msg_delivery_poll sample_host sample_reported 10 false).result
        = lua_result.values [lua_value.number 4, lua_value.nil]
    ∧ (lua_producer_msg_delivery_poll sample_host sample_served 2 false).calls[1]?
        = some { token := 2, callee := lua_value.function 2,
                 arg := lua_value.str "Local: Message timed out" } := by
  have hopen : sample_served.producer_p = some
      { topics := { elements := [{ name := "t", id := 0 }], count := 1, capacity := 256 }
        delivery_queue := { elems := [⟨1, 0⟩, ⟨2, -192⟩, ⟨3, 0⟩] } } := by decide
  have hs : (lua_producer_produce sample_host sample_served callback_message all_ok).1
      = lua_result.values [] := by decide
  have hmsg : (lua_producer_produce sample_host sample_served callback_message
      all_ok).2.rd_producer.msgs.getLast? = some { sample_timed_out with err := 0 } := by decide
  obtain ⟨⟨x, producer1, hlast, _, _, _, _, _, _, hpipe⟩, _, hat, _⟩ :=
    delivery_result_reaches_callback sample_host sample_served _ callback_message all_ok
      sample_served_reachable hopen rfl hs
  have hx : x = { sample_timed_out with err := 0 } := Option.some.inj (hlast.symm.trans hmsg)
  subst hx
  obtain ⟨pre, hpre, _, hdrain⟩ := hpipe (-192) [] (by decide)
  have hpre3 : pre = [⟨1, 0⟩, ⟨2, -192⟩, ⟨3, 0⟩] := hpre
  subst hpre3
  obtain ⟨hlen, hcall, hret, _⟩ := hdrain 10 false (by decide) (by decide) (by decide)
  have hfirst : ∀ (j : Nat) (c : callback_call), j < 1 →
      (lua_producer_msg_delivery_poll sample_host sample_served 2 false).calls[j]? = some c →
      sample_host.lua_pcall c.callee c.arg = pcall_result.ok := by
    intro j c hj hc
    have hj0 : j = 0 := by omega
    subst hj0
    have hc0 : (lua_producer_msg_delivery_poll sample_host sample_served 2 false).calls[0]?
        = some { token := 1, callee := lua_value.function 1, arg := lua_value.nil } := by
      decide
    rw [hc0] at hc
    rw [← Option.some.inj hc]
    rfl
  exact ⟨sample_served_reachable, hopen, rfl, hs, hmsg, by decide, hlen, hcall, hret (by decide),
    (hat sample_served _ 1 ⟨2, -192⟩ 2 false sample_served_reachable hopen rfl (by decide)
      (by decide) hfirst).1⟩

/-- C9, the program at the failing input: key `a\0b` and value `v\0w`.  The lengths
come from `strlen`, so the client is given the key `a` of length 1 and the payload
`v` of length 1. -/
theorem produce_truncates_at_zero_byte :
    (lua_producer_produce sample_host (lua_create_producer []) binary_message all_ok).1
      = lua_result.values []
    ∧ (lua_producer_produce sample_host (lua_create_producer []) binary_message
        all_ok).2.rd_producer.msgs
      = [{ rkt := { name := "t", id := 0 }, payload := some "v", len := 1, key := some "a",
           key_len := 1, err := 0, _private := none }] := by
  decide

/-- C10, the program at the failing input: `produce` with a valid message and a callback
on a closed session.  The call raises the error of `lua_check_producer`, but the
reference for the callback was taken before the check and stays in the registry. -/
theorem produce_after_close_registers_token :
    closed_session.producer_p = none
    ∧ closed_session.registry = []
    ∧ (lua_producer_produce sample_host closed_session callback_message all_ok).1
      = lua_result.error
          "Kafka consumer fatal error: failed to retrieve producer from lua stack!"
    ∧ (lua_producer_produce sample_host closed_session callback_message all_ok).2.registry
      = [(1, lua_value.function 7)] := by
  decide

end Producer
